import Mathlib

/-!
# gosign: request signatures

A shallow embedding of `sign.go` (package `gosign`) and the properties of its
specification.

* A Go `string` is a list of bytes; string comparison is byte-wise.
* A Go `map` with string keys is the list of its entries, in the order in which a
  `range` loop happens to visit them; every key occurs once.
* A run-time panic is the result `none`.
* `*http.Request` is a record that is passed through every function that may
  change it (`ParseForm` and the body stream). Its body is nil or a stream of
  bytes that reads without error; the URL query string is held decoded.
* `crypto/md5` and `url.ParseQuery` are parameters (`StdLib`); `url.QueryEscape`,
  `hex.EncodeToString`, `strings.ToUpper`, `strconv.ParseInt`, `ParseForm` and the
  arithmetic of package `time` follow the standard library.
* The wall clock is a parameter of `SignTimeout`, and a reading of it carries
  the local time zone; `int64` wrap-around, the saturation of `Duration` and the
  rounding of `float64` are explicit.
-/

namespace Gosign

/-! ## Strings -/

/-- One byte of a Go string. -/
abbrev Byte := Fin 256

/-- Go strings are byte sequences. -/
abbrev Str := List Byte

/-- The bytes of an ASCII literal. -/
def ascii (s : String) : Str := s.toList.map fun c => Fin.ofNat c.toNat

/-- Go string comparison `a <= b`: byte-wise, a proper prefix comes first. -/
def Str.le : Str → Str → Bool
  | [], _ => true
  | _ :: _, [] => false
  | a :: s, b :: t => decide (a < b) || (a == b && Str.le s t)

/-- Go string comparison `a < b`. -/
def Str.lt (a b : Str) : Bool := Str.le a b && !(a == b)

/-- The order `<=` of strings as a relation: the order of `sort.Strings`. -/
def StrLE (a b : Str) : Prop := Str.le a b = true

instance : DecidableRel StrLE := fun a b => inferInstanceAs (Decidable (Str.le a b = true))

/-- The order `<` of strings as a relation. -/
def StrLT (a b : Str) : Prop := Str.lt a b = true

instance : DecidableRel StrLT := fun a b => inferInstanceAs (Decidable (Str.lt a b = true))

/-! ## Maps -/

/-- A Go map with string keys: its entries, each key once. -/
abbrev GoMap (V : Type) := List (Str × V)

/-- Map lookup `m[k]` with the presence flag. -/
def GoMap.get? {V : Type} : GoMap V → Str → Option V
  | [], _ => none
  | (k1, v) :: m, k => if k1 = k then some v else GoMap.get? m k

/-- Map assignment `m[k] = v`. -/
def GoMap.set {V : Type} : GoMap V → Str → V → GoMap V
  | [], k, v => [(k, v)]
  | (k1, v1) :: m, k, v => if k1 = k then (k, v) :: m else (k1, v1) :: GoMap.set m k v

/-- The keys of a map, in iteration order. -/
def GoMap.keys {V : Type} (m : GoMap V) : List Str := m.map Prod.fst

/-- A non-empty `[]string`: element 0 and the elements after it. `url.ParseQuery`
and `copyValues` only ever append to the slice of a key, so every slice held by a
`url.Values` they build has an element 0. -/
abbrev Slice := Str × List Str

/-- The type `url.Values`, that is `map[string][]string`. -/
abbrev Values := GoMap Slice

/-- The standard-library functions that are taken as given. -/
structure StdLib where
  /-- The 16-byte digest `md5.New(); Write(text); Sum(nil)` of `crypto/md5`. -/
  md5Sum : Str → Str
  /-- The value returned by `url.ParseQuery` (its error is dropped by every caller). -/
  parseQuery : Str → Values

/-! ## Encoding helpers of the standard library -/

/-- The table `"0123456789abcdef"` of `encoding/hex`. -/
def hextable (n : Nat) : Byte :=
  if n < 10 then Fin.ofNat (48 + n) else Fin.ofNat (87 + n)

/-- The table `"0123456789ABCDEF"` of `net/url`. -/
def upperhex (n : Nat) : Byte :=
  if n < 10 then Fin.ofNat (48 + n) else Fin.ofNat (55 + n)

/-- Function `hex.EncodeToString`: two lower-case digits per byte. -/
def hexEncodeToString (src : Str) : Str :=
  src.flatMap fun b => [hextable (b.val / 16), hextable (b.val % 16)]

/-- Function `strings.ToUpper` on an ASCII string: `a`..`z` become `A`..`Z`. -/
def toUpper (s : Str) : Str :=
  s.map fun c => if 97 ≤ c.val ∧ c.val ≤ 122 then Fin.ofNat (c.val - 32) else c

/-- The test `shouldEscape(c, encodeQueryComponent)` of `net/url`: everything
except letters, digits and `-`, `_`, `.`, `~`. -/
def shouldEscape (c : Byte) : Bool :=
  !((97 ≤ c.val && c.val ≤ 122) || (65 ≤ c.val && c.val ≤ 90) || (48 ≤ c.val && c.val ≤ 57)
    || c.val == 45 || c.val == 95 || c.val == 46 || c.val == 126)

/-- Function `url.QueryEscape`: a space becomes `+`, an escaped byte becomes `%XX`. -/
def QueryEscape (s : Str) : Str :=
  s.flatMap fun c =>
    if c.val = 32 then [Fin.ofNat 43]
    else if shouldEscape c then [Fin.ofNat 37, upperhex (c.val / 16), upperhex (c.val % 16)]
    else [c]

/-! ## The request -/

/-- The part of `*http.Request` that the package reads and writes. -/
structure Request where
  /-- Field `r.Method`. -/
  Method : Str
  /-- The value of `r.URL.Query()`: the decoded query string of the URL. -/
  Query : Values
  /-- Whether the media type of the `Content-Type` header is
  `application/x-www-form-urlencoded`. -/
  formType : Bool
  /-- Field `r.Body`: `none` while it is nil (a client request made without a
  body), else the bytes not yet read from the stream. -/
  Body : Option Str
  /-- Field `r.PostForm`, `none` while it is nil. -/
  PostForm : Option Values
  /-- Field `r.Form`, `none` while it is nil. -/
  Form : Option Values
deriving DecidableEq

/-- Constant `http.MethodGet`. -/
def MethodGet : Str := ascii "GET"

/-- Constant `http.MethodPost`. -/
def MethodPost : Str := ascii "POST"

/-- The form size limit `10 << 20` of `net/http`. -/
def maxFormSize : Nat := 10 * 2 ^ 20

/-- Append of two non-empty slices. -/
def Slice.append (a b : Slice) : Slice := (a.1, a.2 ++ b.1 :: b.2)

/-- The body of the loop of `copyValues`: `dst[k] = append(dst[k], vs...)`. -/
def copyValuesStep (dst : Values) (kv : Str × Slice) : Values :=
  match GoMap.get? dst kv.1 with
  | some old => GoMap.set dst kv.1 (old.append kv.2)
  | none => GoMap.set dst kv.1 kv.2

/-- Function `copyValues` of `net/http`: `dst[k] = append(dst[k], vs...)` for
every entry of `src`. -/
def copyValues (dst src : Values) : Values := src.foldl copyValuesStep dst

/-- Function `parsePostForm` of `net/http`: a nil body yields nil; for a
url-encoded form at most `maxFormSize + 1` bytes are read from the body and,
unless that is too large, decoded; any other content type leaves the body alone
and yields nil. -/
def parsePostForm (L : StdLib) (r : Request) : Option Values × Request :=
  match r.Body with
  | none => (none, r)
  | some body =>
    if r.formType then
      let b := body.take (maxFormSize + 1)
      let r1 := { r with Body := some (body.drop (maxFormSize + 1)) }
      if b.length > maxFormSize then (none, r1) else (some (L.parseQuery b), r1)
    else (none, r)

/-- The first block of `ParseForm`: a nil `PostForm` becomes the decoded body of
a POST, PUT or PATCH request, or an empty map. -/
def fillPostForm (L : StdLib) (r : Request) : Request :=
  match r.PostForm with
  | some _ => r
  | none =>
    if r.Method = ascii "POST" ∨ r.Method = ascii "PUT" ∨ r.Method = ascii "PATCH" then
      let res := parsePostForm L r
      { res.2 with PostForm := some (res.1.getD []) }
    else { r with PostForm := some [] }

/-- The second block of `ParseForm`: a nil `Form` becomes a copy of `PostForm`
(when that has entries) extended by the values of the URL query. -/
def fillForm (r : Request) : Request :=
  match r.Form with
  | some _ => r
  | none =>
    let pf := r.PostForm.getD []
    if pf.length > 0 then { r with Form := some (copyValues (copyValues [] pf) r.Query) }
    else { r with Form := some r.Query }

/-- Method `(*http.Request).ParseForm`: fills `PostForm` and `Form` when they
are nil and is idle otherwise. -/
def ParseForm (L : StdLib) (r : Request) : Request := fillForm (fillPostForm L r)

/-! ## The package -/

/-- The struct `Generator`. -/
structure Generator where
  /-- The liveness window in minutes. -/
  liveMinutes : Int
  /-- The access key. -/
  ak : Str
  /-- The secret key. -/
  sk : Str
  /-- The time stamp of the request. -/
  accessTs : Str
deriving DecidableEq

/-- The type `OptionFn`: an update of the generator under construction. -/
abbrev OptionFn := Generator → Generator

/-- Function `LiveMinutes`. -/
def LiveMinutes (live : Int) : OptionFn := fun g => { g with liveMinutes := live }

/-- Function `NewGenerator`: the default window is 2 minutes, then the options
are applied in order. -/
def NewGenerator (ak sk accessTs : Str) (options : List OptionFn) : Generator :=
  options.foldl (fun g fn => fn g) { liveMinutes := 2, ak := ak, sk := sk, accessTs := accessTs }

/-- Function `upperMD5`: the upper-cased hexadecimal MD5 digest of `text`. -/
def upperMD5 (L : StdLib) (text : Str) : Str :=
  toUpper (hexEncodeToString (L.md5Sum text))

/-- Function `queryParams`: the table `fns` has an entry for GET and one for POST;
for any other method `fns[r.Method]` is a nil function and calling it panics. -/
def queryParams (L : StdLib) (r : Request) : Option (Values × Request) :=
  if r.Method = MethodGet then some (r.Query, r)
  else if r.Method = MethodPost then
    let r1 := ParseForm L r
    some (r1.Form.getD [], r1)
  else none

/-- The body of the loop of `withHeaders`. -/
def withHeadersStep (result : GoMap Str) (kv : Str × Slice) : GoMap Str :=
  if kv.1 = [] ∨ kv.2.1 = [] then result else GoMap.set result kv.1 kv.2.1

/-- Function `withHeaders`. -/
def withHeaders (L : StdLib) (r : Request) (ak accessTs : Str) : Option (GoMap Str × Request) :=
  match queryParams L r with
  | none => none
  | some (params, r1) =>
    some (params.foldl withHeadersStep [(ascii "ak", ak), (ascii "accessTs", accessTs)], r1)

/-- Function `ioutil.ReadAll(r.Body)`: everything left in the stream, which is
drained; reading from a nil `r.Body` panics. -/
def readAll (r : Request) : Option (Str × Request) :=
  match r.Body with
  | none => none
  | some body => some (body, { r with Body := some [] })

/-- Function `bodyParams`; the deferred function installs a fresh stream over
the bytes that were read. -/
def bodyParams (L : StdLib) (r : Request) : Option (Str × Request) :=
  if r.Method ≠ MethodPost then some ([], r)
  else
    match readAll r with
    | none => none
    | some (bodyBytes, r1) =>
      let r2 := { r1 with Body := some bodyBytes }
      if bodyBytes.length = 0 then some ([], r2) else some (upperMD5 L bodyBytes, r2)

/-- Function `sortKeys`: the keys of the map in ascending order (`sort.Strings`). -/
def sortKeys (mp : GoMap Str) : List Str :=
  (GoMap.keys mp).insertionSort StrLE

/-- Method `Generator.strToSign`. -/
def strToSign (L : StdLib) (p : Generator) (r : Request) : Option (Str × Request) :=
  match withHeaders L r p.ak p.accessTs with
  | none => none
  | some (qParams, r1) =>
    let sortedKeys := sortKeys qParams
    let str := sortedKeys.foldl
      (fun str k => str ++ (k ++ ascii "=" ++ QueryEscape ((GoMap.get? qParams k).getD []) ++ ascii "&")) []
    match bodyParams L r1 with
    | none => none
    | some res =>
      let str := if res.1 ≠ [] then str ++ (res.1 ++ ascii "&") else str
      some (str ++ ascii "secret=" ++ upperMD5 L p.sk, res.2)

/-- Method `Generator.GenerateSign`. -/
def GenerateSign (L : StdLib) (p : Generator) (r : Request) : Option (Str × Request) :=
  match strToSign L p r with
  | none => none
  | some (s, r1) => some (upperMD5 L s, r1)

/-- Method `Generator.VerifySign`. -/
def VerifySign (L : StdLib) (p : Generator) (r : Request) (clientSign : Str) :
    Option (Bool × Request) :=
  match GenerateSign L p r with
  | none => none
  | some (s, r1) => some (decide (s = clientSign), r1)

/-! ## Time

`float64` arithmetic is round-to-nearest-even on 53 significant bits; every value
computed below is zero or has a magnitude between `2^(-36)` and `2^34`, so the
exponent range of the format plays no part. -/

/-- The nearest integer, a tie going to the even one. -/
def roundHalfEven (q : ℚ) : ℤ :=
  let f := ⌊q⌋
  if q - f < 1 / 2 then f
  else if 1 / 2 < q - f then f + 1
  else if f % 2 = 0 then f else f + 1

/-- The position of the leading binary digit of `n >= 1`, found in at most
`fuel` halvings. -/
def natLog2 : Nat → Nat → Nat
  | 0, _ => 0
  | fuel + 1, n => if n < 2 then 0 else natLog2 fuel (n / 2) + 1

/-- The binary exponent `e` of a positive rational: `2^e <= q < 2^(e+1)`. -/
def exponent (q : ℚ) : ℤ :=
  let e0 : ℤ := (natLog2 q.num.toNat q.num.toNat : ℤ) - (natLog2 q.den q.den : ℤ)
  if (2 : ℚ) ^ e0 ≤ q then e0 else e0 - 1

/-- The float64 nearest to a positive rational: a multiple of `2^(e-52)` where
`2^e <= q < 2^(e+1)`. -/
def float64Pos (q : ℚ) : ℚ :=
  roundHalfEven (q / 2 ^ (exponent q - 52)) * 2 ^ (exponent q - 52)

/-- The float64 nearest to a rational (the result of one float64 operation whose
exact result is `q`). -/
def float64 (q : ℚ) : ℚ :=
  if q = 0 then 0 else if 0 < q then float64Pos q else -float64Pos (-q)

/-- The conversion `int(x)` of a float64: truncation toward zero. -/
def truncToInt (x : ℚ) : Int := if 0 ≤ x then ⌊x⌋ else ⌈x⌉

/-- What `(*Location).lookup` returns for a time: the offset of the zone in use,
in seconds east of UTC, and the Unix times between which that zone is in use
(from `start`, before `stop`). -/
structure ZoneSpan where
  /-- Seconds east of UTC. -/
  offset : Int
  /-- The zone is in use from this Unix time on. -/
  start : Int
  /-- The zone is in use before this Unix time (`end` in the source). -/
  stop : Int

/-- A `*time.Location`: the zone in use at each Unix time. -/
structure Location where
  /-- Method `lookup`, at a time in Unix seconds. -/
  lookup : Int → ZoneSpan

/-- The location `time.UTC`. -/
def Location.utc : Location where
  lookup := fun _ => { offset := 0, start := -(2 ^ 63), stop := 2 ^ 63 - 1 }

/-- A reading `time.Now()` of the wall clock, at or after the Unix epoch; its
location is `time.Local`. -/
structure Time where
  /-- Seconds since the Unix epoch. -/
  unix : Nat
  /-- Nanoseconds within the second. -/
  nsec : Fin 1000000000
  /-- The location of the time, `time.Local` for `time.Now()`. -/
  loc : Location := Location.utc

/-- Constant `unixToInternal` of package `time`: seconds from year 1 to 1970. -/
def unixToInternal : Int := 62135596800

/-- Wrap-around of `int64` arithmetic. -/
def wrapInt64 (x : Int) : Int := (x + 2 ^ 63) % 2 ^ 64 - 2 ^ 63

/-- Constant `minDuration` of package `time`. -/
def minDuration : Int := -(2 ^ 63)

/-- Constant `maxDuration` of package `time`. -/
def maxDuration : Int := 2 ^ 63 - 1

/-- The digits of `strconv.ParseUint(s, 10, 64)`: the value of a string of decimal
digits, `none` at any other byte. -/
def digitsValue (acc : Nat) : Str → Option Nat
  | [] => some acc
  | c :: s => if 48 ≤ c.val ∧ c.val ≤ 57 then digitsValue (acc * 10 + (c.val - 48)) s else none

/-- Function `strconv.ParseInt(s, 10, 64)`, `none` when it returns an error: an
optional sign, then at least one digit and only digits, the value within `int64`. -/
def ParseInt (s : Str) : Option Int :=
  match s with
  | [] => none
  | c :: rest =>
    let neg : Bool := c.val == 45
    let ds := if c.val = 43 ∨ c.val = 45 then rest else s
    if ds = [] then none
    else
      match digitsValue 0 ds with
      | none => none
      | some un =>
        if neg then (if un > 2 ^ 63 then none else some (-(un : Int)))
        else (if un ≥ 2 ^ 63 then none else some (un : Int))

/-- Function `time.Unix(sec, 0)`: the seconds since year 1 held by the result,
computed in `int64`. -/
def timeUnix (sec : Int) : Int := wrapInt64 (sec + unixToInternal)

/-- Method `Time.Sub` for a wall clock reading `t` and a time `u` given by its
seconds since year 1: the difference in nanoseconds, saturated to the range of
`Duration`. -/
def Time.Sub (t : Time) (u : Int) : Int :=
  let d := ((t.unix : Int) + unixToInternal - u) * 1000000000 + (t.nsec.val : Int)
  if d < minDuration then minDuration else if d > maxDuration then maxDuration else d

/-- Method `Duration.Seconds`: `float64(sec) + float64(nsec)/1e9`. -/
def Duration.Seconds (d : Int) : ℚ :=
  float64 (float64 (d.tdiv 1000000000 : Int) + float64 (float64 (d.tmod 1000000000 : Int) / 1000000000))

/-- The date and clock of a time in its location (methods `Date` and `Clock`, by
way of `abs`), as the seconds from 1970-01-01 00:00:00 of that local date and
clock. -/
def Time.wallSeconds (t : Time) : Int := (t.unix : Int) + (t.loc.lookup (t.unix : Int)).offset

/-- Function `time.Date` for a local date and clock given by its seconds `unix`
from 1970-01-01 00:00:00, in the location `loc`; the result in Unix seconds. The
offset is looked up at `unix` first, and again at `unix - offset` when that time
lies outside the zone found. -/
def Date (unix : Int) (loc : Location) : Int :=
  let z := loc.lookup unix
  if z.offset ≠ 0 then
    let utc := unix - z.offset
    let offset := if utc < z.start ∨ utc ≥ z.stop then (loc.lookup utc).offset else z.offset
    unix - offset
  else unix

/-- The value of `time.Now().AddDate(0, 0, -7).Unix()`: `AddDate` takes the date
and the clock of `now` in its location and calls `Date` with the day lowered by 7;
`Date` counts the days linearly, so this is the local date and clock of `now`
less `7 * 86400` seconds. Across a change of the zone offset the result is not
`7 * 86400` seconds before `now`. -/
def sevenDaysAgo (now : Time) : Int := Date (now.wallSeconds - 7 * 86400) now.loc

/-- Function `timeSpanMinutes`; `now` is the reading of the clock during the call
(both calls of `time.Now()` return it). -/
def timeSpanMinutes (now : Time) (unix : Str) : ℚ :=
  let i : Int :=
    match ParseInt unix with
    | some i => i
    | none => sevenDaysAgo now
  let tm := timeUnix i
  let tmSpan := now.Sub tm
  float64 (Duration.Seconds tmSpan / 60)

/-- Method `Generator.SignTimeout`. -/
def SignTimeout (p : Generator) (now : Time) (accessTs : Str) : Bool :=
  decide (truncToInt (timeSpanMinutes now accessTs) > p.liveMinutes)

/-- The whole minutes `int(d.Seconds() / 60.0)` of a duration of `d` nanoseconds. -/
def wholeMinutes (d : Int) : Int := truncToInt (float64 (Duration.Seconds d / 60))

/-- The digits of `n`, most significant first, put in front of `rest`, found in
at most `fuel` divisions by ten. -/
def decimalAux : Nat → Nat → Str → Str
  | 0, _, rest => rest
  | fuel + 1, n, rest =>
    if n < 10 then Fin.ofNat (48 + n) :: rest
    else decimalAux fuel (n / 10) (Fin.ofNat (48 + n % 10) :: rest)

/-- The decimal string of a natural number: `strconv.FormatInt(n, 10)`. -/
def decimal (n : Nat) : Str := decimalAux (n + 1) n []

/-- Any two zone offsets of the location differ by at most `d` minutes: `d = 0`
for a zone with one offset such as UTC, `d = 60` for a zone with a daylight
saving shift of one hour. -/
def Location.offsetsWithin (loc : Location) (d : Nat) : Prop :=
  ∀ u v : Int, (loc.lookup u).offset - (loc.lookup v).offset ≤ (d : Int) * 60

/-- The reading of the clock fits the `int64` seconds since year 1 that a
`time.Time` holds. -/
def Time.representable (t : Time) : Prop := (t.unix : Int) + unixToInternal < 2 ^ 63

instance (t : Time) : Decidable t.representable :=
  inferInstanceAs (Decidable ((t.unix : Int) + unixToInternal < 2 ^ 63))

/-! ## Vocabulary of the specification -/

/-- The segment `key=URL-percent-encoded(value)&` of a key of the mapping. -/
def segment (m : GoMap Str) (k : Str) : Str :=
  k ++ ascii "=" ++ QueryEscape ((GoMap.get? m k).getD []) ++ ascii "&"

/-- An upper-case hexadecimal digit: `0`..`9` or `A`..`F`. -/
def isUpperHex (c : Byte) : Prop := (48 ≤ c.val ∧ c.val ≤ 57) ∨ (65 ≤ c.val ∧ c.val ≤ 70)

instance (c : Byte) : Decidable (isUpperHex c) :=
  inferInstanceAs (Decidable ((48 ≤ c.val ∧ c.val ≤ 57) ∨ (65 ≤ c.val ∧ c.val ≤ 70)))

/-- What a signature keeps of a parameter map: each name with its first value,
without the empty names and the empty first values. -/
def signedValue (params : Values) (k : Str) : Option Str :=
  match GoMap.get? params k with
  | some s => if k = [] ∨ s.1 = [] then none else some s.1
  | none => none

/-- The names and first values of a parameter map, in iteration order. -/
def firstValues (params : Values) : List (Str × Str) := params.map fun e => (e.1, e.2.1)

/-- Two parameter maps differ at most in the second and later values of their
parameters. -/
def sameFirstValues (a b : Values) : Prop := firstValues a = firstValues b

/-- The bytes `url.QueryEscape` writes for one byte. -/
def escapeByte (c : Byte) : Str :=
  if c.val = 32 then [Fin.ofNat 43]
  else if shouldEscape c then [Fin.ofNat 37, upperhex (c.val / 16), upperhex (c.val % 16)]
  else [c]

/-- The value of an upper-case hexadecimal digit. -/
def unhex (c : Byte) : Nat := if c.val ≤ 57 then c.val - 48 else c.val - 55

/-- The byte that `escapeByte` wrote. -/
def unescapeByte : Str → Option Byte
  | [c] => if c.val = 43 then some (Fin.ofNat 32) else some c
  | [_, h, l] => some (Fin.ofNat (unhex h * 16 + unhex l))
  | _ => none

/-- A parameter name that cannot be mistaken for a part of the canonical string:
it holds no `=` and is not one of the keys `ak`, `accessTs`. -/
def plainName (k : Str) : Prop :=
  (61 : Byte) ∉ k ∧ k ≠ ascii "ak" ∧ k ≠ ascii "accessTs"

instance (k : Str) : Decidable (plainName k) :=
  inferInstanceAs (Decidable ((61 : Byte) ∉ k ∧ k ≠ ascii "ak" ∧ k ≠ ascii "accessTs"))

/-- Every parameter that is signed (non-empty name, non-empty first value) has a
plain name. -/
def plainNames (params : Values) : Prop :=
  ∀ e ∈ params, e.1 ≠ [] → e.2.1 ≠ [] → plainName e.1

instance (params : Values) : Decidable (plainNames params) :=
  inferInstanceAs (Decidable (∀ e ∈ params, e.1 ≠ [] → e.2.1 ≠ [] → plainName e.1))

/-- The keys of a map are pairwise different, as they are in every Go map. -/
def distinctKeys {V : Type} (m : GoMap V) : Prop := (GoMap.keys m).Nodup

instance {V : Type} (m : GoMap V) : Decidable (distinctKeys m) :=
  inferInstanceAs (Decidable (GoMap.keys m).Nodup)

/-- A stand-in for the standard library, used to run the definitions: the digest
is the first 16 bytes of the text, zero padded, and a form body always decodes to
the one parameter `x=1`. -/
def testLib : StdLib where
  md5Sum := fun s => (s ++ List.replicate 16 0).take 16
  parseQuery := fun _ => [(ascii "x", (ascii "1", []))]

/-- The generator of the worked example: `AK1`, `SK1`, `1700000000`. -/
def exampleGenerator : Generator :=
  { liveMinutes := 2, ak := ascii "AK1", sk := ascii "SK1", accessTs := ascii "1700000000" }

/-- The GET request of the worked example: query `b=2&a=1`, no body. -/
def exampleGet : Request :=
  { Method := MethodGet, Query := [(ascii "b", (ascii "2", [])), (ascii "a", (ascii "1", []))],
    formType := false, Body := none, PostForm := none, Form := none }

/-- A GET request with a query parameter named `ak`. -/
def akOverrideGet : Request :=
  { exampleGet with Query := [(ascii "ak", (ascii "EVIL", []))] }

/-- A POST request with the url-encoded form body `x=1`. -/
def formPost : Request :=
  { exampleGet with Method := MethodPost, formType := true, Body := some (ascii "x=1") }

/-- A POST request with the JSON body of the worked example. -/
def jsonPost : Request :=
  { exampleGet with Method := MethodPost, Body := some (ascii "\x7b\"x\":1\x7d") }

/-- A POST request made without a body, as by `http.NewRequest("POST", u, nil)`:
`r.Body` is nil. -/
def nilBodyPost : Request :=
  { exampleGet with Method := MethodPost }

/-- A POST request with an empty body stream (`http.NoBody`). -/
def emptyBodyPost : Request :=
  { exampleGet with Method := MethodPost, Body := some [] }

/-- The zone `America/New_York` from November 2022 to March 2024: UTC-5 until
2023-03-12 07:00 UTC, UTC-4 until 2023-11-05 06:00 UTC, UTC-5 after that. -/
def newYork : Location where
  lookup := fun u =>
    if u < 1678604400 then { offset := -18000, start := 1667714400, stop := 1678604400 }
    else if u < 1699164000 then { offset := -14400, start := 1678604400, stop := 1699164000 }
    else { offset := -18000, start := 1699164000, stop := 1710054000 }

/-- Two GET requests whose canonical strings coincide: the parameters `x=1`, `y=2`
and the one parameter named `x=1&y` with the value `2`. -/
def collideGet1 : Request :=
  { exampleGet with Query := [(ascii "x", (ascii "1", [])), (ascii "y", (ascii "2", []))] }

/-- The second of the two requests. -/
def collideGet2 : Request :=
  { exampleGet with Query := [(ascii "x=1&y", (ascii "2", []))] }

/-! ## String order -/

theorem Str.le_refl (a : Str) : Str.le a a = true := by
  induction a with
  | nil => rfl
  | cons x s ih => simp [Str.le, ih]

theorem Str.le_total (a b : Str) : Str.le a b = true ∨ Str.le b a = true := by
  induction a generalizing b with
  | nil => left; rfl
  | cons x s ih =>
    cases b with
    | nil => right; rfl
    | cons y t =>
      simp only [Str.le, Bool.or_eq_true, Bool.and_eq_true, decide_eq_true_eq, beq_iff_eq]
      rcases lt_trichotomy x y with h | h | h
      · exact Or.inl (Or.inl h)
      · subst h
        rcases ih t with h1 | h1
        · exact Or.inl (Or.inr ⟨rfl, h1⟩)
        · exact Or.inr (Or.inr ⟨rfl, h1⟩)
      · exact Or.inr (Or.inl h)

theorem Str.le_trans (a b c : Str) (h1 : Str.le a b = true) (h2 : Str.le b c = true) :
    Str.le a c = true := by
  induction a generalizing b c with
  | nil => rfl
  | cons x s ih =>
    cases b with
    | nil => simp [Str.le] at h1
    | cons y t =>
      cases c with
      | nil => simp [Str.le] at h2
      | cons z u =>
        simp only [Str.le, Bool.or_eq_true, Bool.and_eq_true, decide_eq_true_eq, beq_iff_eq]
          at h1 h2 ⊢
        rcases h1 with h1 | ⟨rfl, h1⟩
        · rcases h2 with h2 | ⟨rfl, _⟩
          · exact Or.inl (lt_trans h1 h2)
          · exact Or.inl h1
        · rcases h2 with h2 | ⟨rfl, h2⟩
          · exact Or.inl h2
          · exact Or.inr ⟨rfl, ih t u h1 h2⟩

theorem Str.le_antisymm (a b : Str) (h1 : Str.le a b = true) (h2 : Str.le b a = true) :
    a = b := by
  induction a generalizing b with
  | nil =>
    cases b with
    | nil => rfl
    | cons y t => simp [Str.le] at h2
  | cons x s ih =>
    cases b with
    | nil => simp [Str.le] at h1
    | cons y t =>
      simp only [Str.le, Bool.or_eq_true, Bool.and_eq_true, decide_eq_true_eq, beq_iff_eq]
        at h1 h2
      rcases h1 with h1 | ⟨rfl, h1⟩
      · rcases h2 with h2 | ⟨rfl, _⟩
        · exact absurd h1 (not_lt_of_gt h2)
        · exact absurd h1 (lt_irrefl _)
      · rcases h2 with h2 | ⟨_, h2⟩
        · exact absurd h2 (lt_irrefl _)
        · rw [ih t h1 h2]

instance : IsTotal Str StrLE := ⟨Str.le_total⟩

instance : IsTrans Str StrLE := ⟨Str.le_trans⟩

instance : IsAntisymm Str StrLE := ⟨Str.le_antisymm⟩

theorem StrLT_iff (a b : Str) : StrLT a b ↔ StrLE a b ∧ a ≠ b := by
  simp [StrLT, Str.lt, StrLE]

/-! ## Maps -/

theorem GoMap.get?_set {V : Type} (m : GoMap V) (k : Str) (v : V) (k2 : Str) :
    GoMap.get? (GoMap.set m k v) k2 = if k = k2 then some v else GoMap.get? m k2 := by
  induction m with
  | nil => simp [GoMap.set, GoMap.get?]
  | cons e m ih =>
    obtain ⟨k1, v1⟩ := e
    by_cases h : k1 = k
    · subst h
      by_cases h2 : k1 = k2 <;> simp [GoMap.set, GoMap.get?, h2]
    · simp only [GoMap.set, h, if_false, GoMap.get?, ih]
      by_cases h2 : k1 = k2
      · subst h2
        simp [Ne.symm h]
      · simp [h2]

theorem GoMap.mem_keys_set {V : Type} (m : GoMap V) (k : Str) (v : V) (k2 : Str) :
    k2 ∈ GoMap.keys (GoMap.set m k v) ↔ k2 = k ∨ k2 ∈ GoMap.keys m := by
  induction m with
  | nil => simp [GoMap.set, GoMap.keys]
  | cons e m ih =>
    obtain ⟨k1, v1⟩ := e
    by_cases h : k1 = k
    · subst h
      simp [GoMap.set, GoMap.keys]
    · simp only [GoMap.keys] at ih
      simp only [GoMap.set, h, if_false, GoMap.keys, List.map_cons, List.mem_cons, ih]
      tauto

theorem GoMap.nodup_keys_set {V : Type} (m : GoMap V) (k : Str) (v : V)
    (h : (GoMap.keys m).Nodup) : (GoMap.keys (GoMap.set m k v)).Nodup := by
  induction m with
  | nil => simp [GoMap.set, GoMap.keys]
  | cons e m ih =>
    obtain ⟨k1, v1⟩ := e
    have hk : k1 ∉ GoMap.keys m ∧ (GoMap.keys m).Nodup := by simpa [GoMap.keys] using h
    by_cases h1 : k1 = k
    · subst h1
      simpa [GoMap.set, GoMap.keys] using h
    · have h3 : GoMap.keys (GoMap.set ((k1, v1) :: m) k v) = k1 :: GoMap.keys (GoMap.set m k v) := by
        simp [GoMap.set, h1, GoMap.keys]
      rw [h3, List.nodup_cons, GoMap.mem_keys_set]
      exact ⟨by simp [h1, hk.1], ih hk.2⟩

theorem GoMap.mem_keys_iff {V : Type} (m : GoMap V) (k : Str) :
    k ∈ GoMap.keys m ↔ (GoMap.get? m k).isSome = true := by
  induction m with
  | nil => simp [GoMap.keys, GoMap.get?]
  | cons e m ih =>
    obtain ⟨k1, v1⟩ := e
    simp only [GoMap.keys] at ih
    by_cases h : k1 = k
    · simp [GoMap.keys, GoMap.get?, h]
    · simp [GoMap.keys, GoMap.get?, h, ih, Ne.symm h]

theorem GoMap.get?_eq_none {V : Type} (m : GoMap V) (k : Str) (h : k ∉ GoMap.keys m) :
    GoMap.get? m k = none := by
  have := (GoMap.mem_keys_iff m k).not.mp h
  simpa using this

theorem GoMap.get?_perm {V : Type} {m1 m2 : GoMap V} (h : List.Perm m1 m2)
    (hn : (GoMap.keys m1).Nodup) (k : Str) : GoMap.get? m1 k = GoMap.get? m2 k := by
  induction h with
  | nil => rfl
  | cons e _ ih =>
    obtain ⟨k1, v1⟩ := e
    simp only [GoMap.keys, List.map_cons, List.nodup_cons] at hn
    simp only [GoMap.get?]
    rw [ih hn.2]
  | swap e1 e2 l =>
    obtain ⟨k1, v1⟩ := e1
    obtain ⟨k2, v2⟩ := e2
    simp only [GoMap.keys, List.map_cons, List.nodup_cons, List.mem_cons, not_or] at hn
    simp only [GoMap.get?]
    by_cases h1 : k1 = k
    · by_cases h2 : k2 = k
      · exact absurd (h2.trans h1.symm) hn.1.1
      · simp [h1, h2]
    · simp [h1]
  | trans h1 _ ih1 ih2 =>
    rw [ih1 hn, ih2 ((h1.map Prod.fst).nodup_iff.mp hn)]

/-! ## The canonical string -/

theorem foldl_append_flatMap {α : Type} (f : α → Str) (ks : List α) (init : Str) :
    ks.foldl (fun str k => str ++ f k) init = init ++ ks.flatMap f := by
  induction ks generalizing init with
  | nil => simp
  | cons k ks ih => simp [List.foldl_cons, ih, List.flatMap_cons, List.append_assoc]

theorem nodup_keys_foldl_withHeadersStep (vs : Values) (init : GoMap Str)
    (h : (GoMap.keys init).Nodup) : (GoMap.keys (vs.foldl withHeadersStep init)).Nodup := by
  induction vs generalizing init with
  | nil => simpa using h
  | cons e vs ih =>
    rw [List.foldl_cons]
    apply ih
    unfold withHeadersStep
    split
    · exact h
    · exact GoMap.nodup_keys_set _ _ _ h

theorem nodup_keys_init (ak accessTs : Str) :
    (GoMap.keys [(ascii "ak", ak), (ascii "accessTs", accessTs)]).Nodup := by
  simp only [GoMap.keys, List.map_cons, List.map_nil]
  decide

theorem sortKeys_sorted (m : GoMap Str) : (sortKeys m).Sorted StrLE :=
  List.sorted_insertionSort StrLE _

theorem sortKeys_perm (m : GoMap Str) : (sortKeys m).Perm (GoMap.keys m) :=
  List.perm_insertionSort StrLE _

theorem sortKeys_strict (m : GoMap Str) (h : (GoMap.keys m).Nodup) :
    (sortKeys m).Sorted StrLT := by
  have h1 : (sortKeys m).Pairwise StrLE := sortKeys_sorted m
  have h2 : (sortKeys m).Pairwise (fun a b => a ≠ b) := (sortKeys_perm m).nodup_iff.mpr h
  exact (h1.and h2).imp (fun hab => (StrLT_iff _ _).mpr hab)

theorem mem_sortKeys (m : GoMap Str) (k : Str) : k ∈ sortKeys m ↔ k ∈ GoMap.keys m :=
  (sortKeys_perm m).mem_iff

/-- The shape of `strToSign` once `queryParams` and `bodyParams` have returned. -/
theorem strToSign_of_queryParams (L : StdLib) (p : Generator) (r r1 : Request) (params : Values)
    (d : Str) (r2 : Request)
    (h : queryParams L r = some (params, r1)) (hb : bodyParams L r1 = some (d, r2)) :
    strToSign L p r =
      some ((sortKeys (params.foldl withHeadersStep [(ascii "ak", p.ak), (ascii "accessTs", p.accessTs)])).flatMap
          (segment (params.foldl withHeadersStep [(ascii "ak", p.ak), (ascii "accessTs", p.accessTs)]))
        ++ (if d ≠ [] then d ++ ascii "&" else [])
        ++ ascii "secret=" ++ upperMD5 L p.sk, r2) := by
  unfold strToSign withHeaders
  rw [h]
  simp only [hb, foldl_append_flatMap, List.nil_append]
  by_cases hd : d = []
  · simp only [hd, ne_eq, not_true_eq_false, if_false, List.append_nil]
    rfl
  · simp only [hd, ne_eq, not_false_eq_true, if_true]
    rfl

/-- A panic in `bodyParams` is a panic of `strToSign`. -/
theorem strToSign_of_bodyParams_none (L : StdLib) (p : Generator) (r r1 : Request)
    (params : Values) (h : queryParams L r = some (params, r1))
    (hb : bodyParams L r1 = none) : strToSign L p r = none := by
  unfold strToSign withHeaders
  rw [h]
  simp only [hb]

theorem queryParams_get (L : StdLib) (r : Request) (hm : r.Method = MethodGet) :
    queryParams L r = some (r.Query, r) := by
  simp [queryParams, hm]

theorem bodyParams_not_post (L : StdLib) (r : Request) (hm : r.Method ≠ MethodPost) :
    bodyParams L r = some ([], r) := by
  simp [bodyParams, hm]

/-- On a POST request with a body stream `bodyParams` digests what is left in the
stream and puts it back. -/
theorem bodyParams_post (L : StdLib) (r : Request) (b : Str) (hm : r.Method = MethodPost)
    (hb : r.Body = some b) :
    bodyParams L r = some (if b.length = 0 then [] else upperMD5 L b, r) := by
  have e : ({ r with Body := some b } : Request) = r := by
    cases r
    simp only at hb
    simp [hb]
  unfold bodyParams readAll
  rw [if_neg (by simp [hm]), hb]
  simp only
  by_cases h2 : b.length = 0
  · simp only [h2, if_true]
    exact congrArg (fun x => some (([] : Str), x)) e
  · simp only [h2, if_false]
    exact congrArg (fun x => some (upperMD5 L b, x)) e

/-- On a POST request whose body is nil `bodyParams` panics. -/
theorem bodyParams_post_nil (L : StdLib) (r : Request) (hm : r.Method = MethodPost)
    (hb : r.Body = none) : bodyParams L r = none := by
  unfold bodyParams readAll
  rw [if_neg (by simp [hm]), hb]

theorem MethodGet_ne_MethodPost : MethodGet ≠ MethodPost := by decide

/-- C1: for a GET request `strToSign` returns the segments `key=escaped(value)&`
of the keys of the mapping built by `withHeaders`, taken in strictly ascending
byte-wise order, followed by `secret=` and the upper-case MD5 of the secret key,
with no body segment; `GenerateSign` returns the upper-case MD5 of that string;
the request is left as it was. -/
theorem strToSign_get_canonical (L : StdLib) (p : Generator) (r : Request)
    (hm : r.Method = MethodGet) :
    ∃ (m : GoMap Str) (ks : List Str),
      withHeaders L r p.ak p.accessTs = some (m, r) ∧
      ks.Sorted StrLT ∧ (∀ k, k ∈ ks ↔ (GoMap.get? m k).isSome = true) ∧
      strToSign L p r
        = some (ks.flatMap (segment m) ++ ascii "secret=" ++ upperMD5 L p.sk, r) ∧
      GenerateSign L p r
        = some (upperMD5 L (ks.flatMap (segment m) ++ ascii "secret=" ++ upperMD5 L p.sk), r) := by
  have hq := queryParams_get L r hm
  have hb := bodyParams_not_post L r (by rw [hm]; exact MethodGet_ne_MethodPost)
  have hs := strToSign_of_queryParams L p r r r.Query [] r hq hb
  simp only [ne_eq, not_true_eq_false, if_false, List.append_nil] at hs
  refine ⟨r.Query.foldl withHeadersStep [(ascii "ak", p.ak), (ascii "accessTs", p.accessTs)],
    sortKeys _, ?_, ?_, ?_, hs, ?_⟩
  · simp [withHeaders, hq]
  · exact sortKeys_strict _ (nodup_keys_foldl_withHeadersStep _ _ (nodup_keys_init _ _))
  · intro k
    rw [mem_sortKeys, GoMap.mem_keys_iff]
  · simp [GenerateSign, hs]

/-- C1, at the GET request of the worked example. -/
theorem strToSign_get_canonical_witness :
    exampleGet.Method = MethodGet ∧
    ∃ (m : GoMap Str) (ks : List Str),
      withHeaders testLib exampleGet exampleGenerator.ak exampleGenerator.accessTs
        = some (m, exampleGet) ∧
      ks.Sorted StrLT ∧ (∀ k, k ∈ ks ↔ (GoMap.get? m k).isSome = true) ∧
      strToSign testLib exampleGenerator exampleGet
        = some (ks.flatMap (segment m) ++ ascii "secret=" ++ upperMD5 testLib exampleGenerator.sk,
            exampleGet) ∧
      GenerateSign testLib exampleGenerator exampleGet
        = some (upperMD5 testLib
            (ks.flatMap (segment m) ++ ascii "secret=" ++ upperMD5 testLib exampleGenerator.sk),
            exampleGet) :=
  ⟨rfl, strToSign_get_canonical testLib exampleGenerator exampleGet rfl⟩

/-! ## Independence of the iteration order -/

theorem get?_withHeadersStep (m : GoMap Str) (kv : Str × Slice) (k : Str) :
    GoMap.get? (withHeadersStep m kv) k
      = if kv.1 = k ∧ ¬ (kv.1 = [] ∨ kv.2.1 = []) then some kv.2.1 else GoMap.get? m k := by
  unfold withHeadersStep
  by_cases h : kv.1 = [] ∨ kv.2.1 = []
  · simp [h]
  · simp only [h, if_false, GoMap.get?_set, not_false_eq_true, and_true]

theorem get?_foldl_withHeadersStep (vs : Values) (hn : (GoMap.keys vs).Nodup)
    (init : GoMap Str) (k : Str) :
    GoMap.get? (vs.foldl withHeadersStep init) k =
      match GoMap.get? vs k with
      | some s => if k = [] ∨ s.1 = [] then GoMap.get? init k else some s.1
      | none => GoMap.get? init k := by
  induction vs generalizing init with
  | nil => simp [GoMap.get?]
  | cons e vs ih =>
    obtain ⟨k1, s1⟩ := e
    have hk : k1 ∉ GoMap.keys vs ∧ (GoMap.keys vs).Nodup := by simpa [GoMap.keys] using hn
    rw [List.foldl_cons, ih hk.2]
    by_cases h : k1 = k
    · subst h
      rw [GoMap.get?_eq_none vs k1 hk.1]
      simp only [GoMap.get?, if_true, get?_withHeadersStep, true_and]
      by_cases h2 : k1 = [] ∨ s1.1 = []
      · simp [h2]
      · simp [h2]
    · simp only [GoMap.get?, h, if_false, get?_withHeadersStep, false_and]

theorem sortKeys_congr (m1 m2 : GoMap Str) (h1 : (GoMap.keys m1).Nodup)
    (h2 : (GoMap.keys m2).Nodup) (hg : ∀ k, GoMap.get? m1 k = GoMap.get? m2 k) :
    sortKeys m1 = sortKeys m2 := by
  have hp : (GoMap.keys m1).Perm (GoMap.keys m2) := by
    rw [List.perm_ext_iff_of_nodup h1 h2]
    intro k
    rw [GoMap.mem_keys_iff, GoMap.mem_keys_iff, hg]
  have hp2 : (sortKeys m1).Perm (sortKeys m2) :=
    ((sortKeys_perm m1).trans hp).trans (sortKeys_perm m2).symm
  exact List.eq_of_perm_of_sorted hp2 (sortKeys_sorted m1) (sortKeys_sorted m2)

theorem segment_congr (m1 m2 : GoMap Str) (hg : ∀ k, GoMap.get? m1 k = GoMap.get? m2 k) :
    segment m1 = segment m2 := by
  funext k
  simp [segment, hg]

/-- Equal segments and equal results of `bodyParams` give the same canonical
string. -/
theorem strToSign_congr_segments (L : StdLib) (p : Generator) (r1 r2 r3 r4 : Request)
    (params1 params2 : Values)
    (h1 : queryParams L r1 = some (params1, r3)) (h2 : queryParams L r2 = some (params2, r4))
    (hS : (sortKeys (params1.foldl withHeadersStep [(ascii "ak", p.ak), (ascii "accessTs", p.accessTs)])).flatMap
          (segment (params1.foldl withHeadersStep [(ascii "ak", p.ak), (ascii "accessTs", p.accessTs)]))
        = (sortKeys (params2.foldl withHeadersStep [(ascii "ak", p.ak), (ascii "accessTs", p.accessTs)])).flatMap
          (segment (params2.foldl withHeadersStep [(ascii "ak", p.ak), (ascii "accessTs", p.accessTs)])))
    (hb : (bodyParams L r3).map Prod.fst = (bodyParams L r4).map Prod.fst) :
    (strToSign L p r1).map Prod.fst = (strToSign L p r2).map Prod.fst := by
  cases b3 : bodyParams L r3 with
  | none =>
    cases b4 : bodyParams L r4 with
    | none =>
      rw [strToSign_of_bodyParams_none L p r1 r3 params1 h1 b3,
        strToSign_of_bodyParams_none L p r2 r4 params2 h2 b4]
    | some x => rw [b3, b4] at hb; cases hb
  | some x =>
    cases b4 : bodyParams L r4 with
    | none => rw [b3, b4] at hb; cases hb
    | some y =>
      obtain ⟨d3, q3⟩ := x
      obtain ⟨d4, q4⟩ := y
      rw [b3, b4] at hb
      have hd : d3 = d4 := by simpa using hb
      subst hd
      rw [strToSign_of_queryParams L p r1 r3 params1 d3 q3 h1 b3,
        strToSign_of_queryParams L p r2 r4 params2 d3 q4 h2 b4, hS]
      rfl

/-- Two parameter maps with the same lookups give the same canonical string. -/
theorem strToSign_congr (L : StdLib) (p : Generator) (r1 r2 r3 r4 : Request)
    (params1 params2 : Values)
    (h1 : queryParams L r1 = some (params1, r3)) (h2 : queryParams L r2 = some (params2, r4))
    (hn1 : (GoMap.keys params1).Nodup) (hn2 : (GoMap.keys params2).Nodup)
    (hg : ∀ k, GoMap.get? params1 k = GoMap.get? params2 k)
    (hb : (bodyParams L r3).map Prod.fst = (bodyParams L r4).map Prod.fst) :
    (strToSign L p r1).map Prod.fst = (strToSign L p r2).map Prod.fst := by
  apply strToSign_congr_segments L p r1 r2 r3 r4 params1 params2 h1 h2 _ hb
  have hi := nodup_keys_init p.ak p.accessTs
  have hm : ∀ k, GoMap.get? (params1.foldl withHeadersStep [(ascii "ak", p.ak), (ascii "accessTs", p.accessTs)]) k
      = GoMap.get? (params2.foldl withHeadersStep [(ascii "ak", p.ak), (ascii "accessTs", p.accessTs)]) k := by
    intro k
    rw [get?_foldl_withHeadersStep params1 hn1, get?_foldl_withHeadersStep params2 hn2, hg]
  rw [sortKeys_congr _ _ (nodup_keys_foldl_withHeadersStep params1 _ hi)
    (nodup_keys_foldl_withHeadersStep params2 _ hi) hm, segment_congr _ _ hm]

/-! ### `copyValues` -/

theorem get?_copyValuesStep (d : Values) (kv : Str × Slice) (k : Str) :
    GoMap.get? (copyValuesStep d kv) k
    = if kv.1 = k then
        some (match GoMap.get? d k with
          | some old => old.append kv.2
          | none => kv.2)
      else GoMap.get? d k := by
  unfold copyValuesStep
  by_cases h : kv.1 = k
  · subst h
    cases hd : GoMap.get? d kv.1 <;> simp [GoMap.get?_set]
  · cases hd : GoMap.get? d kv.1 <;> simp [GoMap.get?_set, h]

theorem get?_copyValues (src : Values) (hn : (GoMap.keys src).Nodup) (dst : Values) (k : Str) :
    GoMap.get? (copyValues dst src) k =
      match GoMap.get? src k with
      | some s => some (match GoMap.get? dst k with
          | some old => old.append s
          | none => s)
      | none => GoMap.get? dst k := by
  unfold copyValues
  induction src generalizing dst with
  | nil => simp [GoMap.get?]
  | cons e src ih =>
    obtain ⟨k1, s1⟩ := e
    have hk : k1 ∉ GoMap.keys src ∧ (GoMap.keys src).Nodup := by simpa [GoMap.keys] using hn
    rw [List.foldl_cons, ih hk.2]
    by_cases h : k1 = k
    · subst h
      rw [GoMap.get?_eq_none src k1 hk.1]
      simp only [GoMap.get?, if_true, get?_copyValuesStep]
    · simp only [GoMap.get?, h, if_false, get?_copyValuesStep]

theorem nodup_keys_copyValues (src dst : Values) (h : (GoMap.keys dst).Nodup) :
    (GoMap.keys (copyValues dst src)).Nodup := by
  unfold copyValues
  induction src generalizing dst with
  | nil => simpa using h
  | cons e src ih =>
    rw [List.foldl_cons]
    apply ih
    unfold copyValuesStep
    split
    · exact GoMap.nodup_keys_set _ _ _ h
    · exact GoMap.nodup_keys_set _ _ _ h

theorem get?_copyValues_congr (dst1 dst2 src1 src2 : Values)
    (hd : ∀ k, GoMap.get? dst1 k = GoMap.get? dst2 k)
    (hs : List.Perm src1 src2) (hn : (GoMap.keys src1).Nodup) (k : Str) :
    GoMap.get? (copyValues dst1 src1) k = GoMap.get? (copyValues dst2 src2) k := by
  have hn2 : (GoMap.keys src2).Nodup := (hs.map Prod.fst).nodup_iff.mp hn
  rw [get?_copyValues src1 hn, get?_copyValues src2 hn2, GoMap.get?_perm hs hn, hd]

/-! ### `ParseForm` -/

theorem fillPostForm_congr (L : StdLib) (r1 r2 : Request)
    (hM : r1.Method = r2.Method) (hB : r1.Body = r2.Body) (hT : r1.formType = r2.formType)
    (hQ : r1.Query.Perm r2.Query)
    (hP : Option.Rel List.Perm r1.PostForm r2.PostForm)
    (hF : Option.Rel List.Perm r1.Form r2.Form)
    (hdP : ∀ v, r1.PostForm = some v → (GoMap.keys v).Nodup) :
    (fillPostForm L r1).Method = r1.Method ∧ (fillPostForm L r2).Method = r2.Method ∧
    (fillPostForm L r1).Query = r1.Query ∧ (fillPostForm L r2).Query = r2.Query ∧
    (fillPostForm L r1).Form = r1.Form ∧ (fillPostForm L r2).Form = r2.Form ∧
    (fillPostForm L r1).Body = (fillPostForm L r2).Body ∧
    ∃ pf1 pf2, (fillPostForm L r1).PostForm = some pf1 ∧ (fillPostForm L r2).PostForm = some pf2 ∧
      (pf1 = pf2 ∨ (List.Perm pf1 pf2 ∧ (GoMap.keys pf1).Nodup)) := by
  obtain ⟨M1, Q1, T1, B1, P1, F1⟩ := r1
  obtain ⟨M2, Q2, T2, B2, P2, F2⟩ := r2
  simp only at hM hB hT hQ hP hF hdP
  subst hM hB hT
  cases hP with
  | none =>
    unfold fillPostForm parsePostForm
    cases B1 <;> simp only <;> split_ifs <;> simp
  | some hp =>
    rename_i a b
    unfold fillPostForm
    simp only
    exact ⟨trivial, trivial, trivial, trivial, trivial, trivial, trivial, a, b, rfl, rfl,
      Or.inr ⟨hp, hdP a rfl⟩⟩

theorem fillForm_congr (r1 r2 : Request) (pf1 pf2 : Values)
    (hM : r1.Method = r2.Method) (hB : r1.Body = r2.Body)
    (hQ : r1.Query.Perm r2.Query) (hd : (GoMap.keys r1.Query).Nodup)
    (hP1 : r1.PostForm = some pf1) (hP2 : r2.PostForm = some pf2)
    (hpf : pf1 = pf2 ∨ (List.Perm pf1 pf2 ∧ (GoMap.keys pf1).Nodup))
    (hF : Option.Rel List.Perm r1.Form r2.Form)
    (hdF : ∀ v, r1.Form = some v → (GoMap.keys v).Nodup) :
    (fillForm r1).Method = r1.Method ∧ (fillForm r2).Method = r2.Method ∧
    (fillForm r1).Body = (fillForm r2).Body ∧
    ∃ f1 f2, (fillForm r1).Form = some f1 ∧ (fillForm r2).Form = some f2 ∧
      (GoMap.keys f1).Nodup ∧ (GoMap.keys f2).Nodup ∧
      ∀ k, GoMap.get? f1 k = GoMap.get? f2 k := by
  obtain ⟨M1, Q1, T1, B1, P1, F1⟩ := r1
  obtain ⟨M2, Q2, T2, B2, P2, F2⟩ := r2
  simp only at hM hB hQ hd hP1 hP2 hF hdF
  subst hM hB hP1 hP2
  have hd2 : (GoMap.keys Q2).Nodup := (hQ.map Prod.fst).nodup_iff.mp hd
  cases hF with
  | some hf =>
    rename_i a b
    have ha := hdF a rfl
    exact ⟨rfl, rfl, rfl, a, b, rfl, rfl, ha, (hf.map Prod.fst).nodup_iff.mp ha,
      fun k => GoMap.get?_perm hf ha k⟩
  | none =>
    have hlen : pf1.length = pf2.length := by
      rcases hpf with h | h
      · rw [h]
      · exact h.1.length_eq
    have hA : ∀ k, GoMap.get? (copyValues [] pf1) k = GoMap.get? (copyValues [] pf2) k := by
      intro k
      rcases hpf with h | h
      · rw [h]
      · exact get?_copyValues_congr [] [] pf1 pf2 (fun _ => rfl) h.1 h.2 k
    have hnil : (GoMap.keys ([] : Values)).Nodup := by simp [GoMap.keys]
    unfold fillForm
    simp only [Option.getD_some, hlen]
    by_cases hl : pf2.length > 0
    · simp only [hl, if_true]
      exact ⟨trivial, trivial, trivial, _, _, rfl, rfl,
        nodup_keys_copyValues _ _ (nodup_keys_copyValues _ _ hnil),
        nodup_keys_copyValues _ _ (nodup_keys_copyValues _ _ hnil),
        fun k => get?_copyValues_congr _ _ Q1 Q2 hA hQ hd k⟩
    · simp only [hl, if_false]
      exact ⟨trivial, trivial, trivial, _, _, rfl, rfl, hd, hd2, fun k => GoMap.get?_perm hQ hd k⟩

theorem ParseForm_congr (L : StdLib) (r1 r2 : Request)
    (hM : r1.Method = r2.Method) (hB : r1.Body = r2.Body) (hT : r1.formType = r2.formType)
    (hQ : r1.Query.Perm r2.Query)
    (hP : Option.Rel List.Perm r1.PostForm r2.PostForm)
    (hF : Option.Rel List.Perm r1.Form r2.Form)
    (hd : (GoMap.keys r1.Query).Nodup)
    (hdP : ∀ v, r1.PostForm = some v → (GoMap.keys v).Nodup)
    (hdF : ∀ v, r1.Form = some v → (GoMap.keys v).Nodup) :
    (ParseForm L r1).Method = r1.Method ∧ (ParseForm L r2).Method = r2.Method ∧
    (ParseForm L r1).Body = (ParseForm L r2).Body ∧
    ∃ f1 f2, (ParseForm L r1).Form = some f1 ∧ (ParseForm L r2).Form = some f2 ∧
      (GoMap.keys f1).Nodup ∧ (GoMap.keys f2).Nodup ∧
      ∀ k, GoMap.get? f1 k = GoMap.get? f2 k := by
  obtain ⟨m1, m2, q1, q2, f1, f2, hb, pf1, pf2, hp1, hp2, hpf⟩ :=
    fillPostForm_congr L r1 r2 hM hB hT hQ hP hF hdP
  have h := fillForm_congr (fillPostForm L r1) (fillPostForm L r2) pf1 pf2
    (by rw [m1, m2, hM]) hb (by rw [q1, q2]; exact hQ) (by rw [q1]; exact hd) hp1 hp2 hpf
    (by rw [f1, f2]; exact hF) (by rw [f1]; exact hdF)
  unfold ParseForm
  obtain ⟨h1, h2, h3, h4⟩ := h
  exact ⟨by rw [h1, m1], by rw [h2, m2], h3, h4⟩

theorem queryParams_post (L : StdLib) (r : Request) (hm : r.Method = MethodPost) :
    queryParams L r = some ((ParseForm L r).Form.getD [], ParseForm L r) := by
  unfold queryParams
  rw [if_neg (by rw [hm]; exact MethodGet_ne_MethodPost.symm), if_pos hm]

theorem queryParams_other (L : StdLib) (r : Request) (hg : r.Method ≠ MethodGet)
    (hp : r.Method ≠ MethodPost) : queryParams L r = none := by
  unfold queryParams
  rw [if_neg hg, if_neg hp]

theorem bodyParams_fst (L : StdLib) (r : Request) :
    (bodyParams L r).map Prod.fst
      = if r.Method ≠ MethodPost then some []
        else r.Body.map (fun b => if b.length = 0 then [] else upperMD5 L b) := by
  by_cases h : r.Method ≠ MethodPost
  · rw [bodyParams_not_post L r h, if_pos h]
    rfl
  · rw [if_neg h]
    have hm : r.Method = MethodPost := not_not.mp h
    cases hb : r.Body with
    | none => rw [bodyParams_post_nil L r hm hb]; rfl
    | some b => rw [bodyParams_post L r b hm hb]; rfl

/-- C2: two requests with the same method, content type and body whose
parameter maps (the URL query and, where set, `PostForm` and `Form`) hold the
same entries in a different order get the same result from `GenerateSign`. -/
theorem GenerateSign_perm (L : StdLib) (p : Generator) (r1 r2 : Request)
    (hM : r1.Method = r2.Method) (hB : r1.Body = r2.Body) (hT : r1.formType = r2.formType)
    (hQ : r1.Query.Perm r2.Query)
    (hP : Option.Rel List.Perm r1.PostForm r2.PostForm)
    (hF : Option.Rel List.Perm r1.Form r2.Form)
    (hd : distinctKeys r1.Query)
    (hdP : ∀ v, r1.PostForm = some v → distinctKeys v)
    (hdF : ∀ v, r1.Form = some v → distinctKeys v) :
    (GenerateSign L p r1).map Prod.fst = (GenerateSign L p r2).map Prod.fst := by
  have key : (strToSign L p r1).map Prod.fst = (strToSign L p r2).map Prod.fst := by
    by_cases hg : r1.Method = MethodGet
    · have hg2 : r2.Method = MethodGet := hM ▸ hg
      have hnp1 : r1.Method ≠ MethodPost := by rw [hg]; exact MethodGet_ne_MethodPost
      have hnp2 : r2.Method ≠ MethodPost := by rw [hg2]; exact MethodGet_ne_MethodPost
      exact strToSign_congr L p r1 r2 r1 r2 r1.Query r2.Query (queryParams_get L r1 hg)
        (queryParams_get L r2 hg2) hd ((hQ.map Prod.fst).nodup_iff.mp hd)
        (fun k => GoMap.get?_perm hQ hd k)
        (by rw [bodyParams_not_post L r1 hnp1, bodyParams_not_post L r2 hnp2]; rfl)
    · by_cases hpost : r1.Method = MethodPost
      · have hpost2 : r2.Method = MethodPost := hM ▸ hpost
        have hg2 : r2.Method ≠ MethodGet := hM ▸ hg
        obtain ⟨m1, m2, hb, f1, f2, hf1, hf2, hn1, hn2, hgf⟩ :=
          ParseForm_congr L r1 r2 hM hB hT hQ hP hF hd hdP hdF
        have q1 : queryParams L r1 = some (f1, ParseForm L r1) := by
          rw [queryParams_post L r1 hpost, hf1]
          rfl
        have q2 : queryParams L r2 = some (f2, ParseForm L r2) := by
          rw [queryParams_post L r2 hpost2, hf2]
          rfl
        exact strToSign_congr L p r1 r2 _ _ f1 f2 q1 q2 hn1 hn2 hgf
          (by rw [bodyParams_fst, bodyParams_fst, m1, m2, hb, hM])
      · have hg2 : r2.Method ≠ MethodGet := hM ▸ hg
        have hpost2 : r2.Method ≠ MethodPost := hM ▸ hpost
        simp [strToSign, withHeaders, queryParams_other L r1 hg hpost,
          queryParams_other L r2 hg2 hpost2]
  unfold GenerateSign
  cases h1 : strToSign L p r1 <;> cases h2 : strToSign L p r2 <;> simp_all

/-- The worked example and the same request with its query in the other order. -/
theorem GenerateSign_perm_witness :
    List.Perm exampleGet.Query [(ascii "a", (ascii "1", [])), (ascii "b", (ascii "2", []))] ∧
    distinctKeys exampleGet.Query ∧
    (GenerateSign testLib exampleGenerator exampleGet).map Prod.fst
      = (GenerateSign testLib exampleGenerator
          { exampleGet with Query := [(ascii "a", (ascii "1", [])), (ascii "b", (ascii "2", []))] }).map
          Prod.fst :=
  ⟨List.Perm.swap _ _ _, by decide,
    GenerateSign_perm testLib exampleGenerator exampleGet
      { exampleGet with Query := [(ascii "a", (ascii "1", [])), (ascii "b", (ascii "2", []))] }
      rfl rfl rfl (List.Perm.swap _ _ _) Option.Rel.none Option.Rel.none (by decide)
      (fun v h => by simp [exampleGet] at h) (fun v h => by simp [exampleGet] at h)⟩

/-! ## The request after a signature -/

theorem bodyParams_snd (L : StdLib) (r : Request) (d : Str) (r2 : Request)
    (h : bodyParams L r = some (d, r2)) : r2 = r := by
  by_cases hm : r.Method ≠ MethodPost
  · rw [bodyParams_not_post L r hm] at h
    simp only [Option.some.injEq, Prod.mk.injEq] at h
    exact h.2.symm
  · have hp : r.Method = MethodPost := not_not.mp hm
    cases hb : r.Body with
    | none => rw [bodyParams_post_nil L r hp hb] at h; cases h
    | some b =>
      rw [bodyParams_post L r b hp hb] at h
      simp only [Option.some.injEq, Prod.mk.injEq] at h
      exact h.2.symm

/-- Wherever `bodyParams` is reached without a nil body it returns, leaving the
request as it was. -/
theorem bodyParams_isSome (L : StdLib) (r : Request)
    (h : r.Method ≠ MethodPost ∨ r.Body ≠ none) : ∃ d, bodyParams L r = some (d, r) := by
  by_cases hm : r.Method ≠ MethodPost
  · exact ⟨_, bodyParams_not_post L r hm⟩
  · have hp : r.Method = MethodPost := not_not.mp hm
    cases hb : r.Body with
    | none =>
      rcases h with h | h
      · exact absurd h hm
      · exact absurd hb h
    | some b => exact ⟨_, bodyParams_post L r b hp hb⟩

theorem fillPostForm_isSome (L : StdLib) (r : Request) :
    (fillPostForm L r).PostForm.isSome = true := by
  unfold fillPostForm
  cases h : r.PostForm with
  | some v => simp [h]
  | none =>
    simp only
    split_ifs <;> rfl

theorem fillPostForm_of_isSome (L : StdLib) (r : Request) (h : r.PostForm.isSome = true) :
    fillPostForm L r = r := by
  unfold fillPostForm
  cases hp : r.PostForm with
  | some v => rfl
  | none => simp [hp] at h

theorem fillForm_isSome (r : Request) : (fillForm r).Form.isSome = true := by
  unfold fillForm
  cases h : r.Form with
  | some v => simp [h]
  | none =>
    simp only
    split_ifs <;> rfl

theorem fillForm_PostForm (r : Request) : (fillForm r).PostForm = r.PostForm := by
  unfold fillForm
  cases h : r.Form with
  | some v => rfl
  | none =>
    simp only
    split_ifs <;> rfl

theorem fillForm_Method (r : Request) : (fillForm r).Method = r.Method := by
  unfold fillForm
  cases h : r.Form with
  | some v => rfl
  | none =>
    simp only
    split_ifs <;> rfl

theorem fillForm_Body (r : Request) : (fillForm r).Body = r.Body := by
  unfold fillForm
  cases h : r.Form with
  | some v => rfl
  | none =>
    simp only
    split_ifs <;> rfl

theorem fillForm_of_isSome (r : Request) (h : r.Form.isSome = true) : fillForm r = r := by
  unfold fillForm
  cases hp : r.Form with
  | some v => rfl
  | none => simp [hp] at h

theorem fillPostForm_Method (L : StdLib) (r : Request) :
    (fillPostForm L r).Method = r.Method := by
  unfold fillPostForm parsePostForm
  cases h : r.PostForm with
  | some v => rfl
  | none =>
    cases hb : r.Body <;> simp only <;> split_ifs <;> rfl

theorem ParseForm_Method (L : StdLib) (r : Request) : (ParseForm L r).Method = r.Method := by
  unfold ParseForm
  rw [fillForm_Method, fillPostForm_Method]

/-- A second `ParseForm` is idle. -/
theorem ParseForm_idem (L : StdLib) (r : Request) :
    ParseForm L (ParseForm L r) = ParseForm L r := by
  have h1 : (ParseForm L r).PostForm.isSome = true := by
    unfold ParseForm
    rw [fillForm_PostForm]
    exact fillPostForm_isSome L r
  have h2 : (ParseForm L r).Form.isSome = true := fillForm_isSome _
  show fillForm (fillPostForm L (ParseForm L r)) = ParseForm L r
  rw [fillPostForm_of_isSome L _ h1, fillForm_of_isSome _ h2]

/-- The request left behind by `queryParams` answers `queryParams` the same way. -/
theorem queryParams_stable (L : StdLib) (r r1 : Request) (params : Values)
    (h : queryParams L r = some (params, r1)) :
    queryParams L r1 = some (params, r1) := by
  by_cases hg : r.Method = MethodGet
  · rw [queryParams_get L r hg] at h
    simp only [Option.some.injEq, Prod.mk.injEq] at h
    rw [← h.2, queryParams_get L r hg, h.1]
  · by_cases hp : r.Method = MethodPost
    · rw [queryParams_post L r hp] at h
      simp only [Option.some.injEq, Prod.mk.injEq] at h
      rw [← h.2, queryParams_post L _ ((ParseForm_Method L r).trans hp), ParseForm_idem, h.1]
    · rw [queryParams_other L r hg hp] at h
      exact absurd h (by simp)

theorem strToSign_eq_of_queryParams_eq (L : StdLib) (p : Generator) (r r1 : Request)
    (h : queryParams L r1 = queryParams L r) : strToSign L p r1 = strToSign L p r := by
  unfold strToSign withHeaders
  rw [h]

theorem queryParams_isSome (L : StdLib) (r : Request)
    (hm : r.Method = MethodGet ∨ r.Method = MethodPost) :
    ∃ params r1, queryParams L r = some (params, r1) := by
  rcases hm with hm | hm
  · exact ⟨_, _, queryParams_get L r hm⟩
  · exact ⟨_, _, queryParams_post L r hm⟩

theorem fillPostForm_Body_ne_none (L : StdLib) (r : Request) (h : r.Body ≠ none) :
    (fillPostForm L r).Body ≠ none := by
  unfold fillPostForm parsePostForm
  cases hb : r.Body with
  | none => exact absurd hb h
  | some b =>
    cases hp : r.PostForm with
    | some v => simp [hb]
    | none =>
      simp only
      split_ifs <;> simp [hb]

theorem ParseForm_Body_ne_none (L : StdLib) (r : Request) (h : r.Body ≠ none) :
    (ParseForm L r).Body ≠ none := by
  unfold ParseForm
  rw [fillForm_Body]
  exact fillPostForm_Body_ne_none L r h

/-- For a GET request and for a POST request with a body stream, `strToSign`
returns, and it returns the same on the request it leaves behind. -/
theorem strToSign_returns (L : StdLib) (p : Generator) (r : Request)
    (hm : r.Method = MethodGet ∨ (r.Method = MethodPost ∧ r.Body ≠ none)) :
    ∃ s r1, strToSign L p r = some (s, r1) ∧ strToSign L p r1 = some (s, r1) := by
  have hm2 : r.Method = MethodGet ∨ r.Method = MethodPost := hm.imp id And.left
  obtain ⟨params, r1, hq⟩ := queryParams_isSome L r hm2
  have hb1 : r1.Method ≠ MethodPost ∨ r1.Body ≠ none := by
    rcases hm with hg | ⟨hp, hb⟩
    · rw [queryParams_get L r hg] at hq
      simp only [Option.some.injEq, Prod.mk.injEq] at hq
      rw [← hq.2, hg]
      exact Or.inl MethodGet_ne_MethodPost
    · rw [queryParams_post L r hp] at hq
      simp only [Option.some.injEq, Prod.mk.injEq] at hq
      rw [← hq.2]
      exact Or.inr (ParseForm_Body_ne_none L r hb)
  obtain ⟨d, hd⟩ := bodyParams_isSome L r1 hb1
  have hs := strToSign_of_queryParams L p r r1 params d r1 hq hd
  have hs1 : strToSign L p r1 = strToSign L p r :=
    strToSign_eq_of_queryParams_eq L p r r1 ((queryParams_stable L r r1 params hq).trans hq.symm)
  exact ⟨_, r1, hs, hs1.trans hs⟩

/-- On a POST request whose body is nil `strToSign` panics. -/
theorem strToSign_post_nil_body (L : StdLib) (p : Generator) (r : Request)
    (hm : r.Method = MethodPost) (hb : r.Body = none) : strToSign L p r = none := by
  have hq := queryParams_post L r hm
  apply strToSign_of_bodyParams_none L p r _ _ hq
  apply bodyParams_post_nil L _ ((ParseForm_Method L r).trans hm)
  unfold ParseForm
  rw [fillForm_Body]
  unfold fillPostForm parsePostForm
  cases hp : r.PostForm with
  | some v => simp [hb]
  | none =>
    simp only [hb]
    split_ifs <;> rfl

/-- C3 as stated fails: for the POST request made without a body (`r.Body` is
nil) `GenerateSign` panics in `ioutil.ReadAll`, and so does `VerifySign`. -/
theorem VerifySign_GenerateSign_nil_body :
    nilBodyPost.Method = MethodPost ∧
    GenerateSign testLib exampleGenerator nilBodyPost = none ∧
    VerifySign testLib exampleGenerator nilBodyPost [] = none := by
  refine ⟨rfl, ?_, ?_⟩
  · unfold GenerateSign
    rw [strToSign_post_nil_body testLib exampleGenerator nilBodyPost rfl rfl]
  · unfold VerifySign GenerateSign
    rw [strToSign_post_nil_body testLib exampleGenerator nilBodyPost rfl rfl]

/-- C3, amended: for a GET request and for a POST request whose body is not nil,
`GenerateSign` returns a signature, and `VerifySign` applied to the request as
`GenerateSign` left it and to that signature returns true. -/
theorem VerifySign_GenerateSign (L : StdLib) (p : Generator) (r : Request)
    (hm : r.Method = MethodGet ∨ (r.Method = MethodPost ∧ r.Body ≠ none)) :
    ∃ s r1, GenerateSign L p r = some (s, r1) ∧ VerifySign L p r1 s = some (true, r1) := by
  obtain ⟨s, r1, hs, hs1⟩ := strToSign_returns L p r hm
  refine ⟨upperMD5 L s, r1, ?_, ?_⟩
  · unfold GenerateSign
    rw [hs]
  · unfold VerifySign GenerateSign
    rw [hs1]
    simp

/-- The POST request with a JSON body used to run the definitions. -/
theorem VerifySign_GenerateSign_witness :
    jsonPost.Method = MethodPost ∧ jsonPost.Body ≠ none ∧
    ∃ s r1,
      GenerateSign testLib exampleGenerator jsonPost = some (s, r1) ∧
      VerifySign testLib exampleGenerator r1 s = some (true, r1) :=
  ⟨rfl, by decide, VerifySign_GenerateSign testLib exampleGenerator
    jsonPost (Or.inr ⟨rfl, by decide⟩)⟩
/-! ## Form bodies -/

/-- A POST request with a url-encoded form of at most `maxFormSize` bytes and a
nil `PostForm`: `ParseForm` reads the whole body. -/
theorem ParseForm_drains_form (L : StdLib) (r : Request) (b : Str) (hm : r.Method = MethodPost)
    (hf : r.formType = true) (hp : r.PostForm = none) (hB : r.Body = some b)
    (hb : b.length ≤ maxFormSize) :
    (ParseForm L r).Body = some [] := by
  unfold ParseForm
  rw [fillForm_Body]
  unfold fillPostForm parsePostForm
  have hm2 : r.Method = ascii "POST" := hm
  have hd : b.drop (maxFormSize + 1) = [] := List.drop_eq_nil_of_le (by omega)
  simp only [hp, hm2, hf, hB, hd, true_or, if_true]
  split_ifs <;> rfl

/-- C4, the code at the failing input: for a POST request whose body is a
url-encoded form of at most `maxFormSize` bytes (`PostForm` still nil), empty or
not, the string of `strToSign` is the sorted segments directly followed by
`secret=` and the digest of the secret key, with no body digest. -/
theorem strToSign_form_post_no_body_digest (L : StdLib) (p : Generator) (r : Request) (b : Str)
    (hm : r.Method = MethodPost) (hf : r.formType = true) (hp : r.PostForm = none)
    (hB : r.Body = some b) (hb : b.length ≤ maxFormSize) :
    ∃ m r1, withHeaders L r p.ak p.accessTs = some (m, r1) ∧
      strToSign L p r
        = some ((sortKeys m).flatMap (segment m) ++ ascii "secret=" ++ upperMD5 L p.sk, r1) := by
  have hq := queryParams_post L r hm
  have hbody := bodyParams_post L (ParseForm L r) [] ((ParseForm_Method L r).trans hm)
    (ParseForm_drains_form L r b hm hf hp hB hb)
  simp only [List.length_nil, if_true] at hbody
  have hs := strToSign_of_queryParams L p r _ _ _ _ hq hbody
  simp only [ne_eq, not_true_eq_false, if_false, List.append_nil] at hs
  exact ⟨_, ParseForm L r, by simp [withHeaders, hq], hs⟩

/-- The form POST with body `x=1`: a body that is not empty. -/
theorem strToSign_form_post_no_body_digest_witness :
    formPost.Body = some (ascii "x=1") ∧ ascii "x=1" ≠ [] ∧
    ∃ m r1,
      withHeaders testLib
        formPost
        exampleGenerator.ak exampleGenerator.accessTs = some (m, r1) ∧
      strToSign testLib exampleGenerator
        formPost
        = some ((sortKeys m).flatMap (segment m) ++ ascii "secret="
            ++ upperMD5 testLib exampleGenerator.sk, r1) :=
  ⟨rfl, by decide, strToSign_form_post_no_body_digest testLib exampleGenerator
    formPost (ascii "x=1")
    rfl rfl rfl rfl (by decide)⟩

/-- C8, the code at the failing input: after `GenerateSign` on a POST request
whose body is a url-encoded form of at most `maxFormSize` bytes (`PostForm` still
nil) the body stream of the request is empty. -/
theorem GenerateSign_form_post_body_lost (L : StdLib) (p : Generator) (r : Request) (b : Str)
    (hm : r.Method = MethodPost) (hf : r.formType = true) (hp : r.PostForm = none)
    (hB : r.Body = some b) (hb : b.length ≤ maxFormSize) :
    ∃ s r1, GenerateSign L p r = some (s, r1) ∧ r1.Body = some [] := by
  have hq := queryParams_post L r hm
  have hd := ParseForm_drains_form L r b hm hf hp hB hb
  have hbody := bodyParams_post L (ParseForm L r) [] ((ParseForm_Method L r).trans hm) hd
  have hs := strToSign_of_queryParams L p r _ _ _ _ hq hbody
  unfold GenerateSign
  rw [hs]
  exact ⟨_, _, rfl, hd⟩

/-- The form POST with body `x=1`: the body is gone after the signature. -/
theorem GenerateSign_form_post_body_lost_witness :
    formPost.Body
        = some (ascii "x=1") ∧
    ∃ s r1,
      GenerateSign testLib exampleGenerator
        formPost
        = some (s, r1) ∧ r1.Body = some [] :=
  ⟨rfl, GenerateSign_form_post_body_lost testLib exampleGenerator
    formPost (ascii "x=1")
    rfl rfl rfl rfl (by decide)⟩

/-- A POST request whose content type is not a url-encoded form, or whose
`PostForm` is already set: `ParseForm` leaves the body alone. -/
theorem ParseForm_keeps_body (L : StdLib) (r : Request)
    (hf : r.formType = false ∨ r.PostForm.isSome = true) : (ParseForm L r).Body = r.Body := by
  unfold ParseForm
  rw [fillForm_Body]
  rcases hf with hf | hf
  · unfold fillPostForm parsePostForm
    cases h : r.PostForm with
    | some v => rfl
    | none =>
      cases hb : r.Body with
      | none =>
        simp only
        split_ifs <;> simp [hb]
      | some b =>
        simp only [hf, Bool.false_eq_true, if_false]
        split_ifs <;> simp [hb]
  · rw [fillPostForm_of_isSome L r hf]

/-- The other POST requests: when the body is not a url-encoded form (or the form
was parsed before), a non-empty body contributes its digest right before the
`secret=` segment and is readable again afterwards (for a digest of 16 bytes). -/
theorem strToSign_post_body_digest (L : StdLib) (p : Generator) (r : Request) (b : Str)
    (h16 : ∀ x, (L.md5Sum x).length = 16)
    (hm : r.Method = MethodPost) (hf : r.formType = false ∨ r.PostForm.isSome = true)
    (hB : r.Body = some b) (hb : b ≠ []) :
    ∃ m r1, withHeaders L r p.ak p.accessTs = some (m, r1) ∧
      strToSign L p r
        = some ((sortKeys m).flatMap (segment m) ++ (upperMD5 L b ++ ascii "&")
            ++ ascii "secret=" ++ upperMD5 L p.sk, r1) ∧
      r1.Body = some b := by
  have hq := queryParams_post L r hm
  have hkeep : (ParseForm L r).Body = some b := (ParseForm_keeps_body L r hf).trans hB
  have hbody := bodyParams_post L (ParseForm L r) b ((ParseForm_Method L r).trans hm) hkeep
  have hlen : b.length ≠ 0 := fun h => hb (List.eq_nil_of_length_eq_zero h)
  simp only [hlen, if_false] at hbody
  have hs := strToSign_of_queryParams L p r _ _ _ _ hq hbody
  have hne : upperMD5 L b ≠ [] := by
    unfold upperMD5 toUpper hexEncodeToString
    cases hd : L.md5Sum b with
    | nil =>
      have := h16 b
      rw [hd] at this
      simp at this
    | cons x xs => simp [List.flatMap_cons]
  simp only [ne_eq, hne, not_false_eq_true, if_true] at hs
  exact ⟨_, ParseForm L r, by simp [withHeaders, hq], hs, hkeep⟩

/-! ## Other methods -/

/-- C7, the code at the failing input: for a request whose method is neither GET
nor POST the call of the nil function panics; `queryParams`, `withHeaders`,
`strToSign` and `GenerateSign` do not return. -/
theorem queryParams_panics_on_other_methods (L : StdLib) (p : Generator) (r : Request)
    (hg : r.Method ≠ MethodGet) (hp : r.Method ≠ MethodPost) :
    queryParams L r = none ∧ withHeaders L r p.ak p.accessTs = none ∧
      strToSign L p r = none ∧ GenerateSign L p r = none := by
  have h := queryParams_other L r hg hp
  simp [GenerateSign, strToSign, withHeaders, h]

/-- A PUT request. -/
theorem queryParams_panics_on_other_methods_witness :
    ascii "PUT" ≠ MethodGet ∧ ascii "PUT" ≠ MethodPost ∧
    GenerateSign testLib exampleGenerator { exampleGet with Method := ascii "PUT" } = none :=
  ⟨by decide, by decide,
    (queryParams_panics_on_other_methods testLib exampleGenerator
      { exampleGet with Method := ascii "PUT" } (by decide) (by decide)).2.2.2⟩

/-! ## The worked example -/

theorem strToSign_exampleGet (L : StdLib) :
    strToSign L exampleGenerator exampleGet
      = some (ascii "a=1&accessTs=1700000000&ak=AK1&b=2&secret=" ++ upperMD5 L (ascii "SK1"),
          exampleGet) := by
  rfl

/-- C5 as stated fails: for no MD5 function is the string of `strToSign` for the
worked example the one that puts `ak` before `accessTs`. -/
theorem strToSign_example_not_ak_first :
    ¬ ∃ L : StdLib, (strToSign L exampleGenerator exampleGet).map Prod.fst
      = some (ascii "a=1&ak=AK1&accessTs=1700000000&b=2&secret=" ++ upperMD5 L (ascii "SK1")) := by
  rintro ⟨L, h⟩
  rw [strToSign_exampleGet] at h
  simp only [Option.map_some', Option.some.injEq] at h
  have h2 : ascii "a=1&ac" = ascii "a=1&ak" := congrArg (List.take 6) h
  exact absurd h2 (by decide)

/-- C5, amended: for the worked example `strToSign` returns
`a=1&accessTs=1700000000&ak=AK1&b=2&secret=` followed by the upper-case MD5 of
`SK1` (byte-wise, `accessTs` sorts before `ak`), and `GenerateSign` returns the
upper-case MD5 of that string. -/
theorem strToSign_example (L : StdLib) :
    strToSign L exampleGenerator exampleGet
      = some (ascii "a=1&accessTs=1700000000&ak=AK1&b=2&secret=" ++ upperMD5 L (ascii "SK1"),
          exampleGet) ∧
    GenerateSign L exampleGenerator exampleGet
      = some (upperMD5 L
          (ascii "a=1&accessTs=1700000000&ak=AK1&b=2&secret=" ++ upperMD5 L (ascii "SK1")),
          exampleGet) := by
  refine ⟨strToSign_exampleGet L, ?_⟩
  unfold GenerateSign
  rw [strToSign_exampleGet]

/-! ## The keys `ak` and `accessTs` -/

theorem ParseForm_Form_nodup (L : StdLib) (r : Request) (hd : (GoMap.keys r.Query).Nodup)
    (hdF : ∀ v, r.Form = some v → (GoMap.keys v).Nodup) :
    ∃ f, (ParseForm L r).Form = some f ∧ (GoMap.keys f).Nodup := by
  have hq : (fillPostForm L r).Query = r.Query := by
    unfold fillPostForm parsePostForm
    cases h : r.PostForm with
    | some v => rfl
    | none =>
      cases hbody : r.Body <;> simp only <;> split_ifs <;> rfl
  have hf : (fillPostForm L r).Form = r.Form := by
    unfold fillPostForm parsePostForm
    cases h : r.PostForm with
    | some v => rfl
    | none =>
      cases hbody : r.Body <;> simp only <;> split_ifs <;> rfl
  have hnil : (GoMap.keys ([] : Values)).Nodup := by simp [GoMap.keys]
  unfold ParseForm fillForm
  cases h : (fillPostForm L r).Form with
  | some v =>
    simp only [h]
    exact ⟨v, rfl, hdF v (hf ▸ h)⟩
  | none =>
    simp only [h]
    split_ifs
    · exact ⟨_, rfl, nodup_keys_copyValues _ _ (nodup_keys_copyValues _ _ hnil)⟩
    · exact ⟨_, rfl, hq ▸ hd⟩

/-- The parameters of a GET or POST request whose maps hold each key once. -/
theorem queryParams_nodup (L : StdLib) (r : Request)
    (hm : r.Method = MethodGet ∨ r.Method = MethodPost)
    (hd : (GoMap.keys r.Query).Nodup) (hdF : ∀ v, r.Form = some v → (GoMap.keys v).Nodup) :
    ∃ params r1, queryParams L r = some (params, r1) ∧ (GoMap.keys params).Nodup := by
  rcases hm with hm | hm
  · exact ⟨_, _, queryParams_get L r hm, hd⟩
  · obtain ⟨f, hf, hn⟩ := ParseForm_Form_nodup L r hd hdF
    refine ⟨_, _, queryParams_post L r hm, ?_⟩
    rw [hf]
    exact hn

/-- C6 as stated fails: with a query parameter `ak=EVIL` the mapping does not
map `ak` to the access key of the generator. -/
theorem withHeaders_ak_overridden :
    (withHeaders testLib akOverrideGet exampleGenerator.ak exampleGenerator.accessTs).map
        (fun x => GoMap.get? x.1 (ascii "ak"))
      ≠ some (some exampleGenerator.ak) := by
  decide

/-- C6, amended: for a GET or POST request the mapping built by `withHeaders`
maps `ak` to the access key and `accessTs` to the time stamp of the generator,
unless the request has a parameter of that name with a non-empty first value:
then the key is mapped to that first value. -/
theorem withHeaders_ak_accessTs (L : StdLib) (r : Request) (ak accessTs : Str)
    (hm : r.Method = MethodGet ∨ r.Method = MethodPost)
    (hd : distinctKeys r.Query) (hdF : ∀ v, r.Form = some v → distinctKeys v) :
    ∃ params r1 m, queryParams L r = some (params, r1) ∧
      withHeaders L r ak accessTs = some (m, r1) ∧
      GoMap.get? m (ascii "ak")
        = some (match GoMap.get? params (ascii "ak") with
          | some s => if s.1 = [] then ak else s.1
          | none => ak) ∧
      GoMap.get? m (ascii "accessTs")
        = some (match GoMap.get? params (ascii "accessTs") with
          | some s => if s.1 = [] then accessTs else s.1
          | none => accessTs) := by
  obtain ⟨params, r1, hq, hn⟩ := queryParams_nodup L r hm hd hdF
  refine ⟨params, r1,
    params.foldl withHeadersStep [(ascii "ak", ak), (ascii "accessTs", accessTs)], hq,
    by simp [withHeaders, hq], ?_, ?_⟩
  · rw [get?_foldl_withHeadersStep params hn]
    have h0 : ascii "ak" ≠ [] := by decide
    have h1 : GoMap.get? [(ascii "ak", ak), (ascii "accessTs", accessTs)] (ascii "ak") = some ak := by
      simp [GoMap.get?]
    cases h : GoMap.get? params (ascii "ak") with
    | none => simp [h1]
    | some s =>
      by_cases hs : s.1 = [] <;> simp [h0, hs, h1]
  · rw [get?_foldl_withHeadersStep params hn]
    have h0 : ascii "accessTs" ≠ [] := by decide
    have h2 : ascii "ak" ≠ ascii "accessTs" := by decide
    have h1 : GoMap.get? [(ascii "ak", ak), (ascii "accessTs", accessTs)] (ascii "accessTs")
        = some accessTs := by
      simp [GoMap.get?, h2]
    cases h : GoMap.get? params (ascii "accessTs") with
    | none => simp [h1]
    | some s =>
      by_cases hs : s.1 = [] <;> simp [h0, hs, h1]

/-- The worked example, which has no parameter named `ak` or `accessTs`. -/
theorem withHeaders_ak_accessTs_witness :
    distinctKeys exampleGet.Query ∧
    ∃ params r1 m, queryParams testLib exampleGet = some (params, r1) ∧
      withHeaders testLib exampleGet (ascii "AK1") (ascii "1700000000") = some (m, r1) ∧
      GoMap.get? m (ascii "ak")
        = some (match GoMap.get? params (ascii "ak") with
          | some s => if s.1 = [] then ascii "AK1" else s.1
          | none => ascii "AK1") ∧
      GoMap.get? m (ascii "accessTs")
        = some (match GoMap.get? params (ascii "accessTs") with
          | some s => if s.1 = [] then ascii "1700000000" else s.1
          | none => ascii "1700000000") :=
  ⟨by decide, withHeaders_ak_accessTs testLib exampleGet (ascii "AK1") (ascii "1700000000")
    (Or.inl rfl) (by decide) (fun v h => by simp [exampleGet] at h)⟩

/-! ## Rounding to `float64` -/

theorem natLog2_spec (fuel n : Nat) (h0 : 0 < n) (hf : n ≤ fuel) :
    2 ^ natLog2 fuel n ≤ n ∧ n < 2 ^ (natLog2 fuel n + 1) := by
  induction fuel generalizing n with
  | zero => omega
  | succ fuel ih =>
    unfold natLog2
    by_cases h2 : n < 2
    · simp only [h2, if_true]
      constructor <;> simp <;> omega
    · simp only [h2, if_false]
      have ih2 := ih (n / 2) (by omega) (by omega)
      have e1 : 2 ^ (natLog2 fuel (n / 2) + 1) = 2 * 2 ^ natLog2 fuel (n / 2) := by
        rw [Nat.pow_succ]; ring
      have e2 : 2 ^ (natLog2 fuel (n / 2) + 1 + 1) = 2 * 2 ^ (natLog2 fuel (n / 2) + 1) := by
        rw [Nat.pow_succ]; ring
      rw [e2]
      rw [e1] at ih2 ⊢
      omega

theorem exponent_spec (q : ℚ) (hq : 0 < q) :
    (2 : ℚ) ^ exponent q ≤ q ∧ q < (2 : ℚ) ^ (exponent q + 1) := by
  have hnum : 0 < q.num := Rat.num_pos.mpr hq
  have hn0 : 0 < q.num.toNat := by omega
  have hd0 : 0 < q.den := q.den_pos
  obtain ⟨ha1, ha2⟩ := natLog2_spec q.num.toNat q.num.toNat hn0 le_rfl
  obtain ⟨hb1, hb2⟩ := natLog2_spec q.den q.den hd0 le_rfl
  set a := natLog2 q.num.toNat q.num.toNat with ha
  set b := natLog2 q.den q.den with hb
  have hqn : q * (q.den : ℚ) = (q.num.toNat : ℚ) := by
    have h1 : ((q.num.toNat : ℤ) : ℚ) = (q.num : ℚ) := by
      rw [Int.toNat_of_nonneg hnum.le]
    have h2 : (q.num : ℚ) = q * q.den := (Rat.mul_den_eq_num q).symm
    rw [← h2, ← h1]
    norm_cast
  have hdq : (0 : ℚ) < (q.den : ℚ) := by exact_mod_cast hd0
  have A1 : ((2 : ℚ) ^ a) ≤ (q.num.toNat : ℚ) := by exact_mod_cast ha1
  have A2 : (q.num.toNat : ℚ) < (2 : ℚ) ^ (a + 1) := by exact_mod_cast ha2
  have B1 : ((2 : ℚ) ^ b) ≤ (q.den : ℚ) := by exact_mod_cast hb1
  have B2 : (q.den : ℚ) < (2 : ℚ) ^ (b + 1) := by exact_mod_cast hb2
  have two : (2 : ℚ) ≠ 0 := by norm_num
  -- the estimate `e0` is off by at most one
  have up : q < (2 : ℚ) ^ ((a : ℤ) - (b : ℤ) + 1) := by
    have h3 : (2 : ℚ) ^ ((a : ℤ) - (b : ℤ) + 1) * (2 : ℚ) ^ b = (2 : ℚ) ^ (a + 1) := by
      rw [← zpow_natCast, ← zpow_natCast, ← zpow_add₀ two]
      congr 1
      push_cast
      ring
    have hpos : (0 : ℚ) < (2 : ℚ) ^ ((a : ℤ) - (b : ℤ) + 1) := zpow_pos (by norm_num) _
    have h4 : q * q.den < (2 : ℚ) ^ ((a : ℤ) - (b : ℤ) + 1) * q.den := by
      calc q * q.den = (q.num.toNat : ℚ) := hqn
        _ < (2 : ℚ) ^ (a + 1) := A2
        _ = (2 : ℚ) ^ ((a : ℤ) - (b : ℤ) + 1) * (2 : ℚ) ^ b := h3.symm
        _ ≤ (2 : ℚ) ^ ((a : ℤ) - (b : ℤ) + 1) * q.den := by
          exact mul_le_mul_of_nonneg_left B1 hpos.le
    exact lt_of_mul_lt_mul_right h4 hdq.le
  have low : (2 : ℚ) ^ ((a : ℤ) - (b : ℤ) - 1) < q := by
    have h3 : (2 : ℚ) ^ ((a : ℤ) - (b : ℤ) - 1) * (2 : ℚ) ^ (b + 1) = (2 : ℚ) ^ a := by
      rw [← zpow_natCast, ← zpow_natCast, ← zpow_add₀ two]
      congr 1
      push_cast
      ring
    have hpos : (0 : ℚ) < (2 : ℚ) ^ ((a : ℤ) - (b : ℤ) - 1) := zpow_pos (by norm_num) _
    have h4 : (2 : ℚ) ^ ((a : ℤ) - (b : ℤ) - 1) * q.den < q * q.den := by
      calc (2 : ℚ) ^ ((a : ℤ) - (b : ℤ) - 1) * q.den
          < (2 : ℚ) ^ ((a : ℤ) - (b : ℤ) - 1) * (2 : ℚ) ^ (b + 1) :=
            mul_lt_mul_of_pos_left B2 hpos
        _ = (2 : ℚ) ^ a := h3
        _ ≤ (q.num.toNat : ℚ) := A1
        _ = q * q.den := hqn.symm
    exact lt_of_mul_lt_mul_right h4 hdq.le
  unfold exponent
  simp only [← ha, ← hb]
  by_cases hc : (2 : ℚ) ^ ((a : ℤ) - (b : ℤ)) ≤ q
  · rw [if_pos hc]
    exact ⟨hc, up⟩
  · rw [if_neg hc]
    refine ⟨low.le, ?_⟩
    have : (a : ℤ) - (b : ℤ) - 1 + 1 = (a : ℤ) - (b : ℤ) := by ring
    rw [this]
    exact lt_of_not_le hc

theorem exponent_mono (q1 q2 : ℚ) (h1 : 0 < q1) (h : q1 ≤ q2) : exponent q1 ≤ exponent q2 := by
  have s1 := exponent_spec q1 h1
  have s2 := exponent_spec q2 (lt_of_lt_of_le h1 h)
  have h3 : (2 : ℚ) ^ exponent q1 < (2 : ℚ) ^ (exponent q2 + 1) :=
    lt_of_le_of_lt (s1.1.trans h) s2.2
  have h4 := (zpow_lt_zpow_iff_right₀ (by norm_num : (1 : ℚ) < 2)).mp h3
  omega

theorem roundHalfEven_intCast (n : ℤ) : roundHalfEven (n : ℚ) = n := by
  unfold roundHalfEven
  simp

theorem floor_le_roundHalfEven (q : ℚ) : ⌊q⌋ ≤ roundHalfEven q := by
  unfold roundHalfEven
  simp only
  split_ifs <;> omega

theorem roundHalfEven_le_floor_add_one (q : ℚ) : roundHalfEven q ≤ ⌊q⌋ + 1 := by
  unfold roundHalfEven
  simp only
  split_ifs <;> omega

theorem roundHalfEven_mono (q1 q2 : ℚ) (h : q1 ≤ q2) : roundHalfEven q1 ≤ roundHalfEven q2 := by
  have hf : ⌊q1⌋ ≤ ⌊q2⌋ := Int.floor_mono h
  rcases hf.lt_or_eq with hlt | heq
  · have a1 := roundHalfEven_le_floor_add_one q1
    have a2 := floor_le_roundHalfEven q2
    omega
  · unfold roundHalfEven
    simp only [heq]
    have hc : (⌊q1⌋ : ℚ) = (⌊q2⌋ : ℚ) := by rw [heq]
    split_ifs <;> first
      | omega
      | (exfalso; linarith)

theorem float64Pos_bounds (q : ℚ) (hq : 0 < q) :
    (2 : ℚ) ^ exponent q ≤ float64Pos q ∧ float64Pos q ≤ (2 : ℚ) ^ (exponent q + 1) := by
  obtain ⟨h1, h2⟩ := exponent_spec q hq
  have two : (2 : ℚ) ≠ 0 := by norm_num
  have hu : (0 : ℚ) < (2 : ℚ) ^ (exponent q - 52) := zpow_pos (by norm_num) _
  have c52 : (((2 : ℤ) ^ 52 : ℤ) : ℚ) = (2 : ℚ) ^ (52 : ℤ) := by norm_num
  have c53 : (((2 : ℤ) ^ 53 : ℤ) : ℚ) = (2 : ℚ) ^ (53 : ℤ) := by norm_num
  have e1 : (((2 : ℤ) ^ 52 : ℤ) : ℚ) * (2 : ℚ) ^ (exponent q - 52) = (2 : ℚ) ^ exponent q := by
    rw [c52, ← zpow_add₀ two]
    congr 1
    ring
  have e2 : (((2 : ℤ) ^ 53 : ℤ) : ℚ) * (2 : ℚ) ^ (exponent q - 52)
      = (2 : ℚ) ^ (exponent q + 1) := by
    rw [c53, ← zpow_add₀ two]
    congr 1
    ring
  have x1 : (((2 : ℤ) ^ 52 : ℤ) : ℚ) ≤ q / (2 : ℚ) ^ (exponent q - 52) := by
    rw [le_div_iff₀ hu, e1]
    exact h1
  have x2 : q / (2 : ℚ) ^ (exponent q - 52) ≤ (((2 : ℤ) ^ 53 : ℤ) : ℚ) := by
    rw [div_le_iff₀ hu, e2]
    exact h2.le
  have r1 := roundHalfEven_mono _ _ x1
  have r2 := roundHalfEven_mono _ _ x2
  rw [roundHalfEven_intCast] at r1 r2
  have c1 : (((2 : ℤ) ^ 52 : ℤ) : ℚ) ≤ (roundHalfEven (q / (2 : ℚ) ^ (exponent q - 52)) : ℚ) := by
    exact_mod_cast r1
  have c2 : (roundHalfEven (q / (2 : ℚ) ^ (exponent q - 52)) : ℚ) ≤ (((2 : ℤ) ^ 53 : ℤ) : ℚ) := by
    exact_mod_cast r2
  unfold float64Pos
  constructor
  · rw [← e1]
    exact mul_le_mul_of_nonneg_right c1 hu.le
  · rw [← e2]
    exact mul_le_mul_of_nonneg_right c2 hu.le

theorem float64Pos_pos (q : ℚ) (hq : 0 < q) : 0 < float64Pos q :=
  lt_of_lt_of_le (zpow_pos (by norm_num) _) (float64Pos_bounds q hq).1

theorem float64Pos_mono (q1 q2 : ℚ) (h1 : 0 < q1) (h : q1 ≤ q2) :
    float64Pos q1 ≤ float64Pos q2 := by
  have h2 : 0 < q2 := lt_of_lt_of_le h1 h
  have he := exponent_mono q1 q2 h1 h
  rcases he.lt_or_eq with hlt | heq
  · have b1 := (float64Pos_bounds q1 h1).2
    have b2 := (float64Pos_bounds q2 h2).1
    have b3 : (2 : ℚ) ^ (exponent q1 + 1) ≤ (2 : ℚ) ^ exponent q2 :=
      zpow_le_zpow_right₀ (by norm_num) (by omega)
    exact b1.trans (b3.trans b2)
  · unfold float64Pos
    rw [heq]
    have hu : (0 : ℚ) < (2 : ℚ) ^ (exponent q2 - 52) := zpow_pos (by norm_num) _
    have hx : q1 / (2 : ℚ) ^ (exponent q2 - 52) ≤ q2 / (2 : ℚ) ^ (exponent q2 - 52) :=
      div_le_div_of_nonneg_right h hu.le
    have hr := roundHalfEven_mono _ _ hx
    have hc : (roundHalfEven (q1 / (2 : ℚ) ^ (exponent q2 - 52)) : ℚ)
        ≤ (roundHalfEven (q2 / (2 : ℚ) ^ (exponent q2 - 52)) : ℚ) := by exact_mod_cast hr
    exact mul_le_mul_of_nonneg_right hc hu.le

theorem float64_zero : float64 0 = 0 := by simp [float64]

theorem float64_of_pos (q : ℚ) (hq : 0 < q) : float64 q = float64Pos q := by
  unfold float64
  rw [if_neg hq.ne', if_pos hq]

theorem float64_of_neg (q : ℚ) (hq : q < 0) : float64 q = -float64Pos (-q) := by
  unfold float64
  rw [if_neg hq.ne, if_neg (not_lt.mpr hq.le)]

theorem float64_neg (q : ℚ) : float64 (-q) = -float64 q := by
  rcases lt_trichotomy q 0 with h | h | h
  · rw [float64_of_neg q h, float64_of_pos (-q) (by linarith), neg_neg]
  · subst h
    simp [float64_zero]
  · rw [float64_of_pos q h, float64_of_neg (-q) (by linarith), neg_neg]

theorem float64_nonneg (q : ℚ) (hq : 0 ≤ q) : 0 ≤ float64 q := by
  rcases hq.lt_or_eq with h | h
  · rw [float64_of_pos q h]
    exact (float64Pos_pos q h).le
  · rw [← h, float64_zero]

/-- Rounding to `float64` is monotone. -/
theorem float64_mono (q1 q2 : ℚ) (h : q1 ≤ q2) : float64 q1 ≤ float64 q2 := by
  rcases lt_trichotomy q2 0 with h2 | h2 | h2
  · have h1 : q1 < 0 := lt_of_le_of_lt h h2
    rw [float64_of_neg q1 h1, float64_of_neg q2 h2]
    have := float64Pos_mono (-q2) (-q1) (by linarith) (by linarith)
    linarith
  · subst h2
    have h3 := float64_nonneg (-q1) (by linarith)
    rw [float64_neg] at h3
    rw [float64_zero]
    linarith
  · rcases lt_or_le 0 q1 with h1 | h1
    · rw [float64_of_pos q1 h1, float64_of_pos q2 h2]
      exact float64Pos_mono q1 q2 h1 h
    · have h3 := float64_nonneg (-q1) (by linarith)
      rw [float64_neg] at h3
      have h4 := float64_nonneg q2 h2.le
      linarith

theorem float64Pos_intCast (n : ℤ) (h0 : 0 < n) (h1 : n ≤ 2 ^ 53) :
    float64Pos (n : ℚ) = n := by
  have hq : (0 : ℚ) < (n : ℚ) := by exact_mod_cast h0
  obtain ⟨s1, s2⟩ := exponent_spec (n : ℚ) hq
  have two : (2 : ℚ) ≠ 0 := by norm_num
  have hn1 : (1 : ℚ) ≤ (n : ℚ) := by exact_mod_cast h0
  have hn2 : (n : ℚ) ≤ (2 : ℚ) ^ (53 : ℤ) := by
    have h3 : (n : ℚ) ≤ (((2 : ℤ) ^ 53 : ℤ) : ℚ) := by exact_mod_cast h1
    have c53 : (((2 : ℤ) ^ 53 : ℤ) : ℚ) = (2 : ℚ) ^ (53 : ℤ) := by norm_num
    rw [c53] at h3
    exact h3
  have e0 : 0 ≤ exponent (n : ℚ) := by
    have h3 : (2 : ℚ) ^ (0 : ℤ) < (2 : ℚ) ^ (exponent (n : ℚ) + 1) := by
      rw [zpow_zero]
      exact lt_of_le_of_lt hn1 s2
    have := (zpow_lt_zpow_iff_right₀ (by norm_num : (1 : ℚ) < 2)).mp h3
    omega
  have e53 : exponent (n : ℚ) ≤ 53 := by
    have h3 : (2 : ℚ) ^ exponent (n : ℚ) ≤ (2 : ℚ) ^ (53 : ℤ) := s1.trans hn2
    exact (zpow_le_zpow_iff_right₀ (by norm_num : (1 : ℚ) < 2)).mp h3
  unfold float64Pos
  rcases (show exponent (n : ℚ) ≤ 52 ∨ exponent (n : ℚ) = 53 by omega) with hle | heq
  · obtain ⟨k, hk⟩ : ∃ k : ℕ, exponent (n : ℚ) - 52 = -(k : ℤ) :=
      ⟨(52 - exponent (n : ℚ)).toNat, by omega⟩
    rw [hk, zpow_neg, zpow_natCast]
    have hp : (0 : ℚ) < (2 : ℚ) ^ k := pow_pos (by norm_num) k
    have hx : (n : ℚ) / ((2 : ℚ) ^ k)⁻¹ = ((n * 2 ^ k : ℤ) : ℚ) := by
      push_cast
      field_simp
    rw [hx, roundHalfEven_intCast]
    push_cast
    field_simp
  · have hn : (n : ℚ) = (2 : ℚ) ^ (53 : ℤ) := by
      apply le_antisymm hn2
      rw [heq] at s1
      exact s1
    rw [heq]
    have hx : (n : ℚ) / (2 : ℚ) ^ ((53 : ℤ) - 52) = ((2 ^ 52 : ℤ) : ℚ) := by
      rw [hn]
      norm_num
    rw [hx, roundHalfEven_intCast, hn]
    norm_num

/-- Integers of magnitude at most `2^53` are `float64` values. -/
theorem float64_intCast (n : ℤ) (h : |n| ≤ 2 ^ 53) : float64 (n : ℚ) = n := by
  have hb := abs_le.mp h
  rcases lt_trichotomy n 0 with h0 | h0 | h0
  · have hq : ((n : ℤ) : ℚ) < 0 := by exact_mod_cast h0
    rw [float64_of_neg _ hq]
    have := float64Pos_intCast (-n) (by omega) (by omega)
    push_cast at this
    rw [this]
    ring
  · subst h0
    simp [float64_zero]
  · have hq : (0 : ℚ) < ((n : ℤ) : ℚ) := by exact_mod_cast h0
    rw [float64_of_pos _ hq]
    exact float64Pos_intCast n h0 hb.2

theorem truncToInt_intCast (n : ℤ) : truncToInt (n : ℚ) = n := by
  unfold truncToInt
  split_ifs <;> simp

theorem truncToInt_mono (x y : ℚ) (h : x ≤ y) : truncToInt x ≤ truncToInt y := by
  unfold truncToInt
  split_ifs with hx hy hy
  · exact Int.floor_mono h
  · exact absurd (hx.trans h) hy
  · have a : ⌈x⌉ ≤ 0 := Int.ceil_le.mpr (by push_cast; linarith)
    have b : (0 : ℤ) ≤ ⌊y⌋ := Int.le_floor.mpr (by push_cast; linarith)
    omega
  · exact Int.ceil_mono h

/-! ## Durations -/

theorem tdiv_tmod_spec (d : Int) :
    d = d.tdiv 1000000000 * 1000000000 + d.tmod 1000000000 ∧
    (0 ≤ d → 0 ≤ d.tdiv 1000000000 ∧ 0 ≤ d.tmod 1000000000 ∧ d.tmod 1000000000 < 1000000000) ∧
    (d ≤ 0 → d.tdiv 1000000000 ≤ 0 ∧ -1000000000 < d.tmod 1000000000 ∧ d.tmod 1000000000 ≤ 0) := by
  have key := Int.tdiv_add_tmod d 1000000000
  rcases le_or_lt 0 d with h | h
  · have h1 := Int.tdiv_eq_ediv h (by norm_num : (0 : Int) ≤ 1000000000)
    have h2 := Int.tmod_eq_emod h (by norm_num : (0 : Int) ≤ 1000000000)
    rw [h1, h2] at key ⊢
    omega
  · have h1 : d.tdiv 1000000000 = -((-d) / 1000000000) := by
      have := Int.neg_tdiv (-d) 1000000000
      rw [neg_neg] at this
      rw [this, Int.tdiv_eq_ediv (by omega) (by norm_num)]
    rw [h1] at key ⊢
    omega

theorem float64_one : float64 1 = 1 := by
  have := float64_intCast 1 (by norm_num)
  simpa using this

theorem float64_frac_nonneg (n : Int) (h : 0 ≤ n) : 0 ≤ float64 ((n : ℚ) / 1000000000) :=
  float64_nonneg _ (div_nonneg (by exact_mod_cast h) (by norm_num))

theorem float64_frac_le_one (n : Int) (h : n ≤ 1000000000) :
    float64 ((n : ℚ) / 1000000000) ≤ 1 := by
  have h1 : (n : ℚ) / 1000000000 ≤ 1 := by
    rw [div_le_one (by norm_num)]
    exact_mod_cast h
  have := float64_mono _ _ h1
  rwa [float64_one] at this

theorem float64_frac_nonpos (n : Int) (h : n ≤ 0) : float64 ((n : ℚ) / 1000000000) ≤ 0 := by
  have h1 : (n : ℚ) / 1000000000 ≤ 0 :=
    div_nonpos_of_nonpos_of_nonneg (by exact_mod_cast h) (by norm_num)
  have := float64_mono _ _ h1
  rwa [float64_zero] at this

theorem float64_frac_ge_neg_one (n : Int) (h : -1000000000 ≤ n) :
    -1 ≤ float64 ((n : ℚ) / 1000000000) := by
  have h1 : (-1 : ℚ) ≤ (n : ℚ) / 1000000000 := by
    rw [le_div_iff₀ (by norm_num)]
    have : ((-1000000000 : Int) : ℚ) ≤ (n : ℚ) := by exact_mod_cast h
    push_cast at this
    linarith
  have := float64_mono _ _ h1
  rwa [float64_neg, float64_one] at this

/-- Within the range of `Duration` the two integer parts convert exactly. -/
theorem Seconds_eq (d : Int) (h1 : minDuration ≤ d) (h2 : d ≤ maxDuration) :
    Duration.Seconds d
      = float64 ((d.tdiv 1000000000 : Int) + float64 ((d.tmod 1000000000 : Int) / 1000000000)) := by
  obtain ⟨e, hp, hn⟩ := tdiv_tmod_spec d
  have hmin : minDuration = -9223372036854775808 := by norm_num [minDuration]
  have hmax : maxDuration = 9223372036854775807 := by norm_num [maxDuration]
  rw [hmin] at h1
  rw [hmax] at h2
  have b1 : |d.tdiv 1000000000| ≤ 2 ^ 53 := by
    rw [abs_le]
    norm_num
    rcases le_or_lt 0 d with h | h
    · have := hp h
      omega
    · have := hn h.le
      omega
  have b2 : |d.tmod 1000000000| ≤ 2 ^ 53 := by
    rw [abs_le]
    norm_num
    rcases le_or_lt 0 d with h | h
    · have := hp h
      omega
    · have := hn h.le
      omega
  unfold Duration.Seconds
  rw [float64_intCast _ b1, float64_intCast _ b2]

theorem Seconds_mono (d1 d2 : Int) (h : d1 ≤ d2) (h1 : minDuration ≤ d1) (h2 : d2 ≤ maxDuration) :
    Duration.Seconds d1 ≤ Duration.Seconds d2 := by
  rw [Seconds_eq d1 h1 (h.trans h2), Seconds_eq d2 (h1.trans h) h2]
  apply float64_mono
  obtain ⟨e1, p1, n1⟩ := tdiv_tmod_spec d1
  obtain ⟨e2, p2, n2⟩ := tdiv_tmod_spec d2
  rcases lt_trichotomy (d1.tdiv 1000000000) (d2.tdiv 1000000000) with hs | hs | hs
  · have hs2 : ((d1.tdiv 1000000000 : Int) : ℚ) + 1 ≤ ((d2.tdiv 1000000000 : Int) : ℚ) := by
      exact_mod_cast hs
    rcases le_or_lt 0 d1 with hd | hd
    · have a := float64_frac_le_one (d1.tmod 1000000000) (by have := p1 hd; omega)
      have b := float64_frac_nonneg (d2.tmod 1000000000) (by have := p2 (hd.trans h); omega)
      linarith
    · have a := float64_frac_nonpos (d1.tmod 1000000000) (by have := n1 hd.le; omega)
      have b := float64_frac_ge_neg_one (d2.tmod 1000000000) (by
        rcases le_or_lt 0 d2 with hd2 | hd2
        · have := p2 hd2; omega
        · have := n2 hd2.le; omega)
      linarith
  · rw [hs]
    have hn : d1.tmod 1000000000 ≤ d2.tmod 1000000000 := by omega
    have hq : ((d1.tmod 1000000000 : Int) : ℚ) / 1000000000
        ≤ ((d2.tmod 1000000000 : Int) : ℚ) / 1000000000 :=
      div_le_div_of_nonneg_right (by exact_mod_cast hn) (by norm_num)
    have := float64_mono _ _ hq
    linarith
  · exfalso
    rcases le_or_lt 0 d1 with hd | hd
    · have := p1 hd
      have := p2 (hd.trans h)
      omega
    · rcases le_or_lt 0 d2 with hd2 | hd2
      · have := n1 hd.le
        have := p2 hd2
        omega
      · have := n1 hd.le
        have := n2 hd2.le
        omega

theorem wholeMinutes_mono (d1 d2 : Int) (h : d1 ≤ d2) (h1 : minDuration ≤ d1)
    (h2 : d2 ≤ maxDuration) : wholeMinutes d1 ≤ wholeMinutes d2 := by
  unfold wholeMinutes
  apply truncToInt_mono
  apply float64_mono
  exact div_le_div_of_nonneg_right (Seconds_mono d1 d2 h h1 h2) (by norm_num)

/-- A duration of `k` whole minutes has `k` whole minutes. -/
theorem wholeMinutes_exact (k : Int) (h1 : minDuration ≤ k * 60 * 1000000000)
    (h2 : k * 60 * 1000000000 ≤ maxDuration) : wholeMinutes (k * 60 * 1000000000) = k := by
  have hmin : minDuration = -9223372036854775808 := by norm_num [minDuration]
  have hmax : maxDuration = 9223372036854775807 := by norm_num [maxDuration]
  unfold wholeMinutes
  rw [Seconds_eq _ h1 h2]
  have t1 : (k * 60 * 1000000000).tdiv 1000000000 = k * 60 :=
    Int.mul_tdiv_cancel _ (by norm_num)
  have t2 : (k * 60 * 1000000000).tmod 1000000000 = 0 := by
    have := Int.tdiv_add_tmod (k * 60 * 1000000000) 1000000000
    rw [t1] at this
    omega
  rw [t1, t2]
  simp only [Int.cast_zero, zero_div, float64_zero, add_zero]
  rw [hmin] at h1
  rw [hmax] at h2
  rw [float64_intCast _ (by rw [abs_le]; norm_num; omega)]
  have hk : ((k * 60 : Int) : ℚ) / 60 = (k : ℚ) := by
    push_cast
    field_simp
  rw [hk, float64_intCast _ (by rw [abs_le]; norm_num; omega), truncToInt_intCast]

/-! ## The clock -/

theorem wrapInt64_le (x : Int) (h : -(2 ^ 63) ≤ x) : wrapInt64 x ≤ x := by
  unfold wrapInt64
  norm_num at h ⊢
  omega

theorem wrapInt64_id (x : Int) (h1 : -(2 ^ 63) ≤ x) (h2 : x < 2 ^ 63) : wrapInt64 x = x := by
  unfold wrapInt64
  norm_num at h1 h2 ⊢
  omega

theorem Sub_range (t : Time) (u : Int) : minDuration ≤ t.Sub u ∧ t.Sub u ≤ maxDuration := by
  unfold Time.Sub
  have hmin : minDuration = -9223372036854775808 := by norm_num [minDuration]
  have hmax : maxDuration = 9223372036854775807 := by norm_num [maxDuration]
  simp only [hmin, hmax]
  split_ifs <;> omega

theorem le_Sub (t : Time) (u x : Int) (hx : x ≤ maxDuration)
    (h : x ≤ ((t.unix : Int) + unixToInternal - u) * 1000000000 + (t.nsec.val : Int)) :
    x ≤ t.Sub u := by
  unfold Time.Sub
  have hmin : minDuration = -9223372036854775808 := by norm_num [minDuration]
  have hmax : maxDuration = 9223372036854775807 := by norm_num [maxDuration]
  simp only [hmin, hmax] at hx ⊢
  split_ifs <;> omega

theorem Sub_le (t : Time) (u x : Int) (hx : minDuration ≤ x)
    (h : ((t.unix : Int) + unixToInternal - u) * 1000000000 + (t.nsec.val : Int) ≤ x) :
    t.Sub u ≤ x := by
  unfold Time.Sub
  have hmin : minDuration = -9223372036854775808 := by norm_num [minDuration]
  have hmax : maxDuration = 9223372036854775807 := by norm_num [maxDuration]
  simp only [hmin, hmax] at hx ⊢
  split_ifs <;> omega

theorem ParseInt_range (s : Str) (t : Int) (h : ParseInt s = some t) :
    -(2 ^ 63) ≤ t ∧ t < 2 ^ 63 := by
  unfold ParseInt at h
  cases s with
  | nil => simp at h
  | cons c rest =>
    simp only at h
    generalize (if c.val = 43 ∨ c.val = 45 then rest else c :: rest) = ds at h
    generalize (c.val == 45) = neg at h
    by_cases hds : ds = []
    · simp [hds] at h
    · rw [if_neg hds] at h
      cases hv : digitsValue 0 ds with
      | none => simp [hv] at h
      | some un =>
        rw [hv] at h
        simp only at h
        cases neg with
        | true =>
          simp at h
          obtain ⟨h1, h2⟩ := h
          norm_num
          omega
        | false =>
          simp at h
          obtain ⟨h1, h2⟩ := h
          norm_num
          omega

theorem SignTimeout_eq (p : Generator) (now : Time) (accessTs : Str) :
    SignTimeout p now accessTs
      = decide (wholeMinutes (now.Sub (timeUnix ((ParseInt accessTs).getD (sevenDaysAgo now))))
          > p.liveMinutes) := by
  unfold SignTimeout timeSpanMinutes wholeMinutes
  cases ParseInt accessTs <;> rfl

/-! ## The liveness check -/

theorem le_wholeMinutes_Sub (now : Time) (u k : Int)
    (h1 : minDuration ≤ k * 60 * 1000000000) (h2 : k * 60 * 1000000000 ≤ maxDuration)
    (h : k * 60 * 1000000000
      ≤ ((now.unix : Int) + unixToInternal - u) * 1000000000 + (now.nsec.val : Int)) :
    k ≤ wholeMinutes (now.Sub u) := by
  have a := le_Sub now u _ h2 h
  have b := wholeMinutes_mono _ _ a h1 (Sub_range now u).2
  rwa [wholeMinutes_exact k h1 h2] at b

theorem wholeMinutes_Sub_le (now : Time) (u k : Int)
    (h1 : minDuration ≤ k * 60 * 1000000000) (h2 : k * 60 * 1000000000 ≤ maxDuration)
    (h : ((now.unix : Int) + unixToInternal - u) * 1000000000 + (now.nsec.val : Int)
      ≤ k * 60 * 1000000000) :
    wholeMinutes (now.Sub u) ≤ k := by
  have a := Sub_le now u _ h1 h
  have b := wholeMinutes_mono _ _ a (Sub_range now u).1 h2
  rwa [wholeMinutes_exact k h1 h2] at b

theorem timeUnix_of_ParseInt (s : Str) (t : Int) (hp : ParseInt s = some t)
    (ht : t + unixToInternal < 2 ^ 63) : timeUnix t = t + unixToInternal := by
  have hr := ParseInt_range s t hp
  unfold timeUnix
  apply wrapInt64_id _ _ ht
  unfold unixToInternal
  norm_num at hr ⊢
  omega

/-- C9 as stated fails: with a window of 2 minutes and 150 seconds (2.5 minutes)
elapsed since the time stamp `0`, `SignTimeout` returns false. -/
theorem SignTimeout_false_after_150_seconds :
    ParseInt (ascii "0") = some 0 ∧
    (exampleGenerator.liveMinutes : ℚ) < ((150 : ℚ) - 0) / 60 ∧
    SignTimeout exampleGenerator { unix := 150, nsec := 0 } (ascii "0") = false :=
  ⟨by decide, by norm_num [exampleGenerator], by decide!⟩

/-- C9, amended: for a window between -153722867 and 153722866 minutes (what a
`Duration` holds) and a time stamp that parses to `t` with `t + 62135596800` below
`2^63` (where `time.Unix` does not wrap), `SignTimeout` returns true whenever
`now - t` is at least `liveMinutes + 1` minutes and false whenever `now - t` is at
most `liveMinutes` minutes; the elapsed time is counted in nanoseconds. -/
theorem SignTimeout_whole_minutes (p : Generator) (now : Time) (accessTs : Str) (t : Int)
    (hp : ParseInt accessTs = some t) (ht : t + unixToInternal < 2 ^ 63)
    (hL1 : -153722867 ≤ p.liveMinutes) (hL2 : p.liveMinutes < 153722867) :
    ((p.liveMinutes + 1) * 60 * 1000000000
        ≤ ((now.unix : Int) - t) * 1000000000 + (now.nsec.val : Int) →
      SignTimeout p now accessTs = true) ∧
    (((now.unix : Int) - t) * 1000000000 + (now.nsec.val : Int)
        ≤ p.liveMinutes * 60 * 1000000000 →
      SignTimeout p now accessTs = false) := by
  have hmin : minDuration = -9223372036854775808 := by norm_num [minDuration]
  have hmax : maxDuration = 9223372036854775807 := by norm_num [maxDuration]
  rw [SignTimeout_eq, hp, Option.getD_some, timeUnix_of_ParseInt accessTs t hp ht]
  constructor
  · intro h
    have := le_wholeMinutes_Sub now (t + unixToInternal) (p.liveMinutes + 1)
      (by rw [hmin]; omega) (by rw [hmax]; omega) (by omega)
    exact decide_eq_true (by omega)
  · intro h
    have := wholeMinutes_Sub_le now (t + unixToInternal) p.liveMinutes
      (by rw [hmin]; omega) (by rw [hmax]; omega) (by omega)
    exact decide_eq_false (by omega)

/-- The window of 2 minutes and the time stamp `0`: expired after 180 seconds,
alive after 120 seconds. -/
theorem SignTimeout_whole_minutes_witness :
    ParseInt (ascii "0") = some 0 ∧
    SignTimeout exampleGenerator { unix := 180, nsec := 0 } (ascii "0") = true ∧
    SignTimeout exampleGenerator { unix := 120, nsec := 0 } (ascii "0") = false :=
  ⟨by decide,
    (SignTimeout_whole_minutes exampleGenerator { unix := 180, nsec := 0 } (ascii "0") 0
      (by decide) (by decide) (by decide) (by decide)).1 (by decide),
    (SignTimeout_whole_minutes exampleGenerator { unix := 120, nsec := 0 } (ascii "0") 0
      (by decide) (by decide) (by decide) (by decide)).2 (by decide)⟩

/-! ### The fallback time -/

/-- Function `Date` takes off the offset that the location has at some time. -/
theorem Date_eq (unix : Int) (loc : Location) :
    ∃ x, Date unix loc = unix - (loc.lookup x).offset := by
  unfold Date
  simp only
  split_ifs with h0 h1
  · exact ⟨_, rfl⟩
  · exact ⟨_, rfl⟩
  · refine ⟨unix, ?_⟩
    rw [not_not.mp h0]
    ring

/-- The fallback time lies `7 * 86400` seconds before `now`, up to the difference
of two offsets of the local zone. -/
theorem sevenDaysAgo_bounds (now : Time) (d : Nat) (hz : now.loc.offsetsWithin d) :
    (now.unix : Int) - 7 * 86400 - (d : Int) * 60 ≤ sevenDaysAgo now ∧
    sevenDaysAgo now ≤ (now.unix : Int) - 7 * 86400 + (d : Int) * 60 := by
  obtain ⟨x, hx⟩ := Date_eq (now.wallSeconds - 7 * 86400) now.loc
  unfold sevenDaysAgo
  rw [hx]
  unfold Time.wallSeconds
  have h1 := hz (now.unix : Int) x
  have h2 := hz x (now.unix : Int)
  constructor <;> omega

/-- In a zone with one offset the fallback time is `7 * 86400` seconds before
`now`. -/
theorem sevenDaysAgo_fixed_offset (now : Time) (hz : now.loc.offsetsWithin 0) :
    sevenDaysAgo now = (now.unix : Int) - 7 * 86400 := by
  have := sevenDaysAgo_bounds now 0 hz
  omega

theorem wholeMinutes_sevenDaysAgo (now : Time) (d : Nat) (hd : d ≤ 10080)
    (hz : now.loc.offsetsWithin d) :
    (10080 : Int) - (d : Int) ≤ wholeMinutes (now.Sub (timeUnix (sevenDaysAgo now))) := by
  have hmin : minDuration = -9223372036854775808 := by norm_num [minDuration]
  have hmax : maxDuration = 9223372036854775807 := by norm_num [maxDuration]
  obtain ⟨b1, b2⟩ := sevenDaysAgo_bounds now d hz
  have hw : timeUnix (sevenDaysAgo now) ≤ sevenDaysAgo now + unixToInternal := by
    unfold timeUnix
    apply wrapInt64_le
    unfold unixToInternal
    norm_num
    omega
  apply le_wholeMinutes_Sub now _ (10080 - (d : Int)) (by rw [hmin]; omega) (by rw [hmax]; omega)
  omega

theorem utc_offsetsWithin (d : Nat) : Location.utc.offsetsWithin d := by
  intro u v
  show (0 : Int) - 0 ≤ (d : Int) * 60
  omega

theorem newYork_offsetsWithin : newYork.offsetsWithin 60 := by
  intro u v
  unfold newYork
  simp only
  split_ifs <;> norm_num

/-- C10: with the default window of 2 minutes, a time stamp that `ParseInt`
rejects is replaced by the time `AddDate(0, 0, -7)` before `now`, seven calendar
days back in the local zone; when the offsets of that zone differ by at most `d`
minutes, `d` up to 10077, at least `10080 - d` whole minutes have then elapsed and
`SignTimeout` returns true, at every reading of the clock. -/
theorem SignTimeout_unparsable (ak sk ts : Str) (now : Time) (accessTs : Str) (d : Nat)
    (h : ParseInt accessTs = none) (hd : d ≤ 10077) (hz : now.loc.offsetsWithin d) :
    timeSpanMinutes now accessTs
      = float64 (Duration.Seconds (now.Sub (timeUnix (sevenDaysAgo now))) / 60) ∧
    (10080 : Int) - (d : Int) ≤ truncToInt (timeSpanMinutes now accessTs) ∧
    SignTimeout (NewGenerator ak sk ts []) now accessTs = true := by
  have hk := wholeMinutes_sevenDaysAgo now d (by omega) hz
  have e : timeSpanMinutes now accessTs
      = float64 (Duration.Seconds (now.Sub (timeUnix (sevenDaysAgo now))) / 60) := by
    unfold timeSpanMinutes
    rw [h]
  refine ⟨e, ?_, ?_⟩
  · rw [e]
    exact hk
  · rw [SignTimeout_eq, h, Option.getD_none]
    have hl : (NewGenerator ak sk ts []).liveMinutes = 2 := rfl
    rw [hl]
    exact decide_eq_true (by omega)

/-- The empty string, a non-digit, surrounding spaces and a value out of range are
all rejected by `ParseInt`; the empty string at noon UTC of 2023-03-15 in New York,
three days after the clocks went forward. -/
theorem SignTimeout_unparsable_witness :
    ParseInt (ascii "") = none ∧ ParseInt (ascii "12a") = none ∧
    ParseInt (ascii " 12 ") = none ∧ ParseInt (ascii "9223372036854775808") = none ∧
    SignTimeout (NewGenerator (ascii "AK1") (ascii "SK1") (ascii "") [])
      { unix := 1678881600, nsec := 0, loc := newYork } (ascii "") = true :=
  ⟨by decide, by decide, by decide, by decide,
    (SignTimeout_unparsable (ascii "AK1") (ascii "SK1") (ascii "")
      { unix := 1678881600, nsec := 0, loc := newYork } (ascii "") 60 (by decide) (by decide)
      newYork_offsetsWithin).2.2⟩
/-! ## More on the liveness check -/

theorem NewGenerator_LiveMinutes (ak sk ts : Str) (live : Int) :
    (NewGenerator ak sk ts [LiveMinutes live]).liveMinutes = live := rfl

/-- Seven calendar days across a change of the zone offset: in New York at noon
UTC of 2023-03-15 the fallback time lies 10020 minutes back and the empty time
stamp is not expired under a window of 10020 minutes; at noon UTC of 2023-11-08
it lies 10140 minutes back. -/
theorem sevenDaysAgo_newYork :
    sevenDaysAgo { unix := 1678881600, nsec := 0, loc := newYork }
      = 1678881600 - 10020 * 60 ∧
    SignTimeout (NewGenerator (ascii "AK1") (ascii "SK1") (ascii "") [LiveMinutes 10020])
      { unix := 1678881600, nsec := 0, loc := newYork } (ascii "") = false ∧
    sevenDaysAgo { unix := 1699444800, nsec := 0, loc := newYork }
      = 1699444800 - 10140 * 60 :=
  ⟨by decide, by decide!, by decide⟩

/-- C11 as stated fails: with the window set to 10080 minutes (7 days) through
`LiveMinutes`, the empty time stamp is not expired (clock in UTC). -/
theorem SignTimeout_unparsable_alive_at_10080 :
    ParseInt (ascii "") = none ∧
    SignTimeout (NewGenerator (ascii "AK1") (ascii "SK1") (ascii "") [LiveMinutes 10080])
      { unix := 1700000000, nsec := 0 } (ascii "") = false :=
  ⟨by decide, by decide!⟩

/-- C11, amended: when any two offsets of the local zone differ by at most `d`
minutes (`d` up to 10080), then for every window below `10080 - d` minutes given
through `LiveMinutes` and every time stamp that `ParseInt` rejects, `SignTimeout`
returns true at every reading of the clock. -/
theorem SignTimeout_unparsable_below_seven_days (ak sk ts : Str) (live : Int) (now : Time)
    (accessTs : Str) (d : Nat) (h : ParseInt accessTs = none) (hd : d ≤ 10080)
    (hz : now.loc.offsetsWithin d) (hl : live < 10080 - (d : Int)) :
    SignTimeout (NewGenerator ak sk ts [LiveMinutes live]) now accessTs = true := by
  rw [SignTimeout_eq, h, Option.getD_none, NewGenerator_LiveMinutes]
  have := wholeMinutes_sevenDaysAgo now d hd hz
  exact decide_eq_true (by omega)

/-- The window of 10019 minutes and the time stamp `abc`, in New York at noon UTC
of 2023-03-15; and the window of 10079 minutes with the clock in UTC. -/
theorem SignTimeout_unparsable_below_seven_days_witness :
    ParseInt (ascii "abc") = none ∧
    SignTimeout (NewGenerator (ascii "AK1") (ascii "SK1") (ascii "") [LiveMinutes 10019])
      { unix := 1678881600, nsec := 0, loc := newYork } (ascii "abc") = true ∧
    SignTimeout (NewGenerator (ascii "AK1") (ascii "SK1") (ascii "") [LiveMinutes 10079])
      { unix := 1700000000, nsec := 0 } (ascii "abc") = true :=
  ⟨by decide,
    SignTimeout_unparsable_below_seven_days (ascii "AK1") (ascii "SK1") (ascii "") 10019
      { unix := 1678881600, nsec := 0, loc := newYork } (ascii "abc") 60 (by decide) (by decide)
      newYork_offsetsWithin (by decide),
    SignTimeout_unparsable_below_seven_days (ascii "AK1") (ascii "SK1") (ascii "") 10079
      { unix := 1700000000, nsec := 0 } (ascii "abc") 0 (by decide) (by decide)
      (utc_offsetsWithin 0) (by decide)⟩

/-! ### Decimal strings -/

theorem digitsValue_decimalAux (fuel n : Nat) (hf : n < fuel) (a : Nat) (rest : Str) :
    ∃ k : Nat, digitsValue a (decimalAux fuel n rest) = digitsValue (a * 10 ^ k + n) rest := by
  induction fuel generalizing n rest with
  | zero => omega
  | succ fuel ih =>
    unfold decimalAux
    by_cases h : n < 10
    · refine ⟨1, ?_⟩
      rw [if_pos h]
      have hv : ((Fin.ofNat (48 + n) : Byte)).val = 48 + n := by
        show (48 + n) % 256 = 48 + n
        omega
      simp only [digitsValue, hv]
      rw [if_pos (by omega)]
      congr 1
      omega
    · rw [if_neg h]
      obtain ⟨k, hk⟩ := ih (n / 10) (by omega) (Fin.ofNat (48 + n % 10) :: rest)
      refine ⟨k + 1, ?_⟩
      rw [hk]
      have hv : ((Fin.ofNat (48 + n % 10) : Byte)).val = 48 + n % 10 := by
        show (48 + n % 10) % 256 = 48 + n % 10
        omega
      simp only [digitsValue, hv]
      rw [if_pos (by omega)]
      congr 1
      rw [pow_succ]
      have := Nat.div_add_mod n 10
      have e : 48 + n % 10 - 48 = n % 10 := by omega
      rw [e]
      nlinarith [Nat.div_add_mod n 10]

theorem decimalAux_head (fuel n : Nat) (hf : n < fuel) (rest : Str) :
    ∃ (c : Byte) (t : Str), decimalAux fuel n rest = c :: t ∧ 48 ≤ c.val ∧ c.val ≤ 57 := by
  induction fuel generalizing n rest with
  | zero => omega
  | succ fuel ih =>
    unfold decimalAux
    by_cases h : n < 10
    · rw [if_pos h]
      refine ⟨_, _, rfl, ?_, ?_⟩
      · show 48 ≤ (48 + n) % 256
        omega
      · show (48 + n) % 256 ≤ 57
        omega
    · rw [if_neg h]
      exact ih (n / 10) (by omega) _

/-- The decimal string of a number below `2^63` parses back to the number. -/
theorem ParseInt_decimal (n : Nat) (h : n < 2 ^ 63) : ParseInt (decimal n) = some (n : Int) := by
  obtain ⟨c, t, hct, h1, h2⟩ := decimalAux_head (n + 1) n (by omega) []
  obtain ⟨k, hk⟩ := digitsValue_decimalAux (n + 1) n (by omega) 0 []
  unfold decimal
  rw [hct] at hk ⊢
  unfold ParseInt
  have hc : ¬ (c.val = 43 ∨ c.val = 45) := by omega
  have hneg : (c.val == 45) = false := by
    simp only [beq_eq_false_iff_ne, ne_eq]
    omega
  simp only [hc, if_false, hneg, Bool.false_eq_true]
  rw [if_neg (by simp), hk]
  simp only [zero_mul, zero_add, digitsValue]
  rw [if_neg (by omega)]

theorem SignTimeout_false_of_recent (p : Generator) (now : Time) (accessTs : Str) (t : Int)
    (hp : p.liveMinutes = 2) (hr : now.representable) (ht : ParseInt accessTs = some t)
    (h0 : 0 ≤ ((now.unix : Int) - t) * 1000000000 + (now.nsec.val : Int))
    (h1 : ((now.unix : Int) - t) * 1000000000 + (now.nsec.val : Int) ≤ 120 * 1000000000) :
    SignTimeout p now accessTs = false := by
  have hmin : minDuration = -9223372036854775808 := by norm_num [minDuration]
  have hmax : maxDuration = 9223372036854775807 := by norm_num [maxDuration]
  have hn : (now.nsec.val : Int) < 1000000000 := by
    have := now.nsec.isLt
    omega
  have hr2 : (now.unix : Int) + unixToInternal < 2 ^ 63 := hr
  have htu : t + unixToInternal < 2 ^ 63 := by
    norm_num at hr2 ⊢
    omega
  rw [SignTimeout_eq, ht, Option.getD_some, timeUnix_of_ParseInt accessTs t ht htu, hp]
  have := wholeMinutes_Sub_le now (t + unixToInternal) 2
    (by rw [hmin]; norm_num) (by rw [hmax]; norm_num) (by omega)
  exact decide_eq_false (by omega)

/-- C12: with the window of 2 minutes, `SignTimeout` returns false for the decimal
string of the seconds of the clock reading itself, and for every time stamp that
parses to `t` with `0 <= now - t <= 120` seconds (counted in nanoseconds), at
every reading of the clock that a `time.Time` can hold. -/
theorem SignTimeout_recent (p : Generator) (now : Time) (hp : p.liveMinutes = 2)
    (hr : now.representable) :
    SignTimeout p now (decimal now.unix) = false ∧
    ∀ (accessTs : Str) (t : Int), ParseInt accessTs = some t →
      0 ≤ ((now.unix : Int) - t) * 1000000000 + (now.nsec.val : Int) →
      ((now.unix : Int) - t) * 1000000000 + (now.nsec.val : Int) ≤ 120 * 1000000000 →
      SignTimeout p now accessTs = false := by
  have hn : (now.nsec.val : Int) < 1000000000 := by
    have := now.nsec.isLt
    omega
  have hr2 : (now.unix : Int) + unixToInternal < 2 ^ 63 := hr
  constructor
  · apply SignTimeout_false_of_recent p now (decimal now.unix) now.unix hp hr
    · apply ParseInt_decimal
      unfold unixToInternal at hr2
      norm_num at hr2 ⊢
      omega
    · omega
    · omega
  · intro accessTs t ht h0 h1
    exact SignTimeout_false_of_recent p now accessTs t hp hr ht h0 h1

/-- The clock at 1700000000 and a half seconds, and a time stamp 120 seconds old. -/
theorem SignTimeout_recent_witness :
    decimal 1700000000 = ascii "1700000000" ∧
    SignTimeout exampleGenerator { unix := 1700000000, nsec := 500000000 }
      (decimal 1700000000) = false ∧
    SignTimeout exampleGenerator { unix := 1700000120, nsec := 0 } (ascii "1700000000") = false :=
  ⟨by decide,
    (SignTimeout_recent exampleGenerator { unix := 1700000000, nsec := 500000000 } rfl
      (by decide)).1,
    (SignTimeout_recent exampleGenerator { unix := 1700000120, nsec := 0 } rfl
      (by decide)).2 (ascii "1700000000") 1700000000 (by decide) (by decide) (by decide)⟩

/-- C20 as stated fails: the time stamp `9223372036854775807`, far in the future,
wraps around in `time.Unix` and is expired. -/
theorem SignTimeout_far_future_expired :
    ParseInt (ascii "9223372036854775807") = some 9223372036854775807 ∧
    0 ≤ exampleGenerator.liveMinutes ∧
    SignTimeout exampleGenerator { unix := 1700000000, nsec := 0 }
      (ascii "9223372036854775807") = true :=
  ⟨by decide, by decide, by decide!⟩

/-- C20, amended: for a window that is not negative and a time stamp that parses
to `t` with `t + 62135596800` below `2^63` (where `time.Unix` does not wrap) and
that lies after the reading of the clock, `SignTimeout` returns false. -/
theorem SignTimeout_future (p : Generator) (now : Time) (accessTs : Str) (t : Int)
    (hL : 0 ≤ p.liveMinutes) (hp : ParseInt accessTs = some t)
    (ht : t + unixToInternal < 2 ^ 63) (hf : (now.unix : Int) < t) :
    SignTimeout p now accessTs = false := by
  have hmin : minDuration = -9223372036854775808 := by norm_num [minDuration]
  have hmax : maxDuration = 9223372036854775807 := by norm_num [maxDuration]
  have hn : (now.nsec.val : Int) < 1000000000 := by
    have := now.nsec.isLt
    omega
  rw [SignTimeout_eq, hp, Option.getD_some, timeUnix_of_ParseInt accessTs t hp ht]
  have := wholeMinutes_Sub_le now (t + unixToInternal) 0
    (by rw [hmin]; norm_num) (by rw [hmax]; norm_num) (by omega)
  exact decide_eq_false (by omega)

/-- A time stamp one hour after the reading of the clock. -/
theorem SignTimeout_future_witness :
    ParseInt (ascii "1700003600") = some 1700003600 ∧
    SignTimeout exampleGenerator { unix := 1700000000, nsec := 0 } (ascii "1700003600") = false :=
  ⟨by decide,
    SignTimeout_future exampleGenerator { unix := 1700000000, nsec := 0 } (ascii "1700003600")
      1700003600 (by decide) (by decide) (by decide) (by decide)⟩

/-! ## The constructor -/

theorem foldl_LiveMinutes (lives : List Int) (g : Generator) :
    (lives.map LiveMinutes).foldl (fun g fn => fn g) g
      = { g with liveMinutes := lives.getLast?.getD g.liveMinutes } := by
  induction lives generalizing g with
  | nil => rfl
  | cons l ls ih =>
    rw [List.map_cons, List.foldl_cons, ih]
    cases ls with
    | nil => rfl
    | cons l2 ls2 =>
      cases h : (l2 :: ls2).getLast? with
      | none => simp at h
      | some v => simp [LiveMinutes, List.getLast?_cons_cons, h]

/-- C16: without options `NewGenerator` yields the window 2; with `LiveMinutes`
options the window is the value of the last one; `ak`, `sk` and `accessTs` are
the arguments given. -/
theorem NewGenerator_fields (ak sk accessTs : Str) (lives : List Int) :
    NewGenerator ak sk accessTs []
      = { liveMinutes := 2, ak := ak, sk := sk, accessTs := accessTs } ∧
    NewGenerator ak sk accessTs (lives.map LiveMinutes)
      = { liveMinutes := lives.getLast?.getD 2, ak := ak, sk := sk, accessTs := accessTs } := by
  refine ⟨rfl, ?_⟩
  unfold NewGenerator
  rw [foldl_LiveMinutes]

/-! ## The shape of a signature -/

theorem isUpperHex_toUpper_hextable (n : Nat) (h : n < 16) :
    isUpperHex (if 97 ≤ (hextable n).val ∧ (hextable n).val ≤ 122
      then Fin.ofNat ((hextable n).val - 32) else hextable n) := by
  interval_cases n <;> decide

theorem upperMD5_length (L : StdLib) (text : Str) :
    (upperMD5 L text).length = 2 * (L.md5Sum text).length := by
  unfold upperMD5 toUpper hexEncodeToString
  rw [List.length_map]
  induction L.md5Sum text with
  | nil => rfl
  | cons b bs ih =>
    rw [List.flatMap_cons, List.length_append, ih]
    simp only [List.length_cons, List.length_nil]
    omega

theorem upperMD5_isUpperHex (L : StdLib) (text : Str) (c : Byte) (hc : c ∈ upperMD5 L text) :
    isUpperHex c := by
  unfold upperMD5 toUpper hexEncodeToString at hc
  rw [List.mem_map] at hc
  obtain ⟨d, hd, rfl⟩ := hc
  rw [List.mem_flatMap] at hd
  obtain ⟨b, _, hb⟩ := hd
  simp only [List.mem_cons, List.mem_singleton, List.not_mem_nil, or_false] at hb
  rcases hb with rfl | rfl
  · exact isUpperHex_toUpper_hextable _ (by have := b.isLt; omega)
  · exact isUpperHex_toUpper_hextable _ (by omega)

theorem GenerateSign_eq_upperMD5 (L : StdLib) (p : Generator) (r : Request)
    (hm : r.Method = MethodGet ∨ (r.Method = MethodPost ∧ r.Body ≠ none)) :
    ∃ text r1, strToSign L p r = some (text, r1) ∧
      GenerateSign L p r = some (upperMD5 L text, r1) := by
  obtain ⟨s, r1, hs, _⟩ := strToSign_returns L p r hm
  refine ⟨_, _, hs, ?_⟩
  unfold GenerateSign
  rw [hs]

/-- C14 as stated fails: for the POST request made without a body (`r.Body` is
nil) `GenerateSign` panics and returns no string, although the digest has 16
bytes. -/
theorem GenerateSign_nil_body_no_signature :
    (∀ text, (testLib.md5Sum text).length = 16) ∧
    nilBodyPost.Method = MethodPost ∧
    ¬ ∃ s r1, GenerateSign testLib exampleGenerator nilBodyPost = some (s, r1) ∧
      s.length = 32 := by
  refine ⟨fun text => by simp [testLib], rfl, ?_⟩
  rintro ⟨s, r1, h, _⟩
  unfold GenerateSign at h
  rw [strToSign_post_nil_body testLib exampleGenerator nilBodyPost rfl rfl] at h
  cases h

/-- C14, amended: when MD5 yields 16 bytes, `GenerateSign` returns, for every GET
request and every POST request whose body is not nil, a string of exactly 32
characters, each one of `0`..`9` or `A`..`F`. -/
theorem GenerateSign_is_upper_hex (L : StdLib) (p : Generator) (r : Request)
    (h16 : ∀ text, (L.md5Sum text).length = 16)
    (hm : r.Method = MethodGet ∨ (r.Method = MethodPost ∧ r.Body ≠ none)) :
    ∃ s r1, GenerateSign L p r = some (s, r1) ∧ s.length = 32 ∧ ∀ c ∈ s, isUpperHex c := by
  obtain ⟨text, r1, _, hg⟩ := GenerateSign_eq_upperMD5 L p r hm
  refine ⟨_, _, hg, ?_, ?_⟩
  · rw [upperMD5_length, h16]
  · intro c hc
    exact upperMD5_isUpperHex L text c hc

/-- The POST request with an empty body stream, with the stand-in digest of 16
bytes. -/
theorem GenerateSign_is_upper_hex_witness :
    (∀ text, (testLib.md5Sum text).length = 16) ∧
    emptyBodyPost.Method = MethodPost ∧ emptyBodyPost.Body ≠ none ∧
    ∃ s r1, GenerateSign testLib exampleGenerator emptyBodyPost = some (s, r1) ∧
      s.length = 32 ∧ ∀ c ∈ s, isUpperHex c :=
  ⟨fun text => by simp [testLib], rfl, by decide,
    GenerateSign_is_upper_hex testLib exampleGenerator emptyBodyPost
      (fun text => by simp [testLib]) (Or.inr ⟨rfl, by decide⟩)⟩
/-! ## What is signed of the parameters -/

theorem get?_foldl_withHeadersStep_signed (vs : Values) (hn : (GoMap.keys vs).Nodup)
    (init : GoMap Str) (k : Str) :
    GoMap.get? (vs.foldl withHeadersStep init) k =
      match signedValue vs k with
      | some v => some v
      | none => GoMap.get? init k := by
  rw [get?_foldl_withHeadersStep vs hn]
  unfold signedValue
  cases h : GoMap.get? vs k with
  | none => rfl
  | some s =>
    by_cases h2 : k = [] ∨ s.1 = []
    · simp only [h2, if_true]
    · simp only [h2, if_false]

theorem GoMap.get?_of_mem {V : Type} (m : GoMap V) (hn : (GoMap.keys m).Nodup) (k : Str) (v : V)
    (h : (k, v) ∈ m) : GoMap.get? m k = some v := by
  induction m with
  | nil => simp at h
  | cons e m ih =>
    obtain ⟨k1, v1⟩ := e
    have hk : k1 ∉ GoMap.keys m ∧ (GoMap.keys m).Nodup := by simpa [GoMap.keys] using hn
    rcases List.mem_cons.mp h with h1 | h1
    · simp only [Prod.mk.injEq] at h1
      simp [GoMap.get?, h1.1, h1.2]
    · have hne : k1 ≠ k := by
        intro he
        apply hk.1
        rw [he]
        exact List.mem_map.mpr ⟨(k, v), h1, rfl⟩
      simp only [GoMap.get?, hne, if_false]
      exact ih hk.2 h1

/-- Two parameter maps of which the signature keeps the same give the same
canonical string. -/
theorem strToSign_congr_signed (L : StdLib) (p : Generator) (r1 r2 r3 r4 : Request)
    (params1 params2 : Values)
    (h1 : queryParams L r1 = some (params1, r3)) (h2 : queryParams L r2 = some (params2, r4))
    (hn1 : (GoMap.keys params1).Nodup) (hn2 : (GoMap.keys params2).Nodup)
    (hg : ∀ k, signedValue params1 k = signedValue params2 k)
    (hb : (bodyParams L r3).map Prod.fst = (bodyParams L r4).map Prod.fst) :
    (strToSign L p r1).map Prod.fst = (strToSign L p r2).map Prod.fst := by
  apply strToSign_congr_segments L p r1 r2 r3 r4 params1 params2 h1 h2 _ hb
  have hi := nodup_keys_init p.ak p.accessTs
  have hm : ∀ k, GoMap.get? (params1.foldl withHeadersStep [(ascii "ak", p.ak), (ascii "accessTs", p.accessTs)]) k
      = GoMap.get? (params2.foldl withHeadersStep [(ascii "ak", p.ak), (ascii "accessTs", p.accessTs)]) k := by
    intro k
    rw [get?_foldl_withHeadersStep_signed params1 hn1,
      get?_foldl_withHeadersStep_signed params2 hn2, hg]
  rw [sortKeys_congr _ _ (nodup_keys_foldl_withHeadersStep params1 _ hi)
    (nodup_keys_foldl_withHeadersStep params2 _ hi) hm, segment_congr _ _ hm]

theorem GenerateSign_congr (L : StdLib) (p : Generator) (r1 r2 : Request)
    (h : (strToSign L p r1).map Prod.fst = (strToSign L p r2).map Prod.fst) :
    (GenerateSign L p r1).map Prod.fst = (GenerateSign L p r2).map Prod.fst := by
  unfold GenerateSign
  cases h1 : strToSign L p r1 <;> cases h2 : strToSign L p r2 <;> simp_all

/-! ### A request with one more query parameter -/

theorem fillPostForm_Query (L : StdLib) (r : Request) (q : Values) :
    fillPostForm L { r with Query := q } = { fillPostForm L r with Query := q } := by
  obtain ⟨M, Q, T, B, P, F⟩ := r
  unfold fillPostForm parsePostForm
  cases P with
  | some v => rfl
  | none => cases B <;> simp only <;> split_ifs <;> rfl

theorem fillPostForm_Query_eq (L : StdLib) (r : Request) : (fillPostForm L r).Query = r.Query := by
  unfold fillPostForm parsePostForm
  cases h : r.PostForm with
  | some v => rfl
  | none =>
    cases hbody : r.Body <;> simp only <;> split_ifs <;> rfl

theorem fillPostForm_Form_eq (L : StdLib) (r : Request) : (fillPostForm L r).Form = r.Form := by
  unfold fillPostForm parsePostForm
  cases h : r.PostForm with
  | some v => rfl
  | none =>
    cases hbody : r.Body <;> simp only <;> split_ifs <;> rfl

/-- The field `Form` after `ParseForm`. -/
theorem ParseForm_Form (L : StdLib) (r : Request) :
    (ParseForm L r).Form = some (match r.Form with
      | some f => f
      | none =>
        if ((fillPostForm L r).PostForm.getD []).length > 0 then
          copyValues (copyValues [] ((fillPostForm L r).PostForm.getD [])) r.Query
        else r.Query) := by
  unfold ParseForm fillForm
  rw [fillPostForm_Form_eq, fillPostForm_Query_eq]
  cases h : r.Form with
  | some f =>
    simp only
    rw [fillPostForm_Form_eq, h]
  | none =>
    cases hbody : r.Body <;> simp only <;> split_ifs <;> rfl

theorem ParseForm_Body_Query (L : StdLib) (r : Request) (q : Values) :
    (ParseForm L { r with Query := q }).Body = (ParseForm L r).Body := by
  unfold ParseForm
  rw [fillForm_Body, fillForm_Body, fillPostForm_Query]

theorem signedValue_cons_of_empty (q : Values) (k : Str) (s : Slice) (hk : k ∉ GoMap.keys q)
    (he : k = [] ∨ s.1 = []) (k2 : Str) :
    signedValue ((k, s) :: q) k2 = signedValue q k2 := by
  unfold signedValue
  by_cases h : k = k2
  · subst h
    rw [GoMap.get?_eq_none q k hk]
    simp [GoMap.get?, he]
  · simp [GoMap.get?, h]

theorem signedValue_copyValues_cons_of_empty (A q : Values) (k : Str) (s : Slice)
    (hq : (GoMap.keys q).Nodup) (hk : k ∉ GoMap.keys q) (he : k = [] ∨ s.1 = []) (k2 : Str) :
    signedValue (copyValues A ((k, s) :: q)) k2 = signedValue (copyValues A q) k2 := by
  have hq2 : (GoMap.keys ((k, s) :: q)).Nodup := by
    simp only [GoMap.keys, List.map_cons, List.nodup_cons]
    exact ⟨hk, hq⟩
  unfold signedValue
  rw [get?_copyValues _ hq2, get?_copyValues _ hq]
  by_cases h : k = k2
  · subst h
    rw [GoMap.get?_eq_none q k hk]
    simp only [GoMap.get?, if_true]
    cases hA : GoMap.get? A k with
    | none => simp [he]
    | some old => simp [Slice.append]
  · simp only [GoMap.get?, h, if_false]

theorem strToSign_add_empty_param (L : StdLib) (p : Generator) (r : Request)
    (hm : r.Method = MethodGet ∨ r.Method = MethodPost)
    (hd : (GoMap.keys r.Query).Nodup) (hdF : ∀ v, r.Form = some v → (GoMap.keys v).Nodup)
    (k : Str) (s : Slice) (hk : k ∉ GoMap.keys r.Query) (he : k = [] ∨ s.1 = []) :
    (strToSign L p { r with Query := (k, s) :: r.Query }).map Prod.fst
      = (strToSign L p r).map Prod.fst := by
  have hd2 : (GoMap.keys ((k, s) :: r.Query)).Nodup := by
    simp only [GoMap.keys, List.map_cons, List.nodup_cons]
    exact ⟨hk, hd⟩
  rcases hm with hm | hm
  · have hnp : r.Method ≠ MethodPost := by rw [hm]; exact MethodGet_ne_MethodPost
    exact strToSign_congr_signed L p _ r _ r _ _
      (queryParams_get L { r with Query := (k, s) :: r.Query } hm) (queryParams_get L r hm)
      hd2 hd (signedValue_cons_of_empty r.Query k s hk he)
      (by rw [bodyParams_not_post L { r with Query := (k, s) :: r.Query } hnp,
        bodyParams_not_post L r hnp]; rfl)
  · obtain ⟨f1, hf1, hn1⟩ := ParseForm_Form_nodup L { r with Query := (k, s) :: r.Query } hd2 hdF
    obtain ⟨f2, hf2, hn2⟩ := ParseForm_Form_nodup L r hd hdF
    have q1 : queryParams L { r with Query := (k, s) :: r.Query }
        = some (f1, ParseForm L { r with Query := (k, s) :: r.Query }) := by
      rw [queryParams_post L { r with Query := (k, s) :: r.Query } hm, hf1]
      rfl
    have q2 : queryParams L r = some (f2, ParseForm L r) := by
      rw [queryParams_post L r hm, hf2]
      rfl
    have e1 := ParseForm_Form L { r with Query := (k, s) :: r.Query }
    have e2 := ParseForm_Form L r
    rw [hf1] at e1
    rw [hf2] at e2
    simp only [Option.some.injEq] at e1 e2
    rw [fillPostForm_Query] at e1
    simp only at e1
    have hsv : ∀ k2, signedValue f1 k2 = signedValue f2 k2 := by
      intro k2
      rw [e1, e2]
      cases hF : r.Form with
      | some f => rfl
      | none =>
        simp only
        split_ifs
        · exact signedValue_copyValues_cons_of_empty _ r.Query k s hd hk he k2
        · exact signedValue_cons_of_empty r.Query k s hk he k2
    apply strToSign_congr_signed L p _ r _ _ f1 f2 q1 q2 hn1 hn2 hsv
    rw [bodyParams_fst, bodyParams_fst, ParseForm_Method, ParseForm_Method, ParseForm_Body_Query]

/-- C13: for a GET or POST request, a parameter with an empty name or an empty
first value leaves the mapping built by `withHeaders` as it is without it (the key
is mapped only if it is `ak` or `accessTs`, and then to the value of the
generator), every other parameter is mapped to its first value; and adding a
query parameter with an empty name or an empty first value changes neither
`strToSign` nor `GenerateSign`. -/
theorem withHeaders_drops_empty (L : StdLib) (p : Generator) (r : Request)
    (hm : r.Method = MethodGet ∨ r.Method = MethodPost)
    (hd : distinctKeys r.Query) (hdF : ∀ v, r.Form = some v → distinctKeys v) :
    (∃ params r1 m, queryParams L r = some (params, r1) ∧
      withHeaders L r p.ak p.accessTs = some (m, r1) ∧
      ∀ k s, (k, s) ∈ params →
        ((k = [] ∨ s.1 = []) →
          GoMap.get? m k
            = GoMap.get? [(ascii "ak", p.ak), (ascii "accessTs", p.accessTs)] k) ∧
        (k ≠ [] → s.1 ≠ [] → GoMap.get? m k = some s.1)) ∧
    (∀ k s, k ∉ GoMap.keys r.Query → (k = [] ∨ s.1 = []) →
      (strToSign L p { r with Query := (k, s) :: r.Query }).map Prod.fst
        = (strToSign L p r).map Prod.fst ∧
      (GenerateSign L p { r with Query := (k, s) :: r.Query }).map Prod.fst
        = (GenerateSign L p r).map Prod.fst) := by
  constructor
  · obtain ⟨params, r1, hq, hn⟩ := queryParams_nodup L r hm hd hdF
    refine ⟨params, r1,
      params.foldl withHeadersStep [(ascii "ak", p.ak), (ascii "accessTs", p.accessTs)], hq,
      by simp [withHeaders, hq], ?_⟩
    intro k s hks
    have hg := GoMap.get?_of_mem params hn k s hks
    constructor
    · intro he
      rw [get?_foldl_withHeadersStep_signed params hn]
      simp [signedValue, hg, he]
    · intro h1 h2
      rw [get?_foldl_withHeadersStep_signed params hn]
      simp [signedValue, hg, h1, h2]
  · intro k s hk he
    have h := strToSign_add_empty_param L p r hm hd hdF k s hk he
    exact ⟨h, GenerateSign_congr L p _ _ h⟩

/-- The worked example with the query parameters `c=` and `=5` added. -/
theorem withHeaders_drops_empty_witness :
    distinctKeys exampleGet.Query ∧
    (strToSign testLib exampleGenerator
        { exampleGet with Query := (ascii "c", (ascii "", [])) :: exampleGet.Query }).map Prod.fst
      = (strToSign testLib exampleGenerator exampleGet).map Prod.fst ∧
    (GenerateSign testLib exampleGenerator
        { exampleGet with Query := (ascii "", (ascii "5", [])) :: exampleGet.Query }).map Prod.fst
      = (GenerateSign testLib exampleGenerator exampleGet).map Prod.fst :=
  ⟨by decide,
    ((withHeaders_drops_empty testLib exampleGenerator exampleGet (Or.inl rfl) (by decide)
      (fun v h => by simp [exampleGet] at h)).2 (ascii "c") (ascii "", []) (by decide)
      (Or.inr rfl)).1,
    ((withHeaders_drops_empty testLib exampleGenerator exampleGet (Or.inl rfl) (by decide)
      (fun v h => by simp [exampleGet] at h)).2 (ascii "") (ascii "5", []) (by decide)
      (Or.inl rfl)).2⟩

/-! ## Only the first value of a parameter is signed -/

theorem foldl_withHeadersStep_firstValues (vs : Values) (init : GoMap Str) :
    vs.foldl withHeadersStep init
      = (firstValues vs).foldl
          (fun m kf => if kf.1 = [] ∨ kf.2 = [] then m else GoMap.set m kf.1 kf.2) init := by
  unfold firstValues
  rw [List.foldl_map]
  rfl

theorem keys_eq_firstValues (d : Values) : GoMap.keys d = (firstValues d).map Prod.fst := by
  unfold GoMap.keys firstValues
  rw [List.map_map]
  rfl

theorem firstValues_set_some (d : Values) (k : Str) (v old : Slice)
    (h : GoMap.get? d k = some old) (hv : v.1 = old.1) :
    firstValues (GoMap.set d k v) = firstValues d := by
  induction d with
  | nil => simp [GoMap.get?] at h
  | cons e d ih =>
    obtain ⟨k1, v1⟩ := e
    by_cases hk : k1 = k
    · subst hk
      simp only [GoMap.get?, if_true, Option.some.injEq] at h
      subst h
      simp [GoMap.set, firstValues, hv]
    · simp only [GoMap.get?, hk, if_false] at h
      have := ih h
      simp only [firstValues] at this
      simp [GoMap.set, hk, firstValues, this]

theorem firstValues_set_none (d : Values) (k : Str) (v : Slice) (h : GoMap.get? d k = none) :
    firstValues (GoMap.set d k v) = firstValues d ++ [(k, v.1)] := by
  induction d with
  | nil => rfl
  | cons e d ih =>
    obtain ⟨k1, v1⟩ := e
    by_cases hk : k1 = k
    · simp [GoMap.get?, hk] at h
    · simp only [GoMap.get?, hk, if_false] at h
      have := ih h
      simp only [firstValues] at this
      simp [GoMap.set, hk, firstValues, this]

theorem firstValues_copyValuesStep (d : Values) (kv : Str × Slice) :
    firstValues (copyValuesStep d kv)
      = if kv.1 ∈ (firstValues d).map Prod.fst then firstValues d
        else firstValues d ++ [(kv.1, kv.2.1)] := by
  unfold copyValuesStep
  rw [← keys_eq_firstValues]
  cases h : GoMap.get? d kv.1 with
  | none =>
    have hk : kv.1 ∉ GoMap.keys d := by
      rw [GoMap.mem_keys_iff, h]
      simp
    rw [if_neg hk]
    exact firstValues_set_none d kv.1 kv.2 h
  | some old =>
    have hk : kv.1 ∈ GoMap.keys d := by
      rw [GoMap.mem_keys_iff, h]
      rfl
    rw [if_pos hk]
    exact firstValues_set_some d kv.1 _ old h rfl

theorem firstValues_copyValues (src dst : Values) :
    firstValues (copyValues dst src)
      = (firstValues src).foldl
          (fun dp kf => if kf.1 ∈ dp.map Prod.fst then dp else dp ++ [kf]) (firstValues dst) := by
  unfold copyValues
  induction src generalizing dst with
  | nil => rfl
  | cons e src ih =>
    rw [List.foldl_cons, ih, firstValues_copyValuesStep]
    rfl

theorem sameFirstValues_copyValues (d1 d2 s1 s2 : Values) (hd : sameFirstValues d1 d2)
    (hs : sameFirstValues s1 s2) : sameFirstValues (copyValues d1 s1) (copyValues d2 s2) := by
  unfold sameFirstValues at hd hs ⊢
  rw [firstValues_copyValues, firstValues_copyValues, hd, hs]

theorem sameFirstValues_length (a b : Values) (h : sameFirstValues a b) : a.length = b.length := by
  have := congrArg List.length h
  simpa [firstValues] using this

theorem fillPostForm_sameFirstValues (L : StdLib) (r1 r2 : Request)
    (hM : r1.Method = r2.Method) (hB : r1.Body = r2.Body) (hT : r1.formType = r2.formType)
    (hP : Option.Rel sameFirstValues r1.PostForm r2.PostForm) :
    (fillPostForm L r1).Body = (fillPostForm L r2).Body ∧
    sameFirstValues ((fillPostForm L r1).PostForm.getD []) ((fillPostForm L r2).PostForm.getD []) := by
  obtain ⟨M1, Q1, T1, B1, P1, F1⟩ := r1
  obtain ⟨M2, Q2, T2, B2, P2, F2⟩ := r2
  simp only at hM hB hT hP
  subst hM hB hT
  cases hP with
  | none =>
    unfold fillPostForm parsePostForm
    cases B1 <;> simp only <;> split_ifs <;> exact ⟨rfl, rfl⟩
  | some hp =>
    unfold fillPostForm
    exact ⟨rfl, hp⟩

theorem ParseForm_sameFirstValues (L : StdLib) (r1 r2 : Request)
    (hM : r1.Method = r2.Method) (hB : r1.Body = r2.Body) (hT : r1.formType = r2.formType)
    (hQ : sameFirstValues r1.Query r2.Query)
    (hP : Option.Rel sameFirstValues r1.PostForm r2.PostForm)
    (hF : Option.Rel sameFirstValues r1.Form r2.Form) :
    (ParseForm L r1).Body = (ParseForm L r2).Body ∧
    sameFirstValues ((ParseForm L r1).Form.getD []) ((ParseForm L r2).Form.getD []) := by
  obtain ⟨hb, hpf⟩ := fillPostForm_sameFirstValues L r1 r2 hM hB hT hP
  constructor
  · unfold ParseForm
    rw [fillForm_Body, fillForm_Body, hb]
  · rw [ParseForm_Form, ParseForm_Form]
    simp only [Option.getD_some]
    cases h1 : r1.Form with
    | some f1 =>
      cases h2 : r2.Form with
      | some f2 =>
        rw [h1, h2] at hF
        cases hF with
        | some hf => exact hf
      | none =>
        rw [h1, h2] at hF
        cases hF
    | none =>
      cases h2 : r2.Form with
      | some f2 =>
        rw [h1, h2] at hF
        cases hF
      | none =>
        simp only
        rw [sameFirstValues_length _ _ hpf]
        split_ifs
        · exact sameFirstValues_copyValues _ _ _ _
            (sameFirstValues_copyValues _ _ _ _ rfl hpf) hQ
        · exact hQ

theorem strToSign_congr_fold (L : StdLib) (p : Generator) (r1 r2 r3 r4 : Request)
    (params1 params2 : Values)
    (h1 : queryParams L r1 = some (params1, r3)) (h2 : queryParams L r2 = some (params2, r4))
    (hf : sameFirstValues params1 params2)
    (hb : (bodyParams L r3).map Prod.fst = (bodyParams L r4).map Prod.fst) :
    (strToSign L p r1).map Prod.fst = (strToSign L p r2).map Prod.fst := by
  apply strToSign_congr_segments L p r1 r2 r3 r4 params1 params2 h1 h2 _ hb
  rw [foldl_withHeadersStep_firstValues params1, foldl_withHeadersStep_firstValues params2, hf]

theorem strToSign_sameFirstValues (L : StdLib) (p : Generator) (r1 r2 : Request)
    (hM : r1.Method = r2.Method) (hB : r1.Body = r2.Body) (hT : r1.formType = r2.formType)
    (hQ : sameFirstValues r1.Query r2.Query)
    (hP : Option.Rel sameFirstValues r1.PostForm r2.PostForm)
    (hF : Option.Rel sameFirstValues r1.Form r2.Form) :
    (strToSign L p r1).map Prod.fst = (strToSign L p r2).map Prod.fst := by
  by_cases hg : r1.Method = MethodGet
  · have hg2 : r2.Method = MethodGet := hM ▸ hg
    have hnp1 : r1.Method ≠ MethodPost := by rw [hg]; exact MethodGet_ne_MethodPost
    have hnp2 : r2.Method ≠ MethodPost := by rw [hg2]; exact MethodGet_ne_MethodPost
    exact strToSign_congr_fold L p r1 r2 r1 r2 r1.Query r2.Query (queryParams_get L r1 hg)
      (queryParams_get L r2 hg2) hQ
      (by rw [bodyParams_not_post L r1 hnp1, bodyParams_not_post L r2 hnp2]; rfl)
  · by_cases hpost : r1.Method = MethodPost
    · have hpost2 : r2.Method = MethodPost := hM ▸ hpost
      obtain ⟨hb, hf⟩ := ParseForm_sameFirstValues L r1 r2 hM hB hT hQ hP hF
      exact strToSign_congr_fold L p r1 r2 _ _ _ _ (queryParams_post L r1 hpost)
        (queryParams_post L r2 hpost2) hf
        (by rw [bodyParams_fst, bodyParams_fst, ParseForm_Method, ParseForm_Method, hb, hM])
    · have hg2 : r2.Method ≠ MethodGet := hM ▸ hg
      have hpost2 : r2.Method ≠ MethodPost := hM ▸ hpost
      simp [strToSign, withHeaders, queryParams_other L r1 hg hpost,
        queryParams_other L r2 hg2 hpost2]

/-- C19: two requests with the same method, content type and body whose
parameter maps hold the same names with the same first values, and so differ at
most in the second and later values of their parameters, get the same results
from `strToSign` and from `GenerateSign`. -/
theorem strToSign_first_value_only (L : StdLib) (p : Generator) (r1 r2 : Request)
    (hM : r1.Method = r2.Method) (hB : r1.Body = r2.Body) (hT : r1.formType = r2.formType)
    (hQ : sameFirstValues r1.Query r2.Query)
    (hP : Option.Rel sameFirstValues r1.PostForm r2.PostForm)
    (hF : Option.Rel sameFirstValues r1.Form r2.Form) :
    (strToSign L p r1).map Prod.fst = (strToSign L p r2).map Prod.fst ∧
    (GenerateSign L p r1).map Prod.fst = (GenerateSign L p r2).map Prod.fst := by
  have h := strToSign_sameFirstValues L p r1 r2 hM hB hT hQ hP hF
  exact ⟨h, GenerateSign_congr L p r1 r2 h⟩

/-- The worked example and the same request with further values `b=9` and `a=7`,
`a=8` after the first ones. -/
theorem strToSign_first_value_only_witness :
    sameFirstValues exampleGet.Query
      [(ascii "b", (ascii "2", [ascii "9"])), (ascii "a", (ascii "1", [ascii "7", ascii "8"]))] ∧
    (GenerateSign testLib exampleGenerator exampleGet).map Prod.fst
      = (GenerateSign testLib exampleGenerator
          { exampleGet with Query :=
            [(ascii "b", (ascii "2", [ascii "9"])),
              (ascii "a", (ascii "1", [ascii "7", ascii "8"]))] }).map Prod.fst :=
  ⟨rfl,
    (strToSign_first_value_only testLib exampleGenerator exampleGet
      { exampleGet with Query :=
        [(ascii "b", (ascii "2", [ascii "9"])),
          (ascii "a", (ascii "1", [ascii "7", ascii "8"]))] }
      rfl rfl rfl rfl Option.Rel.none Option.Rel.none).2⟩

/-! ## The escaping of values -/

theorem QueryEscape_cons (c : Byte) (s : Str) :
    QueryEscape (c :: s) = escapeByte c ++ QueryEscape s := rfl

theorem unescapeByte_escapeByte : ∀ c : Byte, unescapeByte (escapeByte c) = some c := by
  decide!

theorem escapeByte_length :
    ∀ c : Byte, (escapeByte c).length = if (escapeByte c).head? = some 37 then 3 else 1 := by
  decide!

theorem escapeByte_ne_nil : ∀ c : Byte, escapeByte c ≠ [] := by
  decide!

theorem escapeByte_all_no_separator :
    ∀ c : Byte, (escapeByte c).all (fun b => b.val != 38 && b.val != 61) = true := by
  decide!

theorem escapeByte_no_separator (c b : Byte) (h : b ∈ escapeByte c) :
    b ≠ (38 : Byte) ∧ b ≠ (61 : Byte) := by
  have h1 := escapeByte_all_no_separator c
  rw [List.all_eq_true] at h1
  have h2 := h1 b h
  simp only [Bool.and_eq_true, bne_iff_ne, ne_eq] at h2
  constructor
  · intro he
    rw [he] at h2
    exact h2.1 rfl
  · intro he
    rw [he] at h2
    exact h2.2 rfl

theorem escapeByte_injective (c1 c2 : Byte) (h : escapeByte c1 = escapeByte c2) : c1 = c2 := by
  have h1 := unescapeByte_escapeByte c1
  rw [h, unescapeByte_escapeByte c2] at h1
  exact (Option.some.inj h1).symm

/-- The escapes of single bytes form a prefix code. -/
theorem escapeByte_append_inj (c1 c2 : Byte) (x y : Str)
    (h : escapeByte c1 ++ x = escapeByte c2 ++ y) : c1 = c2 ∧ x = y := by
  have n1 := escapeByte_ne_nil c1
  have n2 := escapeByte_ne_nil c2
  have hh : (escapeByte c1).head? = (escapeByte c2).head? := by
    have := congrArg List.head? h
    cases e1 : escapeByte c1 with
    | nil => exact absurd e1 n1
    | cons a as =>
      cases e2 : escapeByte c2 with
      | nil => exact absurd e2 n2
      | cons b bs =>
        rw [e1, e2] at this
        simpa using this
  have hl : (escapeByte c1).length = (escapeByte c2).length := by
    rw [escapeByte_length c1, escapeByte_length c2, hh]
  obtain ⟨h1, h2⟩ := List.append_inj h hl
  exact ⟨escapeByte_injective c1 c2 h1, h2⟩

/-- Function `url.QueryEscape` is injective. -/
theorem QueryEscape_injective (s t : Str) (h : QueryEscape s = QueryEscape t) : s = t := by
  induction s generalizing t with
  | nil =>
    cases t with
    | nil => rfl
    | cons c t =>
      rw [QueryEscape_cons] at h
      have : escapeByte c = [] := (List.append_eq_nil.mp h.symm).1
      exact absurd this (escapeByte_ne_nil c)
  | cons a s ih =>
    cases t with
    | nil =>
      rw [QueryEscape_cons] at h
      have : escapeByte a = [] := (List.append_eq_nil.mp h).1
      exact absurd this (escapeByte_ne_nil a)
    | cons c t =>
      rw [QueryEscape_cons, QueryEscape_cons] at h
      obtain ⟨h1, h2⟩ := escapeByte_append_inj a c _ _ h
      rw [h1, ih t h2]

theorem QueryEscape_no_separator (s : Str) (b : Byte) (h : b ∈ QueryEscape s) :
    b ≠ (38 : Byte) ∧ b ≠ (61 : Byte) := by
  induction s with
  | nil => simp [QueryEscape] at h
  | cons c s ih =>
    rw [QueryEscape_cons, List.mem_append] at h
    rcases h with h | h
    · exact escapeByte_no_separator c b h
    · exact ih h

/-- A string is cut at the first occurrence of a separator in one way only. -/
theorem split_at_first (c : Byte) (a b x y : Str) (ha : c ∉ a) (hb : c ∉ b)
    (h : a ++ c :: x = b ++ c :: y) : a = b ∧ x = y := by
  induction a generalizing b with
  | nil =>
    cases b with
    | nil => simpa using h
    | cons d b =>
      simp only [List.nil_append, List.cons_append, List.cons.injEq] at h
      exact absurd (List.mem_cons.mpr (Or.inl h.1)) hb
  | cons e a ih =>
    cases b with
    | nil =>
      simp only [List.nil_append, List.cons_append, List.cons.injEq] at h
      exact absurd (List.mem_cons.mpr (Or.inl h.1.symm)) ha
    | cons d b =>
      simp only [List.cons_append, List.cons.injEq] at h
      have ha2 : c ∉ a := fun hm => ha (List.mem_cons_of_mem _ hm)
      have hb2 : c ∉ b := fun hm => hb (List.mem_cons_of_mem _ hm)
      obtain ⟨h1, h2⟩ := ih b ha2 hb2 h.2
      exact ⟨by rw [h.1, h1], h2⟩

/-! ## A changed value changes the canonical string -/

theorem get?_append_cons_ne (q1 q2 : Values) (k k2 : Str) (x y : Slice) (h : k2 ≠ k) :
    GoMap.get? (q1 ++ (k, x) :: q2) k2 = GoMap.get? (q1 ++ (k, y) :: q2) k2 := by
  induction q1 with
  | nil => simp [GoMap.get?, Ne.symm h]
  | cons e q1 ih =>
    obtain ⟨k1, v1⟩ := e
    simp only [List.cons_append, GoMap.get?]
    split
    · rfl
    · exact ih

theorem keys_append_cons (q1 q2 : Values) (k : Str) (x y : Slice) :
    GoMap.keys (q1 ++ (k, x) :: q2) = GoMap.keys (q1 ++ (k, y) :: q2) := by
  simp [GoMap.keys]

theorem sortKeys_congr_keys (m1 m2 : GoMap Str) (h1 : (GoMap.keys m1).Nodup)
    (h2 : (GoMap.keys m2).Nodup) (hk : ∀ k, k ∈ GoMap.keys m1 ↔ k ∈ GoMap.keys m2) :
    sortKeys m1 = sortKeys m2 := by
  have hp : (GoMap.keys m1).Perm (GoMap.keys m2) := (List.perm_ext_iff_of_nodup h1 h2).mpr hk
  have hp2 : (sortKeys m1).Perm (sortKeys m2) :=
    ((sortKeys_perm m1).trans hp).trans (sortKeys_perm m2).symm
  exact List.eq_of_perm_of_sorted hp2 (sortKeys_sorted m1) (sortKeys_sorted m2)

theorem flatMap_congr_of_mem {α : Type} (f g : α → Str) (l : List α)
    (h : ∀ x ∈ l, f x = g x) : l.flatMap f = l.flatMap g := by
  induction l with
  | nil => rfl
  | cons a l ih =>
    rw [List.flatMap_cons, List.flatMap_cons, h a (List.mem_cons_self a l),
      ih (fun x hx => h x (List.mem_cons_of_mem a hx))]

/-- Two mappings with the same keys that differ in the value of one key only give
different strings of segments, whatever follows them. -/
theorem segments_ne_of_value_ne (m1 m2 : GoMap Str) (k v1 v2 : Str) (tail : Str)
    (h1 : (GoMap.keys m1).Nodup) (h2 : (GoMap.keys m2).Nodup)
    (hv1 : GoMap.get? m1 k = some v1) (hv2 : GoMap.get? m2 k = some v2) (hne : v1 ≠ v2)
    (hother : ∀ k2, k2 ≠ k → GoMap.get? m1 k2 = GoMap.get? m2 k2) :
    (sortKeys m1).flatMap (segment m1) ++ tail ≠ (sortKeys m2).flatMap (segment m2) ++ tail := by
  have hkeys : ∀ k2, k2 ∈ GoMap.keys m1 ↔ k2 ∈ GoMap.keys m2 := by
    intro k2
    rw [GoMap.mem_keys_iff, GoMap.mem_keys_iff]
    by_cases hk : k2 = k
    · rw [hk, hv1, hv2]
      simp
    · rw [hother k2 hk]
  have hs := sortKeys_congr_keys m1 m2 h1 h2 hkeys
  have hmem : k ∈ sortKeys m1 := by
    rw [mem_sortKeys, GoMap.mem_keys_iff, hv1]
    rfl
  have hnd : (sortKeys m1).Nodup := (sortKeys_perm m1).nodup_iff.mpr h1
  rw [← hs]
  obtain ⟨l1, l2, hl⟩ := List.append_of_mem hmem
  rw [hl] at hnd ⊢
  have hk1 : k ∉ l1 := by
    intro hm
    have := List.nodup_append.mp hnd
    exact this.2.2 hm (List.mem_cons_self k l2)
  have hk2 : k ∉ l2 := by
    have := (List.nodup_append.mp hnd).2.1
    exact (List.nodup_cons.mp this).1
  have e1 : l1.flatMap (segment m1) = l1.flatMap (segment m2) :=
    flatMap_congr_of_mem _ _ l1 (fun x hx => by
      have hxk : x ≠ k := fun he => hk1 (he ▸ hx)
      simp [segment, hother x hxk])
  have e2 : l2.flatMap (segment m1) = l2.flatMap (segment m2) :=
    flatMap_congr_of_mem _ _ l2 (fun x hx => by
      have hxk : x ≠ k := fun he => hk2 (he ▸ hx)
      simp [segment, hother x hxk])
  intro h
  rw [List.flatMap_append, List.flatMap_append, List.flatMap_cons, List.flatMap_cons,
    e1, e2] at h
  simp only [segment, hv1, hv2, Option.getD_some, List.append_assoc] at h
  have h3 := List.append_cancel_left (List.append_cancel_left (List.append_cancel_left h))
  have h4 := List.append_cancel_right h3
  exact hne (QueryEscape_injective v1 v2 h4)

/-- C15: for a GET request, replacing the non-empty first value `v` of a parameter
with a non-empty name by another non-empty value changes the string returned by
`strToSign`. -/
theorem strToSign_value_change (L : StdLib) (p : Generator) (r : Request)
    (q1 q2 : Values) (k v v2 : Str) (vs : List Str)
    (hm : r.Method = MethodGet) (hq : r.Query = q1 ++ (k, (v, vs)) :: q2)
    (hd : distinctKeys r.Query) (hk : k ≠ []) (hv : v ≠ []) (hv2 : v2 ≠ []) (hne : v2 ≠ v) :
    ∃ s1 s2,
      (strToSign L p r).map Prod.fst = some s1 ∧
      (strToSign L p { r with Query := q1 ++ (k, (v2, vs)) :: q2 }).map Prod.fst = some s2 ∧
      s1 ≠ s2 := by
  have hnp : r.Method ≠ MethodPost := by rw [hm]; exact MethodGet_ne_MethodPost
  have hd1 : (GoMap.keys (q1 ++ (k, (v, vs)) :: q2)).Nodup := by
    rw [← hq]
    exact hd
  have hd2 : (GoMap.keys (q1 ++ (k, (v2, vs)) :: q2)).Nodup := by
    rw [keys_append_cons q1 q2 k (v2, vs) (v, vs)]
    exact hd1
  have s1 := strToSign_of_queryParams L p r r r.Query [] r (queryParams_get L r hm)
    (bodyParams_not_post L r hnp)
  have s2 := strToSign_of_queryParams L p { r with Query := q1 ++ (k, (v2, vs)) :: q2 }
    { r with Query := q1 ++ (k, (v2, vs)) :: q2 } (q1 ++ (k, (v2, vs)) :: q2) []
    { r with Query := q1 ++ (k, (v2, vs)) :: q2 }
    (queryParams_get L { r with Query := q1 ++ (k, (v2, vs)) :: q2 } hm)
    (bodyParams_not_post L { r with Query := q1 ++ (k, (v2, vs)) :: q2 } hnp)
  simp only [ne_eq, not_true_eq_false, if_false, List.append_nil] at s1 s2
  rw [hq] at s1
  rw [s1, s2]
  refine ⟨_, _, rfl, rfl, ?_⟩
  have hi := nodup_keys_init p.ak p.accessTs
  have g1 : GoMap.get? (q1 ++ (k, (v, vs)) :: q2) k = some (v, vs) :=
    GoMap.get?_of_mem _ hd1 k (v, vs) (by simp)
  have g2 : GoMap.get? (q1 ++ (k, (v2, vs)) :: q2) k = some (v2, vs) :=
    GoMap.get?_of_mem _ hd2 k (v2, vs) (by simp)
  have key := segments_ne_of_value_ne
    ((q1 ++ (k, (v, vs)) :: q2).foldl withHeadersStep
      [(ascii "ak", p.ak), (ascii "accessTs", p.accessTs)])
    ((q1 ++ (k, (v2, vs)) :: q2).foldl withHeadersStep
      [(ascii "ak", p.ak), (ascii "accessTs", p.accessTs)])
    k v v2 (ascii "secret=" ++ upperMD5 L p.sk)
    (nodup_keys_foldl_withHeadersStep _ _ hi) (nodup_keys_foldl_withHeadersStep _ _ hi)
    (by
      rw [get?_foldl_withHeadersStep_signed _ hd1]
      simp [signedValue, g1, hk, hv])
    (by
      rw [get?_foldl_withHeadersStep_signed _ hd2]
      simp [signedValue, g2, hk, hv2])
    (Ne.symm hne)
    (by
      intro k2 hk2
      rw [get?_foldl_withHeadersStep_signed _ hd1, get?_foldl_withHeadersStep_signed _ hd2]
      unfold signedValue
      rw [get?_append_cons_ne q1 q2 k k2 (v, vs) (v2, vs) hk2])
  simpa [List.append_assoc] using key

/-- The worked example with `b=2` replaced by `b=3`. -/
theorem strToSign_value_change_witness :
    exampleGet.Query = [] ++ (ascii "b", (ascii "2", [])) :: [(ascii "a", (ascii "1", []))] ∧
    ∃ s1 s2,
      (strToSign testLib exampleGenerator exampleGet).map Prod.fst = some s1 ∧
      (strToSign testLib exampleGenerator
        { exampleGet with Query :=
          [] ++ (ascii "b", (ascii "3", [])) :: [(ascii "a", (ascii "1", []))] }).map Prod.fst
        = some s2 ∧
      s1 ≠ s2 :=
  ⟨rfl, strToSign_value_change testLib exampleGenerator exampleGet []
    [(ascii "a", (ascii "1", []))] (ascii "b") (ascii "2") (ascii "3") [] rfl rfl
    (by decide) (by decide) (by decide) (by decide) (by decide)⟩

/-! ## The canonical string and the signed parameters -/

theorem GoMap.mem_of_get? {V : Type} (m : GoMap V) (k : Str) (v : V)
    (h : GoMap.get? m k = some v) : (k, v) ∈ m := by
  induction m with
  | nil => simp [GoMap.get?] at h
  | cons e m ih =>
    obtain ⟨k1, v1⟩ := e
    simp only [GoMap.get?] at h
    split at h
    · rename_i hk
      cases h
      rw [hk]
      exact List.mem_cons_self _ _
    · exact List.mem_cons_of_mem _ (ih h)

theorem plainName_of_signedValue (params : Values) (hp : plainNames params) (k v : Str)
    (h : signedValue params k = some v) : plainName k := by
  unfold signedValue at h
  cases hg : GoMap.get? params k with
  | none => simp [hg] at h
  | some s =>
    simp only [hg] at h
    split at h
    · cases h
    · rename_i hne
      have hm := GoMap.mem_of_get? params k s hg
      exact hp (k, s) hm (fun hk => hne (Or.inl hk)) (fun hs => hne (Or.inr hs))

theorem get?_init_of_plainName (ak accessTs k : Str) (h : plainName k) :
    GoMap.get? [(ascii "ak", ak), (ascii "accessTs", accessTs)] k = none := by
  simp [GoMap.get?, Ne.symm h.2.1, Ne.symm h.2.2]

theorem mem_keys_init (ak accessTs k : Str)
    (h : (GoMap.get? [(ascii "ak", ak), (ascii "accessTs", accessTs)] k).isSome = true) :
    k = ascii "ak" ∨ k = ascii "accessTs" := by
  simp only [GoMap.get?] at h
  split at h
  · rename_i hk
    exact Or.inl hk.symm
  · split at h
    · rename_i hk
      exact Or.inr hk.symm
    · simp at h

/-- No key of the mapping built by `withHeaders` holds a `=`, if the signed
parameters have plain names. -/
theorem no_eq_in_keys (params : Values) (hn : (GoMap.keys params).Nodup)
    (hp : plainNames params) (ak accessTs k : Str)
    (hk : k ∈ sortKeys (params.foldl withHeadersStep
      [(ascii "ak", ak), (ascii "accessTs", accessTs)])) : (61 : Byte) ∉ k := by
  rw [mem_sortKeys, GoMap.mem_keys_iff, get?_foldl_withHeadersStep_signed params hn] at hk
  cases hs : signedValue params k with
  | some v => exact (plainName_of_signedValue params hp k v hs).1
  | none =>
    rw [hs] at hk
    rcases mem_keys_init ak accessTs k hk with h | h
    · rw [h]; decide
    · rw [h]; decide

/-- The segments can be read back: the keys hold no `=`, an escaped value holds
neither `=` nor `&`, and what follows the segments holds no `&`. -/
theorem segments_injective (m1 m2 : GoMap Str) (T : Str) (hT : (38 : Byte) ∉ T) :
    ∀ ks1 ks2 : List Str, (∀ k ∈ ks1, (61 : Byte) ∉ k) → (∀ k ∈ ks2, (61 : Byte) ∉ k) →
      ks1.flatMap (segment m1) ++ T = ks2.flatMap (segment m2) ++ T →
      ks1 = ks2 ∧ ∀ k ∈ ks1, (GoMap.get? m1 k).getD [] = (GoMap.get? m2 k).getD [] := by
  intro ks1
  induction ks1 with
  | nil =>
    intro ks2 _ _ h
    cases ks2 with
    | nil => exact ⟨rfl, fun k hk => by cases hk⟩
    | cons k2 ks2 =>
      exfalso
      apply hT
      simp only [List.flatMap_nil, List.nil_append, List.flatMap_cons, segment] at h
      rw [h]
      have e38 : ascii "&" = [(38 : Byte)] := by decide
      rw [e38]
      simp
  | cons k1 ks1 ih =>
    intro ks2 h1 h2 h
    cases ks2 with
    | nil =>
      exfalso
      apply hT
      simp only [List.flatMap_nil, List.nil_append, List.flatMap_cons, segment] at h
      rw [← h]
      have e38 : ascii "&" = [(38 : Byte)] := by decide
      rw [e38]
      simp
    | cons k2 ks2 =>
      simp only [List.flatMap_cons, segment, List.append_assoc] at h
      have e61 : ascii "=" = [(61 : Byte)] := by decide
      have e38 : ascii "&" = [(38 : Byte)] := by decide
      rw [e61, e38] at h
      simp only [List.singleton_append] at h
      have s1 := split_at_first 61 k1 k2 _ _ (h1 k1 (List.mem_cons_self _ _))
        (h2 k2 (List.mem_cons_self _ _)) h
      have s2 := split_at_first 38 _ _ _ _
        (fun hm => (QueryEscape_no_separator _ _ hm).1 rfl)
        (fun hm => (QueryEscape_no_separator _ _ hm).1 rfl) s1.2
      have hv := QueryEscape_injective _ _ s2.1
      have hrec := ih ks2 (fun k hk => h1 k (List.mem_cons_of_mem _ hk))
        (fun k hk => h2 k (List.mem_cons_of_mem _ hk)) s2.2
      refine ⟨by rw [s1.1, hrec.1], ?_⟩
      intro k hk
      rcases List.mem_cons.mp hk with hk | hk
      · rw [hk, hv, s1.1]
      · exact hrec.2 k hk

theorem no_amp_in_tail (L : StdLib) (sk : Str) :
    (38 : Byte) ∉ ascii "secret=" ++ upperMD5 L sk := by
  intro h
  rcases List.mem_append.mp h with h | h
  · revert h; decide
  · have := upperMD5_isUpperHex L sk 38 h
    revert this; decide

/-- Equal canonical strings come from equal signed parameters, if the signed
parameters of both maps have plain names. -/
theorem signedValue_of_segments_eq (L : StdLib) (p : Generator) (q1 q2 : Values)
    (hd1 : (GoMap.keys q1).Nodup) (hd2 : (GoMap.keys q2).Nodup)
    (hp1 : plainNames q1) (hp2 : plainNames q2)
    (h : (sortKeys (q1.foldl withHeadersStep [(ascii "ak", p.ak), (ascii "accessTs", p.accessTs)])).flatMap
          (segment (q1.foldl withHeadersStep [(ascii "ak", p.ak), (ascii "accessTs", p.accessTs)]))
        ++ (ascii "secret=" ++ upperMD5 L p.sk) =
        (sortKeys (q2.foldl withHeadersStep [(ascii "ak", p.ak), (ascii "accessTs", p.accessTs)])).flatMap
          (segment (q2.foldl withHeadersStep [(ascii "ak", p.ak), (ascii "accessTs", p.accessTs)]))
        ++ (ascii "secret=" ++ upperMD5 L p.sk))
    (k : Str) : signedValue q1 k = signedValue q2 k := by
  have key := segments_injective _ _ _ (no_amp_in_tail L p.sk) _ _
    (fun k hk => no_eq_in_keys q1 hd1 hp1 p.ak p.accessTs k hk)
    (fun k hk => no_eq_in_keys q2 hd2 hp2 p.ak p.accessTs k hk) h
  have hget : GoMap.get? (q1.foldl withHeadersStep [(ascii "ak", p.ak), (ascii "accessTs", p.accessTs)]) k
      = GoMap.get? (q2.foldl withHeadersStep [(ascii "ak", p.ak), (ascii "accessTs", p.accessTs)]) k := by
    by_cases hk : k ∈ sortKeys (q1.foldl withHeadersStep [(ascii "ak", p.ak), (ascii "accessTs", p.accessTs)])
    · have hk2 := hk
      rw [key.1] at hk2
      have hv := key.2 k hk
      rw [mem_sortKeys, GoMap.mem_keys_iff] at hk hk2
      cases h1 : GoMap.get? (q1.foldl withHeadersStep [(ascii "ak", p.ak), (ascii "accessTs", p.accessTs)]) k with
      | none => rw [h1] at hk; cases hk
      | some a =>
        cases h2 : GoMap.get? (q2.foldl withHeadersStep [(ascii "ak", p.ak), (ascii "accessTs", p.accessTs)]) k with
        | none => rw [h2] at hk2; cases hk2
        | some b =>
          rw [h1, h2] at hv
          simp only [Option.getD_some] at hv
          rw [hv]
    · have hk2 := hk
      rw [key.1] at hk2
      rw [mem_sortKeys] at hk hk2
      rw [GoMap.get?_eq_none _ k hk, GoMap.get?_eq_none _ k hk2]
  rw [get?_foldl_withHeadersStep_signed q1 hd1, get?_foldl_withHeadersStep_signed q2 hd2] at hget
  cases s1 : signedValue q1 k with
  | none =>
    cases s2 : signedValue q2 k with
    | none => rfl
    | some w =>
      rw [s1, s2] at hget
      simp only at hget
      rw [get?_init_of_plainName _ _ k (plainName_of_signedValue q2 hp2 k w s2)] at hget
      cases hget
  | some v =>
    cases s2 : signedValue q2 k with
    | none =>
      rw [s1, s2] at hget
      simp only at hget
      rw [get?_init_of_plainName _ _ k (plainName_of_signedValue q1 hp1 k v s1)] at hget
      cases hget
    | some w =>
      rw [s1, s2] at hget
      simpa using hget

/-- The string of a GET request. -/
theorem strToSign_get (L : StdLib) (p : Generator) (r : Request) (hm : r.Method = MethodGet) :
    (strToSign L p r).map Prod.fst =
      some ((sortKeys (r.Query.foldl withHeadersStep
              [(ascii "ak", p.ak), (ascii "accessTs", p.accessTs)])).flatMap
            (segment (r.Query.foldl withHeadersStep
              [(ascii "ak", p.ak), (ascii "accessTs", p.accessTs)]))
          ++ (ascii "secret=" ++ upperMD5 L p.sk)) := by
  have hnp : r.Method ≠ MethodPost := by rw [hm]; exact MethodGet_ne_MethodPost
  rw [strToSign_of_queryParams L p r r r.Query [] r (queryParams_get L r hm)
    (bodyParams_not_post L r hnp)]
  simp [List.append_assoc]

/-- C18, as the code has it: the GET requests with the parameters `x=1`, `y=2` and
with the one parameter named `x=1&y` of value `2` have different signed parameters
and the same canonical string. -/
theorem strToSign_names_collide :
    collideGet1.Method = MethodGet ∧ collideGet2.Method = MethodGet ∧
    signedValue collideGet1.Query (ascii "x") = some (ascii "1") ∧
    signedValue collideGet2.Query (ascii "x") = none ∧
    (strToSign testLib exampleGenerator collideGet1).map Prod.fst
      = some (ascii "accessTs=1700000000&ak=AK1&x=1&y=2&secret=" ++
          upperMD5 testLib (ascii "SK1")) ∧
    (strToSign testLib exampleGenerator collideGet2).map Prod.fst
      = some (ascii "accessTs=1700000000&ak=AK1&x=1&y=2&secret=" ++
          upperMD5 testLib (ascii "SK1")) := by
  refine ⟨rfl, rfl, by decide, by decide, by decide, by decide⟩

/-- C18, amended: for two GET requests whose signed parameters (non-empty name,
non-empty first value) have names without `=` that are not `ak` or `accessTs`,
different signed parameter mappings give different canonical strings. -/
theorem strToSign_determines_params (L : StdLib) (p : Generator) (r1 r2 : Request)
    (hm1 : r1.Method = MethodGet) (hm2 : r2.Method = MethodGet)
    (hd1 : distinctKeys r1.Query) (hd2 : distinctKeys r2.Query)
    (hp1 : plainNames r1.Query) (hp2 : plainNames r2.Query)
    (k : Str) (hne : signedValue r1.Query k ≠ signedValue r2.Query k) :
    ∃ s1 s2,
      (strToSign L p r1).map Prod.fst = some s1 ∧
      (strToSign L p r2).map Prod.fst = some s2 ∧
      s1 ≠ s2 := by
  refine ⟨_, _, strToSign_get L p r1 hm1, strToSign_get L p r2 hm2, ?_⟩
  intro h
  exact hne (signedValue_of_segments_eq L p r1.Query r2.Query hd1 hd2 hp1 hp2 h k)

/-- The requests `b=2&a=1` and `x=1&y=2` have different canonical strings. -/
theorem strToSign_determines_params_witness :
    signedValue exampleGet.Query (ascii "a") ≠ signedValue collideGet1.Query (ascii "a") ∧
    ∃ s1 s2,
      (strToSign testLib exampleGenerator exampleGet).map Prod.fst = some s1 ∧
      (strToSign testLib exampleGenerator collideGet1).map Prod.fst = some s2 ∧
      s1 ≠ s2 :=
  ⟨by decide, strToSign_determines_params testLib exampleGenerator exampleGet collideGet1
    rfl rfl (by decide) (by decide) (by decide) (by decide) (ascii "a") (by decide)⟩

/-! ## The liveness check to the nanosecond -/

theorem exponent_unique (q : ℚ) (hq : 0 < q) (e : ℤ) (h1 : (2 : ℚ) ^ e ≤ q)
    (h2 : q < (2 : ℚ) ^ (e + 1)) : exponent q = e := by
  obtain ⟨s1, s2⟩ := exponent_spec q hq
  have a := (zpow_lt_zpow_iff_right₀ (by norm_num : (1 : ℚ) < 2)).mp (lt_of_le_of_lt h1 s2)
  have b := (zpow_lt_zpow_iff_right₀ (by norm_num : (1 : ℚ) < 2)).mp (lt_of_le_of_lt s1 h2)
  omega

theorem exponent_mul_zpow (q : ℚ) (hq : 0 < q) (z : ℤ) :
    exponent (q * (2 : ℚ) ^ z) = exponent q + z := by
  obtain ⟨s1, s2⟩ := exponent_spec q hq
  have two : (2 : ℚ) ≠ 0 := by norm_num
  have hz : (0 : ℚ) < (2 : ℚ) ^ z := zpow_pos (by norm_num) _
  apply exponent_unique _ (mul_pos hq hz)
  · rw [zpow_add₀ two]
    exact mul_le_mul_of_nonneg_right s1 hz.le
  · rw [show exponent q + z + 1 = (exponent q + 1) + z by ring, zpow_add₀ two]
    exact mul_lt_mul_of_pos_right s2 hz

/-- Scaling by a power of two commutes with rounding. -/
theorem float64Pos_mul_zpow (q : ℚ) (hq : 0 < q) (z : ℤ) :
    float64Pos (q * (2 : ℚ) ^ z) = float64Pos q * (2 : ℚ) ^ z := by
  have two : (2 : ℚ) ≠ 0 := by norm_num
  have hz : (2 : ℚ) ^ z ≠ 0 := zpow_ne_zero _ two
  unfold float64Pos
  rw [exponent_mul_zpow q hq z,
    show exponent q + z - 52 = (exponent q - 52) + z by ring, zpow_add₀ two]
  have hx : q * (2 : ℚ) ^ z / ((2 : ℚ) ^ (exponent q - 52) * (2 : ℚ) ^ z)
      = q / (2 : ℚ) ^ (exponent q - 52) := by
    rw [mul_div_mul_right _ _ hz]
  rw [hx]
  ring

/-- A multiple `n / 2^j` of a power of two with `0 < n <= 2^53` is a `float64`
value. -/
theorem float64_dyadic (n : ℤ) (j : ℕ) (h0 : 0 < n) (h1 : n ≤ 2 ^ 53) :
    float64 ((n : ℚ) / (2 : ℚ) ^ j) = (n : ℚ) / (2 : ℚ) ^ j := by
  have hq : (0 : ℚ) < (n : ℚ) := by exact_mod_cast h0
  have e : (n : ℚ) / (2 : ℚ) ^ j = (n : ℚ) * (2 : ℚ) ^ (-(j : ℤ)) := by
    rw [zpow_neg, zpow_natCast]
    rfl
  have hz : (0 : ℚ) < (2 : ℚ) ^ (-(j : ℤ)) := zpow_pos (by norm_num) _
  rw [e, float64_of_pos _ (mul_pos hq hz), float64Pos_mul_zpow _ hq, float64Pos_intCast n h0 h1]

theorem roundHalfEven_le_pred (x : ℚ) (m : ℤ) (h : x < (m : ℚ) - 1 / 2) :
    roundHalfEven x ≤ m - 1 := by
  have hf1 : ((⌊x⌋ : ℤ) : ℚ) ≤ x := Int.floor_le x
  have hf : ⌊x⌋ ≤ m - 1 := by
    have : ((⌊x⌋ : ℤ) : ℚ) < (m : ℚ) := by linarith
    have := Int.cast_lt.mp this
    omega
  unfold roundHalfEven
  simp only
  by_cases h2 : ⌊x⌋ ≤ m - 2
  · split_ifs <;> omega
  · have e : ⌊x⌋ = m - 1 := by omega
    have hlt : x - ((⌊x⌋ : ℤ) : ℚ) < 1 / 2 := by
      rw [e]
      push_cast
      linarith
    rw [if_pos hlt]
    exact hf

/-- Below the middle between two neighbours of its own binade a number is rounded
to the lower one or lower. -/
theorem float64_le_pred (q : ℚ) (n e : ℤ) (h1 : (2 : ℚ) ^ e ≤ q) (h2 : q < (2 : ℚ) ^ (e + 1))
    (h3 : q < ((n : ℚ) - 1 / 2) * (2 : ℚ) ^ (e - 52)) :
    float64 q ≤ ((n : ℚ) - 1) * (2 : ℚ) ^ (e - 52) := by
  have hq : 0 < q := lt_of_lt_of_le (zpow_pos (by norm_num) _) h1
  have hu : (0 : ℚ) < (2 : ℚ) ^ (e - 52) := zpow_pos (by norm_num) _
  rw [float64_of_pos q hq]
  unfold float64Pos
  rw [exponent_unique q hq e h1 h2]
  have hx : q / (2 : ℚ) ^ (e - 52) < (n : ℚ) - 1 / 2 := (div_lt_iff₀ hu).mpr h3
  have hR := roundHalfEven_le_pred _ n hx
  have hR2 : ((roundHalfEven (q / (2 : ℚ) ^ (e - 52)) : ℤ) : ℚ) ≤ (n : ℚ) - 1 := by
    exact_mod_cast hR
  exact mul_le_mul_of_nonneg_right hR2 hu.le

/-- Rounding does not cross the middle between two multiples of `2^(-j)` that are
`float64` values: below the middle below `n / 2^j`, `n` up to `2^53`, a number
stays at or below that middle. -/
theorem float64_le_mid (q : ℚ) (n : ℤ) (j : ℕ) (hq : 0 < q) (hn : n ≤ 2 ^ 53)
    (h : q < ((n : ℚ) - 1 / 2) / (2 : ℚ) ^ j) :
    float64 q ≤ ((n : ℚ) - 1 / 2) / (2 : ℚ) ^ j := by
  have two : (2 : ℚ) ≠ 0 := by norm_num
  obtain ⟨s1, _⟩ := exponent_spec q hq
  have hpj : (0 : ℚ) < (2 : ℚ) ^ j := pow_pos (by norm_num) j
  have hn2 : (n : ℚ) ≤ (2 : ℚ) ^ (53 : ℤ) := by
    have h3 : (n : ℚ) ≤ (((2 : ℤ) ^ 53 : ℤ) : ℚ) := by exact_mod_cast hn
    have c53 : (((2 : ℤ) ^ 53 : ℤ) : ℚ) = (2 : ℚ) ^ (53 : ℤ) := by norm_num
    rw [c53] at h3
    exact h3
  have hq2 : q < (2 : ℚ) ^ ((53 : ℤ) - (j : ℤ)) := by
    rw [zpow_sub₀ two, zpow_natCast]
    refine lt_of_lt_of_le h (div_le_div_of_nonneg_right ?_ hpj.le)
    linarith
  have he : exponent q < 53 - (j : ℤ) :=
    (zpow_lt_zpow_iff_right₀ (by norm_num : (1 : ℚ) < 2)).mp (lt_of_le_of_lt s1 hq2)
  obtain ⟨t, ht⟩ : ∃ t : ℕ, exponent q - 52 = -((j + t : ℕ) : ℤ) :=
    ⟨(52 - (j : ℤ) - exponent q).toNat, by push_cast; omega⟩
  rw [float64_of_pos q hq]
  unfold float64Pos
  rw [ht, zpow_neg, zpow_natCast, div_inv_eq_mul]
  have hpt : (0 : ℚ) < (2 : ℚ) ^ (j + t) := pow_pos (by norm_num) _
  have hpt2 : (0 : ℚ) < (2 : ℚ) ^ t := pow_pos (by norm_num) _
  have hlt : q * (2 : ℚ) ^ (j + t) < ((n : ℚ) - 1 / 2) * (2 : ℚ) ^ t := by
    have h5 := mul_lt_mul_of_pos_right h hpt
    have h6 : ((n : ℚ) - 1 / 2) / (2 : ℚ) ^ j * (2 : ℚ) ^ (j + t)
        = ((n : ℚ) - 1 / 2) * (2 : ℚ) ^ t := by
      rw [pow_add]
      field_simp
      ring
    rw [h6] at h5
    exact h5
  have hR : ((roundHalfEven (q * (2 : ℚ) ^ (j + t)) : ℤ) : ℚ)
      ≤ ((n : ℚ) - 1 / 2) * (2 : ℚ) ^ t := by
    cases t with
    | zero =>
      simp only [pow_zero, mul_one] at hlt ⊢
      have hR := roundHalfEven_le_pred _ n hlt
      have hR2 : ((roundHalfEven (q * (2 : ℚ) ^ (j + 0)) : ℤ) : ℚ) ≤ (n : ℚ) - 1 := by
        exact_mod_cast hR
      linarith
    | succ t2 =>
      have hM : ((n : ℚ) - 1 / 2) * (2 : ℚ) ^ (t2 + 1)
          = ((n * 2 ^ (t2 + 1) - 2 ^ t2 : ℤ) : ℚ) := by
        push_cast
        ring
      rw [hM] at hlt ⊢
      have hmono := roundHalfEven_mono _ _ hlt.le
      rw [roundHalfEven_intCast] at hmono
      exact_mod_cast hmono
  have h7 := mul_le_mul_of_nonneg_right hR (inv_nonneg.mpr hpt.le)
  have h8 : ((n : ℚ) - 1 / 2) * (2 : ℚ) ^ t * ((2 : ℚ) ^ (j + t))⁻¹
      = ((n : ℚ) - 1 / 2) / (2 : ℚ) ^ j := by
    rw [pow_add]
    field_simp
    ring
  rw [h8] at h7
  exact h7

theorem truncToInt_le_pred (x : ℚ) (k : ℤ) (hk : 1 ≤ k) (h : x < (k : ℚ)) :
    truncToInt x ≤ k - 1 := by
  unfold truncToInt
  split_ifs with h0
  · have : ⌊x⌋ < k := Int.floor_lt.mpr h
    omega
  · have : ⌈x⌉ ≤ 0 := Int.ceil_le.mpr (by push_cast; linarith)
    omega

/-- One nanosecond before `k` whole minutes, for `k` up to 279620: fewer than `k`
whole minutes. -/
theorem wholeMinutes_below (k : Int) (h1 : 1 ≤ k) (h2 : k ≤ 279620) :
    wholeMinutes (k * 60 * 1000000000 - 1) ≤ k - 1 := by
  have hmin : minDuration = -9223372036854775808 := by norm_num [minDuration]
  have hmax : maxDuration = 9223372036854775807 := by norm_num [maxDuration]
  unfold wholeMinutes
  rw [Seconds_eq _ (by rw [hmin]; omega) (by rw [hmax]; omega)]
  have t1 : (k * 60 * 1000000000 - 1).tdiv 1000000000 = k * 60 - 1 := by
    rw [Int.tdiv_eq_ediv (by omega) (by norm_num)]
    omega
  have t2 : (k * 60 * 1000000000 - 1).tmod 1000000000 = 999999999 := by
    rw [Int.tmod_eq_emod (by omega) (by norm_num)]
    omega
  rw [t1, t2]
  have hk : (1 : ℚ) ≤ (k : ℚ) := by exact_mod_cast h1
  have hk2 : (k : ℚ) ≤ 279620 := by exact_mod_cast h2
  -- the fraction of a second: at most 1 - 17 / 2^34
  have a1 : float64 (((999999999 : Int) : ℚ) / 1000000000)
      ≤ ((2 ^ 34 - 17 : ℤ) : ℚ) / (2 : ℚ) ^ 34 := by
    have := float64_mono (((999999999 : Int) : ℚ) / 1000000000)
      (((2 ^ 34 - 17 : ℤ) : ℚ) / (2 : ℚ) ^ 34) (by norm_num)
    rwa [float64_dyadic _ 34 (by norm_num) (by norm_num)] at this
  have a0 : 0 ≤ float64 (((999999999 : Int) : ℚ) / 1000000000) :=
    float64_nonneg _ (by norm_num)
  generalize float64 (((999999999 : Int) : ℚ) / 1000000000) = f at a0 a1
  have a1b : f ≤ 1 - 17 / 17179869184 := by
    have e : ((2 ^ 34 - 17 : ℤ) : ℚ) / (2 : ℚ) ^ 34 = 1 - 17 / 17179869184 := by norm_num
    rw [e] at a1
    exact a1
  have hs0 : ((k * 60 - 1 : Int) : ℚ) = (k : ℚ) * 60 - 1 := by push_cast; ring
  rw [hs0]
  have hspos : (0 : ℚ) < (k : ℚ) * 60 - 1 + f := by linarith
  -- the seconds stay below the middle under `60 k`
  have hmid : (k : ℚ) * 60 - 1 + f < (((k * 60 * 2 ^ 29 : ℤ) : ℚ) - 1 / 2) / (2 : ℚ) ^ 29 := by
    have e : (((k * 60 * 2 ^ 29 : ℤ) : ℚ) - 1 / 2) / (2 : ℚ) ^ 29
        = (k : ℚ) * 60 - 1 / 1073741824 := by
      push_cast
      field_simp
      ring
    rw [e]
    linarith
  have hB0 : 0 < float64 ((k : ℚ) * 60 - 1 + f) := by
    have := float64_mono 1 ((k : ℚ) * 60 - 1 + f) (by linarith)
    rw [float64_one] at this
    linarith
  rcases le_or_lt k 262144 with hc | hc
  · -- up to `2^18` minutes
    have hk3 : (k : ℚ) ≤ 262144 := by exact_mod_cast hc
    have a2 := float64_le_mid _ (k * 60 * 2 ^ 29) 29 hspos (by omega) hmid
    have e2 : (((k * 60 * 2 ^ 29 : ℤ) : ℚ) - 1 / 2) / (2 : ℚ) ^ 29
        = (k : ℚ) * 60 - 1 / 1073741824 := by
      push_cast
      field_simp
      ring
    rw [e2] at a2
    generalize float64 ((k : ℚ) * 60 - 1 + f) = B at a2 hB0
    have e3 : (((k * 2 ^ 35 : ℤ) : ℚ) - 1 / 2) / (2 : ℚ) ^ 35
        = (k : ℚ) - 1 / 68719476736 := by
      push_cast
      field_simp
      ring
    have hmid3 : B / 60 < (((k * 2 ^ 35 : ℤ) : ℚ) - 1 / 2) / (2 : ℚ) ^ 35 := by
      rw [e3, div_lt_iff₀ (by norm_num)]
      linarith
    have a3 := float64_le_mid _ (k * 2 ^ 35) 35 (div_pos hB0 (by norm_num)) (by omega) hmid3
    rw [e3] at a3
    exact truncToInt_le_pred _ k h1 (by linarith)
  · -- from `2^18` minutes on the seconds lie in the binade of `2^23`
    have hk3 : (262144 : ℚ) < (k : ℚ) := by exact_mod_cast hc
    have e2 : (((k * 60 * 2 ^ 29 : ℤ) : ℚ) - 1 / 2) * (2 : ℚ) ^ ((23 : ℤ) - 52)
        = (k : ℚ) * 60 - 1 / 1073741824 := by
      rw [show ((23 : ℤ) - 52) = -29 by norm_num, zpow_neg]
      push_cast
      norm_num
      ring
    have e2b : (((k * 60 * 2 ^ 29 : ℤ) : ℚ) - 1) * (2 : ℚ) ^ ((23 : ℤ) - 52)
        = (k : ℚ) * 60 - 1 / 536870912 := by
      rw [show ((23 : ℤ) - 52) = -29 by norm_num, zpow_neg]
      push_cast
      norm_num
      ring
    have a2 := float64_le_pred ((k : ℚ) * 60 - 1 + f) (k * 60 * 2 ^ 29) 23
      (by norm_num; linarith) (by norm_num; linarith) (by rw [e2]; linarith)
    rw [e2b] at a2
    generalize float64 ((k : ℚ) * 60 - 1 + f) = B at a2 hB0
    have e3 : (((k * 2 ^ 34 : ℤ) : ℚ) - 1 / 2) / (2 : ℚ) ^ 34
        = (k : ℚ) - 1 / 34359738368 := by
      push_cast
      field_simp
      ring
    have hmid3 : B / 60 < (((k * 2 ^ 34 : ℤ) : ℚ) - 1 / 2) / (2 : ℚ) ^ 34 := by
      rw [e3, div_lt_iff₀ (by norm_num)]
      linarith
    have a3 := float64_le_mid _ (k * 2 ^ 34) 34 (div_pos hB0 (by norm_num)) (by omega) hmid3
    rw [e3] at a3
    exact truncToInt_le_pred _ k h1 (by linarith)

/-- C17 as stated fails: with a window of 279620 minutes, the time stamp `0` and
the clock at 16777259.999999999 s, one nanosecond less than 279621 minutes have
elapsed and `SignTimeout` returns true: the seconds are rounded to the `float64`
16777260. -/
theorem SignTimeout_true_before_whole_minute :
    ParseInt (ascii "0") = some 0 ∧
    (0 : Int) ≤ ({ exampleGenerator with liveMinutes := 279620 } : Generator).liveMinutes ∧
    ((16777259 : Int) - 0) * 1000000000 + 999999999
      < (({ exampleGenerator with liveMinutes := 279620 } : Generator).liveMinutes + 1)
          * 60 * 1000000000 ∧
    SignTimeout { exampleGenerator with liveMinutes := 279620 }
      { unix := 16777259, nsec := 999999999 } (ascii "0") = true :=
  ⟨by decide, by decide, by decide, by decide!⟩

/-- C17, amended: for a window from 0 to 279619 minutes and a time stamp that
parses to `t` with `t + 62135596800` below `2^63` (where `time.Unix` does not
wrap), `SignTimeout` returns true if and only if `now - t`, counted in
nanoseconds, is at least `liveMinutes + 1` minutes. -/
theorem SignTimeout_iff (p : Generator) (now : Time) (accessTs : Str) (t : Int)
    (hL1 : 0 ≤ p.liveMinutes) (hL2 : p.liveMinutes < 279620)
    (hp : ParseInt accessTs = some t) (ht : t + unixToInternal < 2 ^ 63) :
    SignTimeout p now accessTs = true ↔
      (p.liveMinutes + 1) * 60 * 1000000000
        ≤ ((now.unix : Int) - t) * 1000000000 + (now.nsec.val : Int) := by
  have hmin : minDuration = -9223372036854775808 := by norm_num [minDuration]
  have hmax : maxDuration = 9223372036854775807 := by norm_num [maxDuration]
  rw [SignTimeout_eq, hp, Option.getD_some, timeUnix_of_ParseInt accessTs t hp ht]
  constructor
  · intro h
    by_contra hlt
    have a := Sub_le now (t + unixToInternal) ((p.liveMinutes + 1) * 60 * 1000000000 - 1)
      (by rw [hmin]; omega) (by omega)
    have b := wholeMinutes_mono _ _ a (Sub_range now _).1 (by rw [hmax]; omega)
    have c := wholeMinutes_below (p.liveMinutes + 1) (by omega) (by omega)
    have d := of_decide_eq_true h
    omega
  · intro h
    have := le_wholeMinutes_Sub now (t + unixToInternal) (p.liveMinutes + 1)
      (by rw [hmin]; omega) (by rw [hmax]; omega) (by omega)
    exact decide_eq_true (by omega)

/-- The window of 2 minutes and the time stamp `0`: expired at 180 s, alive one
nanosecond earlier; and the window of 279619 minutes one nanosecond before
279620 minutes. -/
theorem SignTimeout_iff_witness :
    (SignTimeout exampleGenerator { unix := 180, nsec := 0 } (ascii "0") = true ↔
      (exampleGenerator.liveMinutes + 1) * 60 * 1000000000
        ≤ (((180 : Nat) : Int) - 0) * 1000000000 + (((0 : Fin 1000000000).val : Nat) : Int)) ∧
    (SignTimeout exampleGenerator { unix := 179, nsec := 999999999 } (ascii "0") = true ↔
      (exampleGenerator.liveMinutes + 1) * 60 * 1000000000
        ≤ (((179 : Nat) : Int) - 0) * 1000000000
          + (((999999999 : Fin 1000000000).val : Nat) : Int)) ∧
    (SignTimeout { exampleGenerator with liveMinutes := 279619 }
        { unix := 16777199, nsec := 999999999 } (ascii "0") = true ↔
      ((279619 : Int) + 1) * 60 * 1000000000
        ≤ (((16777199 : Nat) : Int) - 0) * 1000000000
          + (((999999999 : Fin 1000000000).val : Nat) : Int)) :=
  ⟨SignTimeout_iff exampleGenerator { unix := 180, nsec := 0 } (ascii "0") 0
      (by decide) (by decide) (by decide) (by decide),
    SignTimeout_iff exampleGenerator { unix := 179, nsec := 999999999 } (ascii "0") 0
      (by decide) (by decide) (by decide) (by decide),
    SignTimeout_iff { exampleGenerator with liveMinutes := 279619 }
      { unix := 16777199, nsec := 999999999 } (ascii "0") 0
      (by decide) (by decide) (by decide) (by decide)⟩

end Gosign
